import Mathlib

/-!
SQL Server tuple store: the write protocol and the pagers.

A shallow embedding of `pkg/storage/sqlserver/write.go` (the lock-key orderer,
the existing-row locker, the conflict resolver, the mutation executor and the
commit guard) and of the methods `ListStores`, `ReadAuthorizationModels` and
`ReadChanges` of `pkg/storage/sqlserver/sqlserver.go`, together with the
properties of their specification.

Go strings are byte sequences; they are embedded as lists of byte values and
compared bytewise, as the Go operators `==`, `!=` and `<` do.
-/

namespace SqlServer

/-! ## Strings -/

/-- A Go string: a sequence of bytes. -/
abbrev GoString := List Nat

/-- The bytes of an ASCII literal, used to write examples readably. -/
def bytes (s : String) : GoString := s.toList.map Char.toNat

/-- Go's `a < b` on strings: bytewise lexicographic comparison. -/
def strLess : GoString → GoString → Bool
  | [], [] => false
  | [], _ :: _ => true
  | _ :: _, [] => false
  | a :: as, b :: bs => if a < b then true else if b < a then false else strLess as bs

/-- The call `strings.Join(elems, sep)` of the Go standard library. -/
def stringsJoin : List GoString → GoString → GoString
  | [], _ => []
  | [e], _ => e
  | e :: e2 :: rest, sep => e ++ sep ++ stringsJoin (e2 :: rest) sep

/-! ## Data model -/

/-- The composite key we lock on (`tupleLockKey` in write.go). -/
structure tupleLockKey where
  objectType : GoString
  objectID : GoString
  relation : GoString
  user : GoString
  userType : GoString
deriving DecidableEq, Repr

/-- The message `openfgav1.TupleKeyWithoutCondition`: an element of `storage.Deletes`. -/
structure TupleKeyWithoutCondition where
  user : GoString
  relation : GoString
  object : GoString
deriving DecidableEq, Repr

/-- The message `openfgav1.TupleKey`: an element of `storage.Writes`. The
condition is a pointer to a `RelationshipCondition` message, `none` when nil.
The message type is a parameter: the code only compares conditions with
`proto.Equal` (decidable equality here) and hands them to the marshaller. -/
structure TupleKey (Cond : Type) where
  user : GoString
  relation : GoString
  object : GoString
  condition : Option Cond
deriving DecidableEq, Repr

/-- The helpers of package `pkg/tuple` that write.go calls. The package is
imported, its source is not among the files of the storage backend, so the
helpers are parameters of the embedding. -/
structure TupleUtils where
  /-- The helper `tupleUtils.SplitObject`: object reference to (type, id). -/
  SplitObject : GoString → GoString × GoString
  /-- The helper `tupleUtils.GetUserTypeFromUser`. -/
  GetUserTypeFromUser : GoString → GoString
  /-- The helper `tupleUtils.TupleKeyToString`, a function of the getters
  `GetObject`, `GetRelation`, `GetUser` of its argument, in that order. -/
  TupleKeyToString : GoString → GoString → GoString → GoString

/-- The conversion `tupleUtils.TupleKeyWithoutConditionToTupleKey`: same user,
relation and object, nil condition. -/
def TupleKeyWithoutConditionToTupleKey (Cond : Type) (tk : TupleKeyWithoutCondition) :
    TupleKey Cond :=
  { user := tk.user, relation := tk.relation, object := tk.object, condition := none }

/-! ## Lock-key orderer (`makeTupleLockKeys`) -/

/-- The state of the closure `add`: the map `seen` (its key set) and the slice `keys`. -/
structure AddState where
  seen : List GoString
  keys : List tupleLockKey
deriving DecidableEq, Repr

/-- The lock key built from a tuple key at the start of the closure `add`. -/
def lockKeyOf {Cond : Type} (U : TupleUtils) (tk : TupleKey Cond) : tupleLockKey :=
  let split := U.SplitObject tk.object
  let userType := U.GetUserTypeFromUser tk.user
  { objectType := split.1
    objectID := split.2
    relation := tk.relation
    user := tk.user
    userType := userType }

/-- The string `s` that the closure `add` uses as the key of the map `seen`:
the five fields joined with a NUL byte. -/
def seenKey (k : tupleLockKey) : GoString :=
  stringsJoin [k.objectType, k.objectID, k.relation, k.user, k.userType] [0]

/-- The closure `add` of `makeTupleLockKeys`. -/
def add {Cond : Type} (U : TupleUtils) (st : AddState) (tk : TupleKey Cond) : AddState :=
  let k := lockKeyOf U tk
  let s := seenKey k
  if s ∈ st.seen then st
  else { seen := s :: st.seen, keys := st.keys ++ [k] }

/-- The comparator passed to `sort.Slice` in `makeTupleLockKeys`. -/
def lockKeyLess (a b : tupleLockKey) : Bool :=
  if a.objectType ≠ b.objectType then strLess a.objectType b.objectType
  else if a.objectID ≠ b.objectID then strLess a.objectID b.objectID
  else if a.relation ≠ b.relation then strLess a.relation b.relation
  else if a.user ≠ b.user then strLess a.user b.user
  else strLess a.userType b.userType

/-- One insertion of the insertion sort: `x` goes in front of the first
element it is less than. -/
def orderedInsert {α : Type} (less : α → α → Bool) (x : α) : List α → List α
  | [] => [x]
  | y :: ys => if less x y then x :: y :: ys else y :: orderedInsert less x ys

/-- The call `sort.Slice(keys, less)` of the Go standard library, embedded as
an insertion sort driven by the comparator. `sort.Slice` promises a sorted
permutation and no stability; `sortSlice_unique` below shows that on the
slices `makeTupleLockKeys` sorts every such result is this one. -/
def sortSlice {α : Type} (less : α → α → Bool) : List α → List α
  | [] => []
  | x :: xs => orderedInsert less x (sortSlice less xs)

/-- The loops of `makeTupleLockKeys` over deletes and writes, before the sort. -/
def collectKeys {Cond : Type} (U : TupleUtils) (deletes : List TupleKeyWithoutCondition)
    (writes : List (TupleKey Cond)) : AddState :=
  let st0 : AddState := { seen := [], keys := [] }
  let st1 := deletes.foldl
    (fun st tk => add U st (TupleKeyWithoutConditionToTupleKey Cond tk)) st0
  writes.foldl (add U) st1

/-- The function `makeTupleLockKeys`: flattens deletes and writes into a
deduped, sorted slice. -/
def makeTupleLockKeys {Cond : Type} (U : TupleUtils) (deletes : List TupleKeyWithoutCondition)
    (writes : List (TupleKey Cond)) : List tupleLockKey :=
  sortSlice lockKeyLess (collectKeys U deletes writes).keys

/-! ## The helpers of `pkg/tuple`, for concrete evaluation -/

/-- The call `strings.IndexByte(s, c)`, `none` for -1. -/
def indexByte (s : GoString) (c : Nat) : Option Nat :=
  match s with
  | [] => none
  | b :: rest => if b = c then some 0 else (indexByte rest c).map (· + 1)

/-- The call `strings.LastIndexByte(s, c)`, `none` for -1. -/
def lastIndexByte (s : GoString) (c : Nat) : Option Nat :=
  match s with
  | [] => none
  | b :: rest =>
    match lastIndexByte rest c with
    | some i => some (i + 1)
    | none => if b = c then some 0 else none

/-- Modelled from the spec: `SplitObject` of package `pkg/tuple` is not among
the source files. Section 4.6 speaks of "splitting a composite object
reference" into object type and object id; the reference is `type:id`, split
at the first colon, with an empty type when there is no colon. -/
def splitObjectModel (object : GoString) : GoString × GoString :=
  match indexByte object 58 with
  | none => ([], object)
  | some i => (object.take i, object.drop (i + 1))

/-- Modelled from the spec: the split of a userset reference `object#relation`
at its last `#` (package `pkg/tuple`, not among the source files). -/
def splitObjectRelationModel (s : GoString) : GoString × GoString :=
  match lastIndexByte s 35 with
  | none => (s, [])
  | some i => (s.take i, s.drop (i + 1))

/-- Modelled from the spec: `GetUserTypeFromUser` of package `pkg/tuple` is not
among the source files. By the glossary a userset is "a relation-qualified
reference to a set of users" and a wildcard is "a reference matching every
user of a given type"; those have user type `userset`, every other user has
user type `user`. -/
def getUserTypeFromUserModel (user : GoString) : GoString :=
  let objRel := splitObjectRelationModel user
  let isObjectRelation : Bool :=
    decide ((splitObjectModel objRel.1).1 ≠ []) && decide (objRel.2 ≠ [])
  let split := splitObjectModel user
  let isWildcard : Bool :=
    decide (user = bytes "*") || (decide (split.1 ≠ []) && decide (split.2 = bytes "*"))
  if isObjectRelation || isWildcard then bytes "userset" else bytes "user"

/-- Modelled from the spec: `TupleKeyToString` of package `pkg/tuple` is not
among the source files; it renders a key as `object#relation@user`. -/
def tupleKeyToStringModel (object relation user : GoString) : GoString :=
  object ++ bytes "#" ++ relation ++ bytes "@" ++ user

/-- The helpers of `pkg/tuple` as modelled above. -/
def pkgTuple : TupleUtils :=
  { SplitObject := splitObjectModel
    GetUserTypeFromUser := getUserTypeFromUserModel
    TupleKeyToString := tupleKeyToStringModel }

/-! ## The order of the specification -/

/-- The lexicographic order on (objectType, objectID, relation, user,
userType) of section 4.1, the fields compared in that order as strings. -/
def lexLess (a b : tupleLockKey) : Prop :=
  strLess a.objectType b.objectType = true ∨ (a.objectType = b.objectType ∧
  (strLess a.objectID b.objectID = true ∨ (a.objectID = b.objectID ∧
  (strLess a.relation b.relation = true ∨ (a.relation = b.relation ∧
  (strLess a.user b.user = true ∨ (a.user = b.user ∧
  strLess a.userType b.userType = true)))))))

/-- The invariant of the closure `add`: `seen` holds exactly the join strings
of the collected keys, and no two collected keys have the same join string. -/
def AddInv (st : AddState) : Prop :=
  (∀ s, s ∈ st.seen ↔ s ∈ st.keys.map seenKey) ∧ (st.keys.map seenKey).Nodup

/-- No field that is followed by a separator in the join string holds a NUL byte. -/
def tupleLockKey.nulFree (k : tupleLockKey) : Prop :=
  0 ∉ k.objectType ∧ 0 ∉ k.objectID ∧ 0 ∉ k.relation ∧ 0 ∉ k.user

/-- The lock keys of all delete and write keys of a call. -/
def inputLockKeys {Cond : Type} (U : TupleUtils) (deletes : List TupleKeyWithoutCondition)
    (writes : List (TupleKey Cond)) : List tupleLockKey :=
  (deletes.map (TupleKeyWithoutConditionToTupleKey Cond) ++ writes).map (lockKeyOf U)

/-! ## Errors and options -/

/-- The enumeration `openfgav1.TupleOperation`. -/
inductive TupleOperation where
  | TUPLE_OPERATION_WRITE
  | TUPLE_OPERATION_DELETE
deriving DecidableEq, Repr

/-- An error value of the SQL driver, as `HandleSQLError` tells them apart:
`sql.ErrNoRows`, an `mssql.Error` with its number, or anything else. -/
inductive DriverError where
  | ErrNoRows
  | mssqlError (number : Int)
  | otherError (code : Nat)
deriving DecidableEq, Repr

/-- The error values `write` returns. -/
inductive WriteError (Cond : Type) where
  /-- The value `storage.InvalidWriteInputError(tk, operation)`. -/
  | InvalidWriteInputError (tk : TupleKeyWithoutCondition) (operation : TupleOperation)
  /-- The value `storage.TupleConditionConflictError(tk)`. -/
  | TupleConditionConflictError (tk : TupleKey Cond)
  | ErrWriteConflictOnDelete
  | ErrWriteConflictOnInsert
  | ErrNotFound
  | ErrCollision
  /-- The value `fmt.Errorf("sql error: %w", err)`. -/
  | sqlError (err : DriverError)
  /-- The error of `sqlcommon.MarshalRelationshipCondition`, returned as it is. -/
  | marshalError (msg : GoString)
deriving DecidableEq, Repr

/-- A value passed in the variadic `args` of `HandleSQLError`: a `*TupleKey`
or a value of another type. -/
inductive HandleArg (Cond : Type) where
  | tupleKey (tk : TupleKey Cond)
  | otherValue
deriving DecidableEq, Repr

/-- The getters `GetUser`, `GetRelation`, `GetObject` of a tuple key, which is
all `storage.InvalidWriteInputError` reads from its argument. -/
def TupleKey.withoutCondition {Cond : Type} (tk : TupleKey Cond) : TupleKeyWithoutCondition :=
  { user := tk.user, relation := tk.relation, object := tk.object }

/-- The function `HandleSQLError` of sqlserver.go. -/
def HandleSQLError {Cond : Type} (err : DriverError) (args : List (HandleArg Cond)) :
    WriteError Cond :=
  match err with
  | .ErrNoRows => .ErrNotFound
  | .mssqlError number =>
    if number = 2627 ∨ number = 2601 then
      match args with
      | .tupleKey tk :: _ =>
        .InvalidWriteInputError tk.withoutCondition .TUPLE_OPERATION_WRITE
      | _ => .ErrCollision
    else .sqlError err
  | .otherError _ => .sqlError err

/-- The policy `storage.OnMissingDelete`; `other` stands for any value that is
neither of the two named constants. -/
inductive OnMissingDelete where
  | OnMissingDeleteIgnore
  | OnMissingDeleteError
  | other (value : Nat)
deriving DecidableEq, Repr

/-- The policy `storage.OnDuplicateInsert`; `other` stands for any value that
is neither of the two named constants. -/
inductive OnDuplicateInsert where
  | OnDuplicateInsertIgnore
  | OnDuplicateInsertError
  | other (value : Nat)
deriving DecidableEq, Repr

/-- The options `storage.TupleWriteOptions`. -/
structure TupleWriteOptions where
  OnMissingDelete : OnMissingDelete
  OnDuplicateInsert : OnDuplicateInsert
deriving DecidableEq, Repr

/-! ## Rows and tables -/

/-- The message `openfgav1.Tuple` as the locker reads it back. -/
structure Tuple (Cond : Type) where
  key : TupleKey Cond
  timestamp : Nat
deriving DecidableEq, Repr

/-- A value list of the `tuple` insert, in the column order of write.go. -/
structure TupleRow where
  store : GoString
  objectType : GoString
  objectID : GoString
  relation : GoString
  user : GoString
  userType : GoString
  conditionName : GoString
  conditionContext : Option GoString
  ulid : GoString
  insertedAt : GoString
deriving DecidableEq, Repr

/-- A value list of the `changelog` insert, in the column order of write.go. -/
structure ChangelogRow where
  store : GoString
  objectType : GoString
  objectID : GoString
  relation : GoString
  user : GoString
  conditionName : GoString
  conditionContext : Option GoString
  operation : TupleOperation
  ulid : GoString
  insertedAt : GoString
deriving DecidableEq, Repr

/-- The predicate `sq.Eq` over the five key columns, one disjunct of the
locking read and of the delete statement. -/
structure KeyEq where
  objectType : GoString
  objectID : GoString
  relation : GoString
  user : GoString
  userType : GoString
deriving DecidableEq, Repr

/-- Whether a row of `tuple` satisfies a key predicate. -/
def KeyEq.holds (c : KeyEq) (r : TupleRow) : Bool :=
  decide (r.objectType = c.objectType) && decide (r.objectID = c.objectID) &&
  decide (r.relation = c.relation) && decide (r.user = c.user) &&
  decide (r.userType = c.userType)

/-- The tables `tuple` and `changelog`. -/
structure Tables where
  tuple : List TupleRow
  changelog : List ChangelogRow
deriving DecidableEq, Repr

/-- What write.go takes from its collaborators: the helpers of `pkg/tuple`, the
condition marshaller and the row decoder of `sqlcommon`, the identifier
generator of `ulid`, the expression `NowExpr` and the batch bound
`storage.DefaultMaxTuplesPerWrite`. -/
structure Env (Cond : Type) where
  U : TupleUtils
  /-- The function `sqlcommon.MarshalRelationshipCondition`. -/
  MarshalRelationshipCondition : Option Cond → Except GoString (GoString × Option GoString)
  /-- The decoding of a selected row by the tuple iterator of `sqlcommon`. -/
  rowToTuple : TupleRow → Tuple Cond
  /-- The call `ulid.MustNew(ulid.Timestamp(now), entropy).String()`: the
  identifier for time `now` at the given number of earlier draws from `entropy`. -/
  newULID : Nat → Nat → GoString
  /-- The value `s.dbInfo.NowExpr()`. -/
  NowExpr : GoString
  /-- The constant `storage.DefaultMaxTuplesPerWrite`. -/
  DefaultMaxTuplesPerWrite : Nat
  /-- The constant is positive; the batch loops would not end otherwise. -/
  maxTuples_pos : 0 < DefaultMaxTuplesPerWrite

/-! ## The transactional SQL handle -/

/-- The database as one write call sees it: the committed tables, the view of
the open transaction (if any), and the driver's failures, given per driver
call in the order of the calls (`BeginTx`, each query, each `ExecContext`,
each `RowsAffected`, `Commit`). Statements work on the view; `Commit` installs
the view as the committed tables, and a failed `Commit` or a `Rollback`
discards it. Other transactions are not part of the embedding. -/
structure DB where
  committed : Tables
  txn : Option Tables
  faults : Nat → Option DriverError
  calls : Nat

/-- The tables a statement of the open transaction works on. -/
def DB.view (db : DB) : Tables := db.txn.getD db.committed

/-- The call `s.db.BeginTx`. -/
def BeginTx (db : DB) : Except DriverError Unit × DB :=
  match db.faults db.calls with
  | some err => (.error err, { db with calls := db.calls + 1 })
  | none => (.ok (), { db with calls := db.calls + 1, txn := some db.committed })

/-- The call `txn.Commit()`. -/
def Commit (db : DB) : Except DriverError Unit × DB :=
  match db.faults db.calls with
  | some err => (.error err, { db with calls := db.calls + 1, txn := none })
  | none => (.ok (), { db with calls := db.calls + 1, committed := db.view, txn := none })

/-- The call `txn.Rollback()`; it does nothing once the transaction is over. -/
def Rollback (db : DB) : DB := { db with txn := none }

/-- The locking read: the rows of `tuple` of the store that satisfy one of the predicates. -/
def queryTuples (store : GoString) (orConditions : List KeyEq) (db : DB) :
    Except DriverError (List TupleRow) × DB :=
  match db.faults db.calls with
  | some err => (.error err, { db with calls := db.calls + 1 })
  | none =>
    (.ok (db.view.tuple.filter
        (fun r => decide (r.store = store) && orConditions.any (fun c => c.holds r))),
      { db with calls := db.calls + 1 })

/-- The statement `DELETE FROM tuple WHERE store = ? AND (... OR ...)`: the
result carries the number of rows it removed. -/
def execDelete (store : GoString) (conds : List KeyEq) (db : DB) :
    Except DriverError Nat × DB :=
  match db.faults db.calls with
  | some err => (.error err, { db with calls := db.calls + 1 })
  | none =>
    let hit : TupleRow → Bool :=
      fun r => decide (r.store = store) && conds.any (fun c => c.holds r)
    (.ok ((db.view.tuple.filter hit).length),
      { db with calls := db.calls + 1,
                txn := some { db.view with tuple := db.view.tuple.filter (fun r => !hit r) } })

/-- The call `res.RowsAffected()`. -/
def RowsAffected (res : Nat) (db : DB) : Except DriverError Nat × DB :=
  match db.faults db.calls with
  | some err => (.error err, { db with calls := db.calls + 1 })
  | none => (.ok res, { db with calls := db.calls + 1 })

/-- The identity on which `tuple` is unique. -/
def TupleRow.identity (r : TupleRow) : List GoString :=
  [r.store, r.objectType, r.objectID, r.relation, r.user, r.userType]

/-- Whether a list of rows has two rows of the same identity. -/
def hasDuplicateIdentity : List TupleRow → Bool
  | [] => false
  | r :: rest => rest.any (fun q => decide (q.identity = r.identity)) || hasDuplicateIdentity rest

/-- The multi-row `INSERT INTO tuple`: it fails as a whole with error 2627 when
a row would violate the uniqueness of the identity. -/
def execInsertTuple (rows : List TupleRow) (db : DB) : Except DriverError Unit × DB :=
  match db.faults db.calls with
  | some err => (.error err, { db with calls := db.calls + 1 })
  | none =>
    if hasDuplicateIdentity rows ||
        rows.any (fun r => db.view.tuple.any (fun q => decide (q.identity = r.identity))) then
      (.error (.mssqlError 2627), { db with calls := db.calls + 1 })
    else
      (.ok (), { db with calls := db.calls + 1,
                         txn := some { db.view with tuple := db.view.tuple ++ rows } })

/-- The multi-row `INSERT INTO changelog`. -/
def execInsertChangelog (rows : List ChangelogRow) (db : DB) : Except DriverError Unit × DB :=
  match db.faults db.calls with
  | some err => (.error err, { db with calls := db.calls + 1 })
  | none =>
    (.ok (), { db with calls := db.calls + 1,
                       txn := some { db.view with changelog := db.view.changelog ++ rows } })

/-! ## Batching -/

/-- The loop header `for start := 0; start < total; start += B` with
`end := min(start+B, total)`: the slices `xs[start:end]` in loop order. The
first argument bounds the number of iterations; `batches` passes the length
of the slice, which is enough when `B` is positive. -/
def batchLoop {α : Type} (B : Nat) (xs : List α) : Nat → Nat → List (List α)
  | 0, _ => []
  | fuel + 1, start =>
    if start < xs.length then
      let stop := if start + B > xs.length then xs.length else start + B
      ((xs.drop start).take (stop - start)) :: batchLoop B xs fuel (start + B)
    else []

/-- The batches a loop of write.go runs over. -/
def batches {α : Type} (B : Nat) (xs : List α) : List (List α) :=
  batchLoop B xs xs.length 0

/-! ## Existing-row locker -/

/-- The map `existing` of `write`: from `TupleKeyToString` of a stored key to
the stored tuple. The newest binding of a key comes first. -/
abbrev ExistingMap (Cond : Type) := List (GoString × Tuple Cond)

/-- The predicate built from a lock key in `selectExistingRowsForWrite`. -/
def tupleLockKey.toEq (k : tupleLockKey) : KeyEq :=
  { objectType := k.objectType, objectID := k.objectID, relation := k.relation,
    user := k.user, userType := k.userType }

/-- The method `selectExistingRowsForWrite`: one locking read for a batch of
keys; the tuples it finds are added to `existing`. The iterator reads at most
`len(keys)` rows and reports a failed query through `HandleSQLError`. -/
def selectExistingRowsForWrite {Cond : Type} (E : Env Cond) (store : GoString)
    (keys : List tupleLockKey) (db : DB) (existing : ExistingMap Cond) :
    Except (WriteError Cond) (ExistingMap Cond) × DB :=
  if keys.length = 0 then (.ok existing, db)
  else
    let orConditions := keys.map tupleLockKey.toEq
    match queryTuples store orConditions db with
    | (.error err, db1) => (.error (HandleSQLError err []), db1)
    | (.ok rows, db1) =>
      let items := (rows.take keys.length).map E.rowToTuple
      (.ok (items.foldl (fun m tuple =>
          (E.U.TupleKeyToString tuple.key.object tuple.key.relation tuple.key.user, tuple) :: m)
          existing), db1)

/-- Step 3 of `write`: the locking reads, batch after batch. -/
def lockLoop {Cond : Type} (E : Env Cond) (store : GoString) :
    List (List tupleLockKey) → ExistingMap Cond → DB →
    Except (WriteError Cond) (ExistingMap Cond) × DB
  | [], existing, db => (.ok existing, db)
  | keys :: rest, existing, db =>
    match selectExistingRowsForWrite E store keys db existing with
    | (.error err, db1) => (.error err, db1)
    | (.ok existing1, db1) => lockLoop E store rest existing1 db1

/-! ## Conflict resolver and row construction -/

/-- The local slices of `write` that steps 4 and 5 fill, and the number of
identifiers drawn from `entropy` so far. -/
structure Plan where
  changeLogItems : List ChangelogRow
  deleteConditions : List KeyEq
  writeItems : List TupleRow
  draws : Nat
deriving DecidableEq, Repr

/-- The delete predicate appended for a delete key. -/
def deleteConditionOf (U : TupleUtils) (tk : TupleKeyWithoutCondition) : KeyEq :=
  { objectType := (U.SplitObject tk.object).1
    objectID := (U.SplitObject tk.object).2
    relation := tk.relation
    user := tk.user
    userType := U.GetUserTypeFromUser tk.user }

/-- The changelog item appended for a delete key. -/
def deleteChangelogOf {Cond : Type} (E : Env Cond) (store : GoString)
    (tk : TupleKeyWithoutCondition) (id : GoString) : ChangelogRow :=
  { store := store
    objectType := (E.U.SplitObject tk.object).1
    objectID := (E.U.SplitObject tk.object).2
    relation := tk.relation
    user := tk.user
    conditionName := []
    conditionContext := none
    operation := .TUPLE_OPERATION_DELETE
    ulid := id
    insertedAt := E.NowExpr }

/-- Step 4 of `write`: the loop over `deletes`. -/
def deletesLoop {Cond : Type} (E : Env Cond) (store : GoString) (opts : TupleWriteOptions)
    (now : Nat) (existing : ExistingMap Cond) :
    List TupleKeyWithoutCondition → Plan → Except (WriteError Cond) Plan
  | [], p => .ok p
  | tk :: rest, p =>
    match existing.lookup (E.U.TupleKeyToString tk.object tk.relation tk.user) with
    | none =>
      match opts.OnMissingDelete with
      | .OnMissingDeleteIgnore => deletesLoop E store opts now existing rest p
      | _ => .error (.InvalidWriteInputError tk .TUPLE_OPERATION_DELETE)
    | some _ =>
      let id := E.newULID now p.draws
      deletesLoop E store opts now existing rest
        { p with
          deleteConditions := p.deleteConditions ++ [deleteConditionOf E.U tk]
          changeLogItems := p.changeLogItems ++ [deleteChangelogOf E store tk id]
          draws := p.draws + 1 }

/-- The tuple item appended for a write key. -/
def writeItemOf {Cond : Type} (E : Env Cond) (store : GoString) (tk : TupleKey Cond)
    (conditionName : GoString) (conditionContext : Option GoString) (id : GoString) : TupleRow :=
  { store := store
    objectType := (E.U.SplitObject tk.object).1
    objectID := (E.U.SplitObject tk.object).2
    relation := tk.relation
    user := tk.user
    userType := E.U.GetUserTypeFromUser tk.user
    conditionName := conditionName
    conditionContext := conditionContext
    ulid := id
    insertedAt := E.NowExpr }

/-- The changelog item appended for a write key. -/
def writeChangelogOf {Cond : Type} (E : Env Cond) (store : GoString) (tk : TupleKey Cond)
    (conditionName : GoString) (conditionContext : Option GoString) (id : GoString) :
    ChangelogRow :=
  { store := store
    objectType := (E.U.SplitObject tk.object).1
    objectID := (E.U.SplitObject tk.object).2
    relation := tk.relation
    user := tk.user
    conditionName := conditionName
    conditionContext := conditionContext
    operation := .TUPLE_OPERATION_WRITE
    ulid := id
    insertedAt := E.NowExpr }

/-- Step 5 of `write`: the loop over `writes`. The comparison of conditions
is `proto.Equal`. -/
def writesLoop {Cond : Type} [DecidableEq Cond] (E : Env Cond) (store : GoString)
    (opts : TupleWriteOptions) (now : Nat) (existing : ExistingMap Cond) :
    List (TupleKey Cond) → Plan → Except (WriteError Cond) Plan
  | [], p => .ok p
  | tk :: rest, p =>
    match existing.lookup (E.U.TupleKeyToString tk.object tk.relation tk.user) with
    | some existingTuple =>
      match opts.OnDuplicateInsert with
      | .OnDuplicateInsertIgnore =>
        if existingTuple.key.condition = tk.condition then
          writesLoop E store opts now existing rest p
        else .error (.TupleConditionConflictError tk)
      | _ => .error (.InvalidWriteInputError tk.withoutCondition .TUPLE_OPERATION_WRITE)
    | none =>
      let id := E.newULID now p.draws
      match E.MarshalRelationshipCondition tk.condition with
      | .error msg => .error (.marshalError msg)
      | .ok (conditionName, conditionContext) =>
        writesLoop E store opts now existing rest
          { p with
            writeItems := p.writeItems ++
              [writeItemOf E store tk conditionName conditionContext id]
            changeLogItems := p.changeLogItems ++
              [writeChangelogOf E store tk conditionName conditionContext id]
            draws := p.draws + 1 }

/-- The slices as `write` creates them, before step 4. -/
def Plan.empty : Plan :=
  { changeLogItems := [], deleteConditions := [], writeItems := [], draws := 0 }

/-- Steps 4 and 5 of `write` against the locked snapshot `existing`. -/
def resolve {Cond : Type} [DecidableEq Cond] (E : Env Cond) (store : GoString)
    (deletes : List TupleKeyWithoutCondition) (writes : List (TupleKey Cond))
    (opts : TupleWriteOptions) (now : Nat) (existing : ExistingMap Cond) :
    Except (WriteError Cond) Plan :=
  match deletesLoop E store opts now existing deletes Plan.empty with
  | .error err => .error err
  | .ok p => writesLoop E store opts now existing writes p

/-! ## Mutation executor and commit guard -/

/-- The loop "Execute deletes" of `write`. -/
def deleteLoop (Cond : Type) (store : GoString) :
    List (List KeyEq) → DB → Option (WriteError Cond) × DB
  | [], db => (none, db)
  | deleteConditionsBatch :: rest, db =>
    match execDelete store deleteConditionsBatch db with
    | (.error err, db1) => (some (HandleSQLError err []), db1)
    | (.ok res, db1) =>
      match RowsAffected res db1 with
      | (.error err, db2) => (some (HandleSQLError err []), db2)
      | (.ok rowsAffected, db2) =>
        if rowsAffected ≠ deleteConditionsBatch.length then
          (some .ErrWriteConflictOnDelete, db2)
        else deleteLoop Cond store rest db2

/-- The loop "Execute writes" of `write`; a collision is reclassified. -/
def insertLoop (Cond : Type) : List (List TupleRow) → DB → Option (WriteError Cond) × DB
  | [], db => (none, db)
  | writesBatch :: rest, db =>
    match execInsertTuple writesBatch db with
    | (.error err, db1) =>
      match (HandleSQLError err [] : WriteError Cond) with
      | .ErrCollision => (some .ErrWriteConflictOnInsert, db1)
      | dberr => (some dberr, db1)
    | (.ok _, db1) => insertLoop Cond rest db1

/-- Step 6 of `write`: the changelog inserts. -/
def changelogLoop (Cond : Type) : List (List ChangelogRow) → DB → Option (WriteError Cond) × DB
  | [], db => (none, db)
  | changeLogBatch :: rest, db =>
    match execInsertChangelog changeLogBatch db with
    | (.error err, db1) => (some (HandleSQLError err []), db1)
    | (.ok _, db1) => changelogLoop Cond rest db1

/-- The part of `write` from step 4 on, given the locked snapshot. -/
def writeResolved {Cond : Type} [DecidableEq Cond] (E : Env Cond) (store : GoString)
    (deletes : List TupleKeyWithoutCondition) (writes : List (TupleKey Cond))
    (opts : TupleWriteOptions) (now : Nat) (existing : ExistingMap Cond) (db : DB) :
    Option (WriteError Cond) × DB :=
  match resolve E store deletes writes opts now existing with
  | .error err => (some err, db)
  | .ok p =>
    match deleteLoop Cond store (batches E.DefaultMaxTuplesPerWrite p.deleteConditions) db with
    | (some err, db1) => (some err, db1)
    | (none, db1) =>
      match insertLoop Cond (batches E.DefaultMaxTuplesPerWrite p.writeItems) db1 with
      | (some err, db2) => (some err, db2)
      | (none, db2) =>
        match changelogLoop Cond (batches E.DefaultMaxTuplesPerWrite p.changeLogItems) db2 with
        | (some err, db3) => (some err, db3)
        | (none, db3) =>
          match Commit db3 with
          | (.error err, db4) => (some (HandleSQLError err []), db4)
          | (.ok _, db4) => (none, db4)

/-- The body of `write` inside the transaction, steps 2 to 7. -/
def writeTx {Cond : Type} [DecidableEq Cond] (E : Env Cond) (store : GoString)
    (deletes : List TupleKeyWithoutCondition) (writes : List (TupleKey Cond))
    (opts : TupleWriteOptions) (now : Nat) (db : DB) : Option (WriteError Cond) × DB :=
  let lockKeys := makeTupleLockKeys E.U deletes writes
  let total := lockKeys.length
  if total = 0 then (none, db)
  else
    match lockLoop E store (batches E.DefaultMaxTuplesPerWrite lockKeys) [] db with
    | (.error err, db1) => (some err, db1)
    | (.ok existing, db1) => writeResolved E store deletes writes opts now existing db1

/-- The method `write`: `none` is the nil error. The deferred `txn.Rollback()`
runs on every return after a successful `BeginTx`. -/
def write {Cond : Type} [DecidableEq Cond] (E : Env Cond) (store : GoString)
    (deletes : List TupleKeyWithoutCondition) (writes : List (TupleKey Cond))
    (opts : TupleWriteOptions) (now : Nat) (db : DB) : Option (WriteError Cond) × DB :=
  match BeginTx db with
  | (.error err, db1) => (some (HandleSQLError err []), db1)
  | (.ok _, db1) =>
    let r := writeTx E store deletes writes opts now db1
    (r.1, Rollback r.2)

/-! ## Vocabulary of the claims on conflict resolution -/

/-- The state `write` is in when step 3 is done: `BeginTx` and every locking
read succeeded, `existing` is the locked snapshot. `none` when `write`
returned before. -/
def lockedSnapshot {Cond : Type} (E : Env Cond) (store : GoString)
    (deletes : List TupleKeyWithoutCondition) (writes : List (TupleKey Cond)) (db : DB) :
    Option (ExistingMap Cond × DB) :=
  match BeginTx db with
  | (.error _, _) => none
  | (.ok _, db1) =>
    if (makeTupleLockKeys E.U deletes writes).length = 0 then none
    else
      match lockLoop E store
          (batches E.DefaultMaxTuplesPerWrite (makeTupleLockKeys E.U deletes writes)) [] db1 with
      | (.error _, _) => none
      | (.ok existing, db2) => some (existing, db2)

/-- A delete key is absent from the locked snapshot. -/
def deleteMissing {Cond : Type} (E : Env Cond) (existing : ExistingMap Cond)
    (tk : TupleKeyWithoutCondition) : Bool :=
  (existing.lookup (E.U.TupleKeyToString tk.object tk.relation tk.user)).isNone

/-- A write key is present in the locked snapshot. -/
def writePresent {Cond : Type} (E : Env Cond) (existing : ExistingMap Cond)
    (tk : TupleKey Cond) : Bool :=
  (existing.lookup (E.U.TupleKeyToString tk.object tk.relation tk.user)).isSome

/-- The delete keys found in the locked snapshot, in the order of the delete list. -/
def foundDeletes {Cond : Type} (E : Env Cond) (existing : ExistingMap Cond)
    (deletes : List TupleKeyWithoutCondition) : List TupleKeyWithoutCondition :=
  deletes.filter (fun tk => !deleteMissing E existing tk)

/-- The write keys that are not in the locked snapshot, in the order of the write list. -/
def newWrites {Cond : Type} (E : Env Cond) (existing : ExistingMap Cond)
    (writes : List (TupleKey Cond)) : List (TupleKey Cond) :=
  writes.filter (fun tk => !writePresent E existing tk)

/-- One DELETE changelog row per key, with consecutive identifiers from draw `d` on. -/
def deleteRows {Cond : Type} (E : Env Cond) (store : GoString) (now : Nat) :
    Nat → List TupleKeyWithoutCondition → List ChangelogRow
  | _, [] => []
  | d, tk :: rest =>
    deleteChangelogOf E store tk (E.newULID now d) :: deleteRows E store now (d + 1) rest

/-- The condition name and context the marshaller returns for a key (empty
when it fails). -/
def marshalled {Cond : Type} (E : Env Cond) (tk : TupleKey Cond) : GoString × Option GoString :=
  match E.MarshalRelationshipCondition tk.condition with
  | .ok v => v
  | .error _ => ([], none)

/-- Whether the marshaller fails on the condition of a key. -/
def marshalFails {Cond : Type} (E : Env Cond) (tk : TupleKey Cond) : Bool :=
  match E.MarshalRelationshipCondition tk.condition with
  | .ok _ => false
  | .error _ => true

/-- One tuple row per key, with consecutive identifiers from draw `d` on. -/
def writeRows {Cond : Type} (E : Env Cond) (store : GoString) (now : Nat) :
    Nat → List (TupleKey Cond) → List TupleRow
  | _, [] => []
  | d, tk :: rest =>
    writeItemOf E store tk (marshalled E tk).1 (marshalled E tk).2 (E.newULID now d)
      :: writeRows E store now (d + 1) rest

/-- One WRITE changelog row per key, with consecutive identifiers from draw `d` on. -/
def writeChangelogRows {Cond : Type} (E : Env Cond) (store : GoString) (now : Nat) :
    Nat → List (TupleKey Cond) → List ChangelogRow
  | _, [] => []
  | d, tk :: rest =>
    writeChangelogOf E store tk (marshalled E tk).1 (marshalled E tk).2 (E.newULID now d)
      :: writeChangelogRows E store now (d + 1) rest

/-- The slices after step 4 has planned the deletes `found`. -/
def Plan.addDeletes {Cond : Type} (E : Env Cond) (store : GoString) (now : Nat) (p : Plan)
    (found : List TupleKeyWithoutCondition) : Plan :=
  { changeLogItems := p.changeLogItems ++ deleteRows E store now p.draws found
    deleteConditions := p.deleteConditions ++ found.map (deleteConditionOf E.U)
    writeItems := p.writeItems
    draws := p.draws + found.length }

/-- The slices after step 5 has planned the writes `fresh`. -/
def Plan.addWrites {Cond : Type} (E : Env Cond) (store : GoString) (now : Nat) (p : Plan)
    (fresh : List (TupleKey Cond)) : Plan :=
  { changeLogItems := p.changeLogItems ++ writeChangelogRows E store now p.draws fresh
    deleteConditions := p.deleteConditions
    writeItems := p.writeItems ++ writeRows E store now p.draws fresh
    draws := p.draws + fresh.length }

/-- The changelog row that goes with a tuple row: same store, identity,
condition, identifier and time, operation WRITE. -/
def TupleRow.toChangelog (r : TupleRow) : ChangelogRow :=
  { store := r.store
    objectType := r.objectType
    objectID := r.objectID
    relation := r.relation
    user := r.user
    conditionName := r.conditionName
    conditionContext := r.conditionContext
    operation := .TUPLE_OPERATION_WRITE
    ulid := r.ulid
    insertedAt := r.insertedAt }

/-- The error step 4 returns when it reaches a delete key, `none` when it goes on. -/
def deleteVerdict {Cond : Type} (E : Env Cond) (opts : TupleWriteOptions)
    (existing : ExistingMap Cond) (tk : TupleKeyWithoutCondition) : Option (WriteError Cond) :=
  if deleteMissing E existing tk then
    match opts.OnMissingDelete with
    | .OnMissingDeleteIgnore => none
    | _ => some (.InvalidWriteInputError tk .TUPLE_OPERATION_DELETE)
  else none

/-- The error step 5 returns when it reaches a write key, `none` when it goes on. -/
def writeVerdict {Cond : Type} [DecidableEq Cond] (E : Env Cond) (opts : TupleWriteOptions)
    (existing : ExistingMap Cond) (tk : TupleKey Cond) : Option (WriteError Cond) :=
  match existing.lookup (E.U.TupleKeyToString tk.object tk.relation tk.user) with
  | some existingTuple =>
    match opts.OnDuplicateInsert with
    | .OnDuplicateInsertIgnore =>
      if existingTuple.key.condition = tk.condition then none
      else some (.TupleConditionConflictError tk)
    | _ => some (.InvalidWriteInputError tk.withoutCondition .TUPLE_OPERATION_WRITE)
  | none =>
    match E.MarshalRelationshipCondition tk.condition with
    | .error msg => some (.marshalError msg)
    | .ok _ => none

/-- Whether a delete statement of the store with these predicates removes a row. -/
def deleteHits (store : GoString) (conds : List KeyEq) (r : TupleRow) : Bool :=
  decide (r.store = store) && conds.any (fun c => c.holds r)

/-- The tables after the planned deletes, inserts and changelog rows are all applied. -/
def applyPlan (store : GoString) (p : Plan) (t : Tables) : Tables :=
  { tuple := t.tuple.filter (fun r => !deleteHits store p.deleteConditions r) ++ p.writeItems
    changelog := t.changelog ++ p.changeLogItems }

/-- The slices of `write` when steps 4 and 5 pass: the delete keys found in
the snapshot are planned first, the write keys that are not in it after. -/
def plannedRows {Cond : Type} (E : Env Cond) (store : GoString) (now : Nat)
    (existing : ExistingMap Cond) (deletes : List TupleKeyWithoutCondition)
    (writes : List (TupleKey Cond)) : Plan :=
  Plan.addWrites E store now
    (Plan.addDeletes E store now Plan.empty (foundDeletes E existing deletes))
    (newWrites E existing writes)

/-! ## Concrete values for evaluation -/

/-- A delete key whose object type ends in a NUL byte: object `a\0:b`. -/
def nulKeyA : TupleKeyWithoutCondition :=
  { object := [97, 0, 58, 98], relation := bytes "r", user := bytes "u" }

/-- A delete key whose object id starts with a NUL byte: object `a:\0b`. -/
def nulKeyB : TupleKeyWithoutCondition :=
  { object := [97, 58, 0, 98], relation := bytes "r", user := bytes "u" }

/-- The context of a condition in the examples: one that serialises to the
given bytes, or one that `proto.Marshal` rejects. -/
inductive ExampleContext where
  | serialisable (data : GoString)
  | unserialisable
deriving DecidableEq, Repr

/-- The message `RelationshipCondition` in the examples: a name and a context (nil or not). -/
structure ExampleCondition where
  name : GoString
  context : Option ExampleContext
deriving DecidableEq, Repr

/-- The marshaller in the examples: a nil condition gives an empty name and
nil bytes; a context is serialised when there is one, with the error of the
serialiser passed on. -/
def exampleMarshal : Option ExampleCondition → Except GoString (GoString × Option GoString)
  | none => .ok ([], none)
  | some c =>
    match c.context with
    | none => .ok (c.name, none)
    | some (.serialisable data) => .ok (c.name, some data)
    | some .unserialisable => .error (bytes "marshal")

/-- The row decoder in the examples: the object is `type:id`, the condition is
nil when the stored name is empty. -/
def exampleRowToTuple (r : TupleRow) : Tuple ExampleCondition :=
  { key :=
      { user := r.user
        relation := r.relation
        object := r.objectType ++ bytes ":" ++ r.objectID
        condition :=
          if r.conditionName = [] then none
          else some { name := r.conditionName
                      context := r.conditionContext.map ExampleContext.serialisable } }
    timestamp := 0 }

/-- The collaborators in the examples, with a batch bound of 2. -/
def exampleEnv : Env ExampleCondition :=
  { U := pkgTuple
    MarshalRelationshipCondition := exampleMarshal
    rowToTuple := exampleRowToTuple
    newULID := fun now draws => [now, draws]
    NowExpr := bytes "NOW"
    DefaultMaxTuplesPerWrite := 2
    maxTuples_pos := by decide }

/-- A stored row of store `s` for `doc:1#viewer@user:x`, with the given condition name. -/
def exampleRow (user conditionName : GoString) : TupleRow :=
  { store := bytes "s"
    objectType := bytes "doc"
    objectID := bytes "1"
    relation := bytes "viewer"
    user := user
    userType := bytes "user"
    conditionName := conditionName
    conditionContext := none
    ulid := bytes "id0"
    insertedAt := bytes "NOW" }

/-- A write key for `doc:1#viewer@user`, with the given condition. -/
def exampleWrite (user : GoString) (condition : Option ExampleCondition) :
    TupleKey ExampleCondition :=
  { user := user, relation := bytes "viewer", object := bytes "doc:1", condition := condition }

/-- A delete key for `doc:1#viewer@user`. -/
def exampleDelete (user : GoString) : TupleKeyWithoutCondition :=
  { user := user, relation := bytes "viewer", object := bytes "doc:1" }

/-- A database with the given committed rows of `tuple`, an empty changelog,
no open transaction and a driver that fails as `faults` says. -/
def exampleDB (rows : List TupleRow) (faults : Nat → Option DriverError) : DB :=
  { committed := { tuple := rows, changelog := [] }, txn := none, faults := faults, calls := 0 }

/-- A driver that never fails. -/
def noFaults : Nat → Option DriverError := fun _ => none

/-- The user `user:x` of the examples. -/
def userX : GoString := bytes "user:x"

/-- The user `user:y` of the examples. -/
def userY : GoString := bytes "user:y"

/-- Both policies set to Ignore. -/
def optsIgnore : TupleWriteOptions :=
  { OnMissingDelete := .OnMissingDeleteIgnore, OnDuplicateInsert := .OnDuplicateInsertIgnore }

/-- Both policies set to Error. -/
def optsError : TupleWriteOptions :=
  { OnMissingDelete := .OnMissingDeleteError, OnDuplicateInsert := .OnDuplicateInsertError }

/-- Missing deletes are an error, duplicate inserts are ignored. -/
def optsErrorIgnore : TupleWriteOptions :=
  { OnMissingDelete := .OnMissingDeleteError, OnDuplicateInsert := .OnDuplicateInsertIgnore }

/-- The snapshot the locker takes in the examples when the row of `user:x` is
stored with the given condition name and the call touches that key only. -/
def snapshotX (conditionName : GoString) : ExistingMap ExampleCondition :=
  [(bytes "doc:1#viewer@user:x", exampleRowToTuple (exampleRow userX conditionName))]

/-- The database of the examples after `BeginTx` and one locking read. -/
def lockedDB (rows : List TupleRow) (faults : Nat → Option DriverError) : DB :=
  { committed := { tuple := rows, changelog := [] }
    txn := some { tuple := rows, changelog := [] }
    faults := faults
    calls := 2 }

/-- The snapshot the locker takes in the examples when the rows of `user:x`
and `user:y` are stored with the given condition name and the call touches
both keys. -/
def snapshotXY (conditionName : GoString) : ExistingMap ExampleCondition :=
  [(bytes "doc:1#viewer@user:y", exampleRowToTuple (exampleRow userY conditionName)),
   (bytes "doc:1#viewer@user:x", exampleRowToTuple (exampleRow userX conditionName))]

/-- The snapshot the locker takes in the examples when only the row of
`user:y` is stored, without condition. -/
def snapshotY : ExistingMap ExampleCondition :=
  [(bytes "doc:1#viewer@user:y", exampleRowToTuple (exampleRow userY []))]

/-- A condition whose context the marshaller rejects. -/
def badCondition : ExampleCondition := { name := bytes "c", context := some .unserialisable }

/-- What the claims say of the changelog row of a deleted key: operation
DELETE, the store, the identity fields of the key, an empty condition name
and a null condition context. -/
def isRedactedDeleteRow {Cond : Type} (E : Env Cond) (store : GoString)
    (tk : TupleKeyWithoutCondition) (row : ChangelogRow) : Prop :=
  row.operation = .TUPLE_OPERATION_DELETE ∧ row.store = store ∧
  row.objectType = (E.U.SplitObject tk.object).1 ∧
  row.objectID = (E.U.SplitObject tk.object).2 ∧
  row.relation = tk.relation ∧ row.user = tk.user ∧
  row.conditionName = [] ∧ row.conditionContext = none

/-- A driver whose call number `n` fails with the given error. -/
def faultAt (n : Nat) (err : DriverError) : Nat → Option DriverError :=
  fun i => if i = n then some err else none

/-- The plan of the examples for deleting `user:x` and writing `user:y`
without condition at time 7. -/
def examplePlan : Plan :=
  { changeLogItems :=
      [deleteChangelogOf exampleEnv (bytes "s") (exampleDelete userX) [7, 0],
       writeChangelogOf exampleEnv (bytes "s") (exampleWrite userY none) [] none [7, 1]]
    deleteConditions := [deleteConditionOf pkgTuple (exampleDelete userX)]
    writeItems := [writeItemOf exampleEnv (bytes "s") (exampleWrite userY none) [] none [7, 1]]
    draws := 2 }

/-- The plan of the examples for writing `user:y` without condition at time 7
when nothing is deleted. -/
def exampleWritePlan : Plan :=
  { changeLogItems :=
      [writeChangelogOf exampleEnv (bytes "s") (exampleWrite userY none) [] none [7, 0]]
    deleteConditions := []
    writeItems := [writeItemOf exampleEnv (bytes "s") (exampleWrite userY none) [] none [7, 0]]
    draws := 1 }

/-- The slices of the ordered key list that step 3 of `write` reads, in loop order. -/
def lockKeyBatches {Cond : Type} (E : Env Cond) (deletes : List TupleKeyWithoutCondition)
    (writes : List (TupleKey Cond)) : List (List tupleLockKey) :=
  batches E.DefaultMaxTuplesPerWrite (makeTupleLockKeys E.U deletes writes)

/-- The user `user:z` of the examples. -/
def userZ : GoString := bytes "user:z"

/-- The database of the examples right after `BeginTx`. -/
def begunDB (rows : List TupleRow) (faults : Nat → Option DriverError) : DB :=
  { committed := { tuple := rows, changelog := [] }
    txn := some { tuple := rows, changelog := [] }
    faults := faults
    calls := 1 }

/-- The snapshot the locker takes in the examples when `user:x` is stored
without condition and `user:y` with condition `c`, and the call touches both. -/
def snapshotXYc : ExistingMap ExampleCondition :=
  [(bytes "doc:1#viewer@user:y", exampleRowToTuple (exampleRow userY (bytes "c"))),
   (bytes "doc:1#viewer@user:x", exampleRowToTuple (exampleRow userX []))]

/-! ## The read side: results, pagination options and the row stream -/

/-- The error values the read methods of sqlserver.go return. -/
inductive ReadError where
  /-- A result of `HandleSQLError(err)`, or `storage.ErrNotFound` itself. -/
  | handled (err : WriteError Unit)
  /-- The error of `proto.Unmarshal`, returned as it is. -/
  | unmarshalError (msg : GoString)
  /-- The error of `s.ReadAuthorizationModel`, returned as it is. -/
  | modelError (msg : GoString)
deriving DecidableEq, Repr

/-- What a call of a read method ends in: its results with a nil error, an
error, or a run-time panic (a slice bound or a capacity out of range). -/
inductive Outcome (α : Type) where
  | ok (value : α)
  | error (err : ReadError)
  | panic
deriving DecidableEq, Repr

/-- The options `storage.PaginationOptions`; `PageSize` is a Go `int`. -/
structure PaginationOptions where
  PageSize : Int
  From : GoString
deriving DecidableEq, Repr

/-- The failures of the driver during one read: `QueryContext` fails; or
`rows.Next()` fails when asked for row number `k` (from 0), which ends the
loop and is what `rows.Err()` reports afterwards; or `rows.Scan` fails on row
number `i`. -/
structure ReadFaults where
  query : Option DriverError
  next : Option (Nat × DriverError)
  scan : Nat → Option DriverError

/-- A driver that does not fail during a read. -/
def noReadFaults : ReadFaults := { query := none, next := none, scan := fun _ => none }

/-- The rows the loop `for rows.Next()` goes through out of the result of the
query, and the value of `rows.Err()` after the loop. -/
def delivered {α : Type} (F : ReadFaults) (result : List α) : List α × Option DriverError :=
  match F.next with
  | some (k, err) => if k ≤ result.length then (result.take k, some err) else (result, none)
  | none => (result, none)

/-- The function `applyLimit`: the suffix `OFFSET 0 ROWS FETCH NEXT limit ROWS
ONLY` keeps the first `limit` rows of the ordered result. -/
def applyLimit {α : Type} (result : List α) (limit : Nat) : List α := result.take limit

/-- The result type of `HandleSQLError` on the read side, where no tuple key is involved. -/
def handleReadError (err : DriverError) : ReadError :=
  .handled (HandleSQLError err [])

/-! ## `ListStores` -/

/-- A row of the table `store`. -/
structure StoreRow where
  id : GoString
  name : GoString
  createdAt : Nat
  updatedAt : Nat
  deletedAt : Option Nat
deriving DecidableEq, Repr

/-- The message `openfgav1.Store` as `ListStores` fills it. -/
structure Store where
  Id : GoString
  Name : GoString
  CreatedAt : Nat
  UpdatedAt : Nat
deriving DecidableEq, Repr

/-- The options `storage.ListStoresOptions`. -/
structure ListStoresOptions where
  IDs : List GoString
  Name : GoString
  Pagination : PaginationOptions
deriving DecidableEq, Repr

/-- The `whereClause` of `ListStores`: not deleted, and the optional filters on
the ids, the name and the continuation token (`id >= From`). -/
def listStoresWhere (options : ListStoresOptions) (r : StoreRow) : Bool :=
  r.deletedAt.isNone &&
  (if options.IDs.length > 0 then decide (r.id ∈ options.IDs) else true) &&
  (if options.Name ≠ [] then decide (r.name = options.Name) else true) &&
  (if options.Pagination.From ≠ [] then !strLess r.id options.Pagination.From else true)

/-- The order `ORDER BY id`. -/
def storeIdLess (a b : StoreRow) : Bool := strLess a.id b.id

/-- The result of the query `ListStores` builds: the rows of `store` that
satisfy the where clause, in ascending order of id, cut to `PageSize + 1` rows
when `PageSize` is positive. For a positive `PageSize` the conversion
`uint64(PageSize+1)` is `PageSize + 1`. -/
def listStoresQuery (table : List StoreRow) (options : ListStoresOptions) : List StoreRow :=
  let ordered := sortSlice storeIdLess (table.filter (listStoresWhere options))
  if options.Pagination.PageSize > 0 then
    applyLimit ordered (options.Pagination.PageSize + 1).toNat
  else ordered

/-- The store appended for a scanned row. -/
def StoreRow.toStore (r : StoreRow) : Store :=
  { Id := r.id, Name := r.name, CreatedAt := r.createdAt, UpdatedAt := r.updatedAt }

/-- The loop `for rows.Next()` of `ListStores`: the slice `stores` and the
variable `id`, which keeps the id of the last row scanned. -/
def scanStores (F : ReadFaults) :
    Nat → List StoreRow → List Store → GoString → Except DriverError (List Store × GoString)
  | _, [], stores, id => .ok (stores, id)
  | i, r :: rest, stores, _ =>
    match F.scan i with
    | some err => .error err
    | none => scanStores F (i + 1) rest (stores ++ [r.toStore]) r.id

/-- The method `ListStores` over the table `store`. -/
def ListStores (table : List StoreRow) (F : ReadFaults) (options : ListStoresOptions) :
    Outcome (List Store × GoString) :=
  match F.query with
  | some err => .error (handleReadError err)
  | none =>
    match scanStores F 0 (delivered F (listStoresQuery table options)).1 [] [] with
    | .error err => .error (handleReadError err)
    | .ok (stores, id) =>
      match (delivered F (listStoresQuery table options)).2 with
      | some err => .error (handleReadError err)
      | none =>
        if (stores.length : Int) > options.Pagination.PageSize then
          -- stores[:options.Pagination.PageSize]
          if options.Pagination.PageSize < 0 then .panic
          else .ok (stores.take options.Pagination.PageSize.toNat, id)
        else .ok (stores, [])

/-- A client that reads all pages: it starts from the given token and calls
`ListStores` again with each token returned until the token is empty. The
first argument bounds the number of calls; `none` when it is used up or a
call does not return a page. -/
def listAllStores (table : List StoreRow) (F : ReadFaults) (options : ListStoresOptions) :
    Nat → GoString → Option (List Store)
  | 0, _ => none
  | fuel + 1, token =>
    match ListStores table F
        { options with Pagination := { options.Pagination with From := token } } with
    | .ok (page, next) =>
      if next = [] then some page
      else (listAllStores table F options fuel next).map (fun more => page ++ more)
    | _ => none

/-! ## `ReadAuthorizationModels` -/

/-- A row of the table `authorization_model`, with the columns the list query reads. -/
structure ModelRow where
  store : GoString
  authorizationModelID : GoString
deriving DecidableEq, Repr

/-- The where clause of `ReadAuthorizationModels`: the store, and
`authorization_model_id <= From` when there is a token. -/
def readModelsWhere (store : GoString) (pagination : PaginationOptions) (r : ModelRow) : Bool :=
  decide (r.store = store) &&
  (if pagination.From ≠ [] then !strLess pagination.From r.authorizationModelID else true)

/-- The result of the query `ReadAuthorizationModels` builds: the distinct
model ids of the store, in descending order, cut to `PageSize + 1` when
`PageSize` is positive. -/
def readModelsQuery (table : List ModelRow) (store : GoString) (pagination : PaginationOptions) :
    List GoString :=
  let ordered := sortSlice (fun a b : GoString => strLess b a)
    ((table.filter (readModelsWhere store pagination)).map
      (fun r => r.authorizationModelID)).dedup
  if pagination.PageSize > 0 then applyLimit ordered (pagination.PageSize + 1).toNat
  else ordered

/-- The loop `for rows.Next()` of `ReadAuthorizationModels`: the slice
`modelIDs` and the variable `modelID`. -/
def scanModelIDs (F : ReadFaults) :
    Nat → List GoString → List GoString → GoString → Except DriverError (List GoString × GoString)
  | _, [], modelIDs, modelID => .ok (modelIDs, modelID)
  | i, r :: rest, modelIDs, _ =>
    match F.scan i with
    | some err => .error err
    | none => scanModelIDs F (i + 1) rest (modelIDs ++ [r]) r

/-- The loop `for i := 0; i < numModelIDs; i++` of `ReadAuthorizationModels`;
`modelIDs[i]` panics when `i` is not an index of the slice. -/
def readModelsLoop {Model : Type} (readModel : GoString → Except GoString Model)
    (modelIDs : List GoString) (numModelIDs : Nat) :
    Nat → Nat → List Model → Outcome (List Model)
  | 0, _, models => .ok models
  | fuel + 1, i, models =>
    if i < numModelIDs then
      match modelIDs.get? i with
      | none => .panic
      | some id =>
        match readModel id with
        | .error msg => .error (.modelError msg)
        | .ok model => readModelsLoop readModel modelIDs numModelIDs fuel (i + 1) (models ++ [model])
    else .ok models

/-- The method `ReadAuthorizationModels` over the table `authorization_model`;
`readModel` is the call `s.ReadAuthorizationModel(ctx, store, id)` of
`sqlcommon`. -/
def ReadAuthorizationModels {Model : Type} (readModel : GoString → Except GoString Model)
    (table : List ModelRow) (F : ReadFaults) (store : GoString) (pagination : PaginationOptions) :
    Outcome (List Model × GoString) :=
  match F.query with
  | some err => .error (handleReadError err)
  | none =>
    match scanModelIDs F 0 (delivered F (readModelsQuery table store pagination)).1 [] [] with
    | .error err => .error (handleReadError err)
    | .ok (modelIDs, modelID) =>
      match (delivered F (readModelsQuery table store pagination)).2 with
      | some err => .error (handleReadError err)
      | none =>
        let over : Bool := decide ((modelIDs.length : Int) > pagination.PageSize)
        let numModelIDs : Int := if over then pagination.PageSize else modelIDs.length
        let token : GoString := if over then modelID else []
        -- make([]*openfgav1.AuthorizationModel, 0, numModelIDs)
        if numModelIDs < 0 then .panic
        else
          match readModelsLoop readModel modelIDs numModelIDs.toNat numModelIDs.toNat 0 [] with
          | .ok models => .ok (models, token)
          | .error err => .error err
          | .panic => .panic

/-- The stores that match the filters of a `ListStores` call, in ascending order of id. -/
def matchingStores (table : List StoreRow) (options : ListStoresOptions) : List StoreRow :=
  sortSlice storeIdLess (table.filter (listStoresWhere options))

/-- A live store of the examples with the given id. -/
def exampleStore (id : GoString) : StoreRow :=
  { id := id, name := bytes "n", createdAt := 0, updatedAt := 0, deletedAt := none }

/-- The options of the examples: no filter on ids or name, the given page size and token. -/
def exampleListOptions (pageSize : Int) (token : GoString) : ListStoresOptions :=
  { IDs := [], Name := [], Pagination := { PageSize := pageSize, From := token } }

/-- The table `store` of the examples: the stores `b`, `a`, `c`. -/
def exampleStores : List StoreRow :=
  [exampleStore (bytes "b"), exampleStore (bytes "a"), exampleStore (bytes "c")]

/-- The table `authorization_model` of the examples: two models of store `s`. -/
def exampleModels : List ModelRow :=
  [{ store := bytes "s", authorizationModelID := bytes "m1" },
   { store := bytes "s", authorizationModelID := bytes "m2" }]

/-- The model reader of the examples: it returns the id it is asked for. -/
def exampleReadModel (id : GoString) : Except GoString GoString := .ok id

/-! ## `ReadChanges` -/

/-- A row of the table `changelog` with the columns `ReadChanges` selects, and
the column `store` it filters on: `condition_name` is read into a
`sql.NullString`, `condition_context` into a byte slice that is nil for NULL,
`inserted_at` is a time in microseconds. -/
structure ChangeRow where
  store : GoString
  ulid : GoString
  objectType : GoString
  objectID : GoString
  relation : GoString
  user : GoString
  operation : Int
  conditionName : Option GoString
  conditionContext : Option GoString
  insertedAt : Int
deriving DecidableEq, Repr

/-- The filter `storage.ReadChangesFilter`. The offset is the value of
`HorizonOffset.Microseconds()`, for a duration that is not negative. -/
structure ReadChangesFilter where
  ObjectType : GoString
  HorizonOffset : Nat
deriving DecidableEq, Repr

/-- The options `storage.ReadChangesOptions`. -/
structure ReadChangesOptions where
  Pagination : PaginationOptions
  SortDesc : Bool
deriving DecidableEq, Repr

/-- The message `openfgav1.TupleChange` as `ReadChanges` fills it. -/
structure TupleChange (Key : Type) where
  TupleKey : Key
  Operation : Int
  Timestamp : Int
deriving DecidableEq, Repr

/-- What `ReadChanges` takes from its collaborators; their source is not among
the files of the storage backend, so they are parameters of the embedding. -/
structure ChangesEnv (Ctx Key : Type) where
  /-- The call `proto.Unmarshal(conditionContext, &conditionContextStruct)`:
  the decoded struct, or the error. -/
  Unmarshal : GoString → Except GoString Ctx
  /-- The zero value of `structpb.Struct`. -/
  emptyStruct : Ctx
  /-- The helper `tupleUtils.BuildObject`. -/
  BuildObject : GoString → GoString → GoString
  /-- The helper `tupleUtils.NewTupleKeyWithCondition`, on the object, the
  relation, the user, the condition name and the context. -/
  NewTupleKeyWithCondition : GoString → GoString → GoString → GoString → Ctx → Key
  /-- The condition `sqlcommon.AddFromUlid` adds to the query for a token and a
  sort direction: whether a row with the given ulid satisfies it. -/
  AddFromUlid : GoString → Bool → GoString → Bool

/-- The conversion of a Go `int` to the `int32` under `openfgav1.TupleOperation`. -/
def toInt32 (n : Int) : Int := (n + 2147483648) % 4294967296 - 2147483648

/-- The where clause of `ReadChanges`: the store, the horizon
`inserted_at <= DATEADD(microsecond, -offset, GETUTCDATE())` with `now` the
value of `GETUTCDATE()`, the optional object type, and the condition of
`AddFromUlid` when there is a token. -/
def readChangesWhere {Ctx Key : Type} (E : ChangesEnv Ctx Key) (store : GoString) (now : Int)
    (filter : ReadChangesFilter) (options : ReadChangesOptions) (r : ChangeRow) : Bool :=
  decide (r.store = store) &&
  decide (r.insertedAt ≤ now - (filter.HorizonOffset : Int)) &&
  (if filter.ObjectType ≠ [] then decide (r.objectType = filter.ObjectType) else true) &&
  (if options.Pagination.From ≠ [] then
    E.AddFromUlid options.Pagination.From options.SortDesc r.ulid
  else true)

/-- The order `ORDER BY ulid asc` or `ORDER BY ulid desc`. -/
def changeUlidLess (desc : Bool) (a b : ChangeRow) : Bool :=
  if desc then strLess b.ulid a.ulid else strLess a.ulid b.ulid

/-- The result of the query `ReadChanges` builds: the rows of `changelog` that
satisfy the where clause, in the order asked for, cut to `PageSize` rows when
`PageSize` is positive. For a positive `PageSize` the conversion
`uint64(PageSize)` is `PageSize`. -/
def readChangesQuery {Ctx Key : Type} (E : ChangesEnv Ctx Key) (table : List ChangeRow)
    (store : GoString) (now : Int) (filter : ReadChangesFilter) (options : ReadChangesOptions) :
    List ChangeRow :=
  let ordered := sortSlice (changeUlidLess options.SortDesc)
    (table.filter (readChangesWhere E store now filter options))
  if options.Pagination.PageSize > 0 then applyLimit ordered options.Pagination.PageSize.toNat
  else ordered

/-- The struct `conditionContextStruct` of one row: decoded from the context
when the condition name is not empty and the context is not nil, the zero
value otherwise. -/
def decodeContext {Ctx Key : Type} (E : ChangesEnv Ctx Key) (r : ChangeRow) :
    Except GoString Ctx :=
  if r.conditionName.getD [] ≠ [] then
    match r.conditionContext with
    | some context => E.Unmarshal context
    | none => .ok E.emptyStruct
  else .ok E.emptyStruct

/-- The change appended for a scanned row. -/
def ChangeRow.toChange {Ctx Key : Type} (E : ChangesEnv Ctx Key) (r : ChangeRow) (context : Ctx) :
    TupleChange Key :=
  { TupleKey := E.NewTupleKeyWithCondition (E.BuildObject r.objectType r.objectID) r.relation
      r.user (r.conditionName.getD []) context,
    Operation := toInt32 r.operation,
    Timestamp := r.insertedAt }

/-- The loop `for rows.Next()` of `ReadChanges`: the slice `changes` and the
variable `ulid`, which keeps the ulid of the last row scanned. -/
def scanChanges {Ctx Key : Type} (E : ChangesEnv Ctx Key) (F : ReadFaults) :
    Nat → List ChangeRow → List (TupleChange Key) → GoString →
      Except ReadError (List (TupleChange Key) × GoString)
  | _, [], changes, ulid => .ok (changes, ulid)
  | i, r :: rest, changes, _ =>
    match F.scan i with
    | some err => .error (handleReadError err)
    | none =>
      match decodeContext E r with
      | .error msg => .error (.unmarshalError msg)
      | .ok context => scanChanges E F (i + 1) rest (changes ++ [r.toChange E context]) r.ulid

/-- The method `ReadChanges` over the table `changelog`. After the loop it does
not consult `rows.Err()`. -/
def ReadChanges {Ctx Key : Type} (E : ChangesEnv Ctx Key) (table : List ChangeRow) (now : Int)
    (F : ReadFaults) (store : GoString) (filter : ReadChangesFilter)
    (options : ReadChangesOptions) : Outcome (List (TupleChange Key) × GoString) :=
  match F.query with
  | some err => .error (handleReadError err)
  | none =>
    match scanChanges E F 0
        (delivered F (readChangesQuery E table store now filter options)).1 [] [] with
    | .error err => .error err
    | .ok (changes, ulid) =>
      if changes.length = 0 then .error (.handled .ErrNotFound)
      else .ok (changes, ulid)

/-- The changelog entries that match the filters of a `ReadChanges` call, in the order asked for. -/
def matchingChanges {Ctx Key : Type} (E : ChangesEnv Ctx Key) (table : List ChangeRow)
    (store : GoString) (now : Int) (filter : ReadChangesFilter) (options : ReadChangesOptions) :
    List ChangeRow :=
  sortSlice (changeUlidLess options.SortDesc)
    (table.filter (readChangesWhere E store now filter options))

/-- The tuple key of the examples: the arguments of `NewTupleKeyWithCondition`. -/
structure ExampleChangeKey where
  object : GoString
  relation : GoString
  user : GoString
  conditionName : GoString
  context : GoString
deriving DecidableEq, Repr

/-- The collaborators of the examples. The decoder takes the empty input to the
empty struct and refuses the single byte `0xff`, a tag that ends inside its
varint; the struct is kept as its bytes. The token condition is `ulid > token`
ascending and `ulid < token` descending. -/
def exampleChangesEnv : ChangesEnv GoString ExampleChangeKey :=
  { Unmarshal := fun b => if b = [255] then .error (bytes "unexpected EOF") else .ok b,
    emptyStruct := [],
    BuildObject := fun t i => t ++ bytes ":" ++ i,
    NewTupleKeyWithCondition := fun o r u c x =>
      { object := o, relation := r, user := u, conditionName := c, context := x },
    AddFromUlid := fun token desc ulid => if desc then strLess ulid token else strLess token ulid }

/-- A changelog row of store `s` in the examples: a write of `doc:1#viewer@user:x`
at time 0 with the given ulid and no condition. -/
def exampleChange (ulid : GoString) : ChangeRow :=
  { store := bytes "s", ulid := ulid, objectType := bytes "doc", objectID := bytes "1",
    relation := bytes "viewer", user := bytes "user:x", operation := 0,
    conditionName := none, conditionContext := none, insertedAt := 0 }

/-- The table `changelog` of the examples: three entries of store `s`. -/
def exampleChanges : List ChangeRow :=
  [exampleChange (bytes "01"), exampleChange (bytes "02"), exampleChange (bytes "03")]

/-- The filter of the examples: no object type, no offset. -/
def exampleChangesFilter : ReadChangesFilter := { ObjectType := [], HorizonOffset := 0 }

/-- The options of the examples: ascending, the given page size and token. -/
def exampleChangesOptions (pageSize : Int) (token : GoString) : ReadChangesOptions :=
  { Pagination := { PageSize := pageSize, From := token }, SortDesc := false }

/-- A changelog row whose condition context does not decode. -/
def undecodableChange : ChangeRow :=
  { exampleChange (bytes "01") with conditionName := some (bytes "c"),
                                    conditionContext := some [255] }

/-- Whether the condition context of a row decodes. -/
def decodes {Ctx Key : Type} (E : ChangesEnv Ctx Key) (r : ChangeRow) : Bool :=
  match decodeContext E r with
  | .ok _ => true
  | .error _ => false

/-- The change `ReadChanges` appends for a row whose context decodes. -/
def changeOf {Ctx Key : Type} (E : ChangesEnv Ctx Key) (r : ChangeRow) : TupleChange Key :=
  match decodeContext E r with
  | .ok context => r.toChange E context
  | .error _ => r.toChange E E.emptyStruct

/-- The locking reads of a list of slices, as the specification words them: one
call of `selectExistingRowsForWrite` per slice, in the order of the list,
each on the database and the map the read before it left, up to the first
read that fails. -/
def readSlices {Cond : Type} (E : Env Cond) (store : GoString)
    (slices : List (List tupleLockKey)) (existing : ExistingMap Cond) (db : DB) :
    Except (WriteError Cond) (ExistingMap Cond) × DB :=
  slices.foldl
    (fun acc keys =>
      match acc with
      | (.ok found, d) => selectExistingRowsForWrite E store keys d found
      | (.error err, d) => (.error err, d))
    (.ok existing, db)

/-- The database of the examples after `BeginTx` and two locking reads. -/
def readTwiceDB (rows : List TupleRow) (faults : Nat → Option DriverError) : DB :=
  { committed := { tuple := rows, changelog := [] }
    txn := some { tuple := rows, changelog := [] }
    faults := faults
    calls := 3 }

/-- A row matches a `ListStores` call, in the words of the specification: the
store is not deleted, its id is among the ids asked for when ids are given,
its name is the name asked for when a name is given, and its id is not below
the continuation token when a token is given. -/
abbrev storeMatches (options : ListStoresOptions) (r : StoreRow) : Prop :=
  r.deletedAt = none ∧
  (options.IDs ≠ [] → r.id ∈ options.IDs) ∧
  (options.Name ≠ [] → r.name = options.Name) ∧
  (options.Pagination.From ≠ [] → strLess r.id options.Pagination.From = false)

/-- A returned store is the store of a row: it has the id, the name, the
creation time and the update time of the row. -/
def isStoreOf (r : StoreRow) (s : Store) : Prop :=
  s.Id = r.id ∧ s.Name = r.name ∧ s.CreatedAt = r.createdAt ∧ s.UpdatedAt = r.updatedAt

/-- A table `store` with six rows: `b`, `a` and `e` are live stores named `n`;
`d` is deleted, `c` has another name, and `f` is not among the ids that
`listedOptions` asks for. -/
def listedStores : List StoreRow :=
  [{ id := bytes "b", name := bytes "n", createdAt := 3, updatedAt := 4, deletedAt := none },
   { id := bytes "a", name := bytes "n", createdAt := 1, updatedAt := 2, deletedAt := none },
   { id := bytes "d", name := bytes "n", createdAt := 5, updatedAt := 6, deletedAt := some 7 },
   { id := bytes "c", name := bytes "m", createdAt := 8, updatedAt := 9, deletedAt := none },
   { id := bytes "e", name := bytes "n", createdAt := 10, updatedAt := 11, deletedAt := none },
   { id := bytes "f", name := bytes "n", createdAt := 12, updatedAt := 13, deletedAt := none }]

/-- Options that ask for the stores named `n` among the ids `a` to `e`, with
the given page size and no token. -/
def listedOptions (pageSize : Int) : ListStoresOptions :=
  { IDs := [bytes "a", bytes "b", bytes "c", bytes "d", bytes "e"], Name := bytes "n",
    Pagination := { PageSize := pageSize, From := [] } }

/-- An entry matches a `ReadChanges` call, in the words of the specification:
it belongs to the store, it was inserted no later than the horizon `now -
offset`, its object type is the one asked for when one is given, and it
passes the token condition of `sqlcommon.AddFromUlid` when a token is given. -/
abbrev changeMatches {Ctx Key : Type} (E : ChangesEnv Ctx Key) (store : GoString) (now : Int)
    (filter : ReadChangesFilter) (options : ReadChangesOptions) (r : ChangeRow) : Prop :=
  r.store = store ∧
  r.insertedAt ≤ now - (filter.HorizonOffset : Int) ∧
  (filter.ObjectType ≠ [] → r.objectType = filter.ObjectType) ∧
  (options.Pagination.From ≠ [] →
    E.AddFromUlid options.Pagination.From options.SortDesc r.ulid = true)

/-- The condition context of an entry decodes: when the entry has a condition
name and a context, `proto.Unmarshal` accepts the context. -/
def contextDecodes {Ctx Key : Type} (E : ChangesEnv Ctx Key) (r : ChangeRow) : Prop :=
  r.conditionName.getD [] ≠ [] → ∀ b, r.conditionContext = some b →
    ∃ context, E.Unmarshal b = .ok context

/-- The context of the condition of an entry: the struct decoded from the
stored context when the entry has a condition name and a context, the empty
struct otherwise. -/
def isContextOf {Ctx Key : Type} (E : ChangesEnv Ctx Key) (r : ChangeRow) (context : Ctx) :
    Prop :=
  (r.conditionName.getD [] ≠ [] ∧
    ∃ b, r.conditionContext = some b ∧ E.Unmarshal b = .ok context) ∨
  ((r.conditionName.getD [] = [] ∨ r.conditionContext = none) ∧ context = E.emptyStruct)

/-- A returned change is the change of an entry: its tuple key is built from
the object (type and id), the relation, the user, the condition name and the
context of the entry, its operation is the operation of the entry as an
`int32`, and its timestamp is the insertion time of the entry. -/
def isChangeOf {Ctx Key : Type} (E : ChangesEnv Ctx Key) (r : ChangeRow)
    (c : TupleChange Key) : Prop :=
  (∃ context, isContextOf E r context ∧
    c.TupleKey = E.NewTupleKeyWithCondition (E.BuildObject r.objectType r.objectID)
      r.relation r.user (r.conditionName.getD []) context) ∧
  -2147483648 ≤ c.Operation ∧ c.Operation < 2147483648 ∧
  (c.Operation - r.operation) % 4294967296 = 0 ∧
  c.Timestamp = r.insertedAt

/-- Two entries, the first returned before the second, are in the order asked
for: the ulid of the second is not below that of the first when ascending,
and not above it when descending. -/
def inChangeOrder (desc : Bool) (a b : ChangeRow) : Prop :=
  if desc = true then strLess a.ulid b.ulid = false else strLess b.ulid a.ulid = false

/-- A table `changelog` with seven entries. Of store `s` with object type `doc`
and inserted by time 90 are `01` (a write), `04` (a delete), `06` (a write
with condition `c`) and `07` (a write); `02` belongs to store `t`, `03` has
object type `folder`, and `08` was inserted at time 95. -/
def changelogTable : List ChangeRow :=
  [{ store := bytes "s", ulid := bytes "04", objectType := bytes "doc", objectID := bytes "2",
     relation := bytes "editor", user := bytes "user:y", operation := 1,
     conditionName := none, conditionContext := none, insertedAt := 20 },
   { store := bytes "s", ulid := bytes "06", objectType := bytes "doc", objectID := bytes "4",
     relation := bytes "owner", user := bytes "user:w", operation := 0,
     conditionName := some (bytes "c"), conditionContext := some [1, 2], insertedAt := 50 },
   { store := bytes "s", ulid := bytes "01", objectType := bytes "doc", objectID := bytes "1",
     relation := bytes "viewer", user := bytes "user:x", operation := 0,
     conditionName := none, conditionContext := none, insertedAt := 10 },
   { store := bytes "t", ulid := bytes "02", objectType := bytes "doc", objectID := bytes "1",
     relation := bytes "viewer", user := bytes "user:x", operation := 0,
     conditionName := none, conditionContext := none, insertedAt := 15 },
   { store := bytes "s", ulid := bytes "03", objectType := bytes "folder", objectID := bytes "1",
     relation := bytes "viewer", user := bytes "user:x", operation := 0,
     conditionName := none, conditionContext := none, insertedAt := 17 },
   { store := bytes "s", ulid := bytes "07", objectType := bytes "doc", objectID := bytes "5",
     relation := bytes "viewer", user := bytes "user:v", operation := 0,
     conditionName := none, conditionContext := none, insertedAt := 60 },
   { store := bytes "s", ulid := bytes "08", objectType := bytes "doc", objectID := bytes "3",
     relation := bytes "viewer", user := bytes "user:z", operation := 0,
     conditionName := none, conditionContext := none, insertedAt := 95 }]

/-- The filter of the witnesses: object type `doc`, an offset of 10 microseconds. -/
def docFilter : ReadChangesFilter := { ObjectType := bytes "doc", HorizonOffset := 10 }

/-! # Properties -/

/-! ## Properties of the string order -/

theorem strLess_irrefl (a : GoString) : strLess a a = false := by
  induction a with
  | nil => rfl
  | cons x xs ih => simp [strLess, ih]

theorem strLess_trans {a b c : GoString} (hab : strLess a b = true) (hbc : strLess b c = true) :
    strLess a c = true := by
  induction a generalizing b c with
  | nil =>
    cases b with
    | nil => simp [strLess] at hab
    | cons y ys =>
      cases c with
      | nil => simp [strLess] at hbc
      | cons z zs => simp [strLess]
  | cons x xs ih =>
    cases b with
    | nil => simp [strLess] at hab
    | cons y ys =>
      cases c with
      | nil => simp [strLess] at hbc
      | cons z zs =>
        simp only [strLess] at hab hbc ⊢
        by_cases hxy : x < y
        · by_cases hyz : y < z
          · have : x < z := by omega
            simp [this]
          · by_cases hzy : z < y
            · simp [hyz, hzy] at hbc
            · have : x < z := by omega
              simp [this]
        · by_cases hyx : y < x
          · simp [hxy, hyx] at hab
          · simp only [hxy, hyx, if_false] at hab
            have hxy2 : x = y := by omega
            subst hxy2
            by_cases hxz : x < z
            · simp [hxz]
            · by_cases hzx : z < x
              · simp [hxz, hzx] at hbc
              · simp only [hxz, hzx, if_false] at hbc ⊢
                exact ih hab hbc

theorem strLess_trichotomy {a b : GoString} (hab : strLess a b = false)
    (hba : strLess b a = false) : a = b := by
  induction a generalizing b with
  | nil =>
    cases b with
    | nil => rfl
    | cons y ys => simp [strLess] at hab
  | cons x xs ih =>
    cases b with
    | nil => simp [strLess] at hba
    | cons y ys =>
      simp only [strLess] at hab hba
      by_cases hxy : x < y
      · simp [hxy] at hab
      · by_cases hyx : y < x
        · simp [hyx] at hba
        · simp only [hxy, hyx, if_false] at hab hba
          have hxy2 : x = y := by omega
          rw [hxy2, ih hab hba]

theorem strLess_asymm {a b : GoString} (hab : strLess a b = true) : strLess b a = false := by
  cases h : strLess b a with
  | false => rfl
  | true =>
    have := strLess_trans hab h
    rw [strLess_irrefl] at this
    exact absurd this (by decide)

/-- The string comparison is the lexicographic order of the byte lists. -/
theorem strLess_iff_lex (a b : GoString) :
    strLess a b = true ↔ List.Lex (fun x y : Nat => x < y) a b := by
  induction a generalizing b with
  | nil =>
    cases b with
    | nil => simp [strLess]
    | cons y ys => simp [strLess, List.Lex.nil]
  | cons x xs ih =>
    cases b with
    | nil => simp [strLess]
    | cons y ys =>
      simp only [strLess]
      constructor
      · intro h
        by_cases hxy : x < y
        · exact List.Lex.rel hxy
        · by_cases hyx : y < x
          · simp [hxy, hyx] at h
          · simp only [hxy, hyx, if_false] at h
            have hxy2 : x = y := by omega
            subst hxy2
            exact List.Lex.cons ((ih ys).1 h)
      · intro h
        cases h with
        | rel hxy => simp [hxy]
        | cons h2 => simp [(ih ys).2 h2]

/-! ## Properties of the comparator -/

theorem lockKeyLess_iff_lexLess (a b : tupleLockKey) : lockKeyLess a b = true ↔ lexLess a b := by
  unfold lockKeyLess lexLess
  by_cases h1 : a.objectType = b.objectType
  · by_cases h2 : a.objectID = b.objectID
    · by_cases h3 : a.relation = b.relation
      · by_cases h4 : a.user = b.user
        · simp [h1, h2, h3, h4, strLess_irrefl]
        · simp [h1, h2, h3, h4, strLess_irrefl]
      · simp [h1, h2, h3, strLess_irrefl]
    · simp [h1, h2, strLess_irrefl]
  · simp [h1]

theorem lex_step_trans {a b c : GoString} {P Q R : Prop} (h : P → Q → R)
    (hab : strLess a b = true ∨ (a = b ∧ P)) (hbc : strLess b c = true ∨ (b = c ∧ Q)) :
    strLess a c = true ∨ (a = c ∧ R) := by
  rcases hab with hab | ⟨rfl, hp⟩
  · rcases hbc with hbc | ⟨rfl, _⟩
    · exact Or.inl (strLess_trans hab hbc)
    · exact Or.inl hab
  · rcases hbc with hbc | ⟨rfl, hq⟩
    · exact Or.inl hbc
    · exact Or.inr ⟨rfl, h hp hq⟩

theorem lexLess_trans {a b c : tupleLockKey} (hab : lexLess a b) (hbc : lexLess b c) :
    lexLess a c :=
  lex_step_trans (lex_step_trans (lex_step_trans (lex_step_trans strLess_trans))) hab hbc

theorem lexLess_irrefl (a : tupleLockKey) : ¬ lexLess a a := by
  simp [lexLess, strLess_irrefl]

theorem lex_step_trichotomy {a b : GoString} {P Q R : Prop} (h : ¬ P → ¬ Q → R)
    (hab : ¬ (strLess a b = true ∨ (a = b ∧ P))) (hba : ¬ (strLess b a = true ∨ (b = a ∧ Q))) :
    a = b ∧ R := by
  have h1 : strLess a b = false := by
    cases hs : strLess a b with
    | false => rfl
    | true => exact absurd (Or.inl hs) hab
  have h2 : strLess b a = false := by
    cases hs : strLess b a with
    | false => rfl
    | true => exact absurd (Or.inl hs) hba
  have e : a = b := strLess_trichotomy h1 h2
  exact ⟨e, h (fun hp => hab (Or.inr ⟨e, hp⟩)) (fun hq => hba (Or.inr ⟨e.symm, hq⟩))⟩

theorem lexLess_trichotomy {a b : tupleLockKey} (hab : ¬ lexLess a b) (hba : ¬ lexLess b a) :
    a = b := by
  have h := lex_step_trichotomy (R := a.objectID = b.objectID ∧ a.relation = b.relation ∧
      a.user = b.user ∧ a.userType = b.userType)
    (fun h1 h2 => lex_step_trichotomy (fun h3 h4 => lex_step_trichotomy
      (fun h5 h6 => lex_step_trichotomy (R := a.userType = b.userType)
        (fun h7 h8 => strLess_trichotomy (by simpa using h7) (by simpa using h8))
          (P := strLess a.userType b.userType = true)
          (Q := strLess b.userType a.userType = true) h5 h6) h3 h4) h1 h2) hab hba
  cases a
  cases b
  simp_all

/-! ## Properties of the sort -/

theorem orderedInsert_perm {α : Type} (less : α → α → Bool) (x : α) (l : List α) :
    (orderedInsert less x l).Perm (x :: l) := by
  induction l with
  | nil => exact List.Perm.refl _
  | cons y ys ih =>
    unfold orderedInsert
    split
    · exact List.Perm.refl _
    · exact (List.Perm.cons y ih).trans (List.Perm.swap x y ys)

theorem sortSlice_perm {α : Type} (less : α → α → Bool) (l : List α) :
    (sortSlice less l).Perm l := by
  induction l with
  | nil => exact List.Perm.refl _
  | cons x xs ih =>
    unfold sortSlice
    exact (orderedInsert_perm less x _).trans (List.Perm.cons x ih)

theorem lockKeyLess_trans {a b c : tupleLockKey} (hab : lockKeyLess a b = true)
    (hbc : lockKeyLess b c = true) : lockKeyLess a c = true :=
  (lockKeyLess_iff_lexLess a c).2
    (lexLess_trans ((lockKeyLess_iff_lexLess a b).1 hab) ((lockKeyLess_iff_lexLess b c).1 hbc))

theorem lockKeyLess_irrefl (a : tupleLockKey) : lockKeyLess a a = false := by
  cases h : lockKeyLess a a with
  | false => rfl
  | true => exact absurd ((lockKeyLess_iff_lexLess a a).1 h) (lexLess_irrefl a)

theorem lockKeyLess_asymm {a b : tupleLockKey} (hab : lockKeyLess a b = true) :
    lockKeyLess b a = false := by
  cases h : lockKeyLess b a with
  | false => rfl
  | true =>
    have := lockKeyLess_trans hab h
    rw [lockKeyLess_irrefl] at this
    exact absurd this (by decide)

theorem lockKeyLess_trichotomy {a b : tupleLockKey} (hab : lockKeyLess a b = false)
    (hba : lockKeyLess b a = false) : a = b :=
  lexLess_trichotomy
    (fun h => by rw [(lockKeyLess_iff_lexLess a b).2 h] at hab; exact absurd hab (by decide))
    (fun h => by rw [(lockKeyLess_iff_lexLess b a).2 h] at hba; exact absurd hba (by decide))

/-- Inserting into a list in non-descending order keeps it in non-descending order. -/
theorem orderedInsert_sorted (x : tupleLockKey) (l : List tupleLockKey)
    (h : l.Pairwise (fun a b => lockKeyLess b a = false)) :
    (orderedInsert lockKeyLess x l).Pairwise (fun a b => lockKeyLess b a = false) := by
  induction l with
  | nil => simp [orderedInsert]
  | cons y ys ih =>
    have hy := (List.pairwise_cons.1 h).1
    have hys := (List.pairwise_cons.1 h).2
    unfold orderedInsert
    by_cases hxy : lockKeyLess x y = true
    · rw [if_pos hxy]
      refine List.pairwise_cons.2 ⟨?_, h⟩
      intro z hz
      rcases List.mem_cons.1 hz with rfl | hz
      · exact lockKeyLess_asymm hxy
      · cases hzx : lockKeyLess z x with
        | false => rfl
        | true =>
          have := lockKeyLess_trans hzx hxy
          rw [hy z hz] at this
          exact absurd this (by decide)
    · rw [if_neg hxy]
      refine List.pairwise_cons.2 ⟨?_, ih hys⟩
      intro w hw
      rcases List.mem_cons.1 ((orderedInsert_perm lockKeyLess x ys).mem_iff.1 hw) with rfl | hw
      · simpa using hxy
      · exact hy w hw

theorem sortSlice_sorted (l : List tupleLockKey) :
    (sortSlice lockKeyLess l).Pairwise (fun a b => lockKeyLess b a = false) := by
  induction l with
  | nil => simp [sortSlice]
  | cons x xs ih =>
    unfold sortSlice
    exact orderedInsert_sorted x _ ih

/-- On a slice without repeated keys the sort yields a strictly ascending slice. -/
theorem sortSlice_strict (l : List tupleLockKey) (hnd : l.Nodup) :
    (sortSlice lockKeyLess l).Pairwise lexLess := by
  have h1 := sortSlice_sorted l
  have h2 : (sortSlice lockKeyLess l).Nodup := (sortSlice_perm lockKeyLess l).nodup_iff.2 hnd
  refine (h1.and h2).imp ?_
  intro a b hab
  apply (lockKeyLess_iff_lexLess a b).1
  cases h : lockKeyLess a b with
  | true => rfl
  | false => exact absurd (lockKeyLess_trichotomy h hab.1) hab.2

/-- Whatever algorithm `sort.Slice` runs, its result on a slice without
repeated keys is the one of the embedding: a strictly ascending permutation
of such a slice is unique. -/
theorem sortSlice_unique (l l2 : List tupleLockKey) (hnd : l.Nodup) (hp : l2.Perm l)
    (hs : l2.Pairwise lexLess) : l2 = sortSlice lockKeyLess l :=
  haveI : IsAntisymm tupleLockKey lexLess :=
    ⟨fun a _ hab hba => absurd (lexLess_trans hab hba) (lexLess_irrefl a)⟩
  List.eq_of_perm_of_sorted (hp.trans (sortSlice_perm lockKeyLess l).symm) hs
    (sortSlice_strict l hnd)

/-! ## Properties of the deduplication -/

theorem add_inv {Cond : Type} (U : TupleUtils) (st : AddState) (tk : TupleKey Cond)
    (h : AddInv st) : AddInv (add U st tk) := by
  unfold add
  by_cases hs : seenKey (lockKeyOf U tk) ∈ st.seen
  · simpa [hs] using h
  · simp only [hs, if_false]
    refine ⟨?_, ?_⟩
    · intro s
      simp only [List.mem_cons, List.map_append, List.map_cons, List.map_nil, List.mem_append,
        List.mem_singleton, h.1 s]
      tauto
    · rw [List.map_append, List.nodup_append]
      refine ⟨h.2, by simp, ?_⟩
      intro a ha hb
      simp only [List.map_cons, List.map_nil, List.mem_singleton] at hb
      subst hb
      exact hs ((h.1 _).2 ha)

theorem foldl_add_inv {Cond : Type} (U : TupleUtils) (l : List (TupleKey Cond)) (st : AddState)
    (h : AddInv st) : AddInv (l.foldl (add U) st) := by
  induction l generalizing st with
  | nil => exact h
  | cons x xs ih => exact ih _ (add_inv U st x h)

theorem collectKeys_eq {Cond : Type} (U : TupleUtils) (deletes : List TupleKeyWithoutCondition)
    (writes : List (TupleKey Cond)) :
    collectKeys U deletes writes =
      (deletes.map (TupleKeyWithoutConditionToTupleKey Cond) ++ writes).foldl (add U)
        { seen := [], keys := [] } := by
  simp [collectKeys, List.foldl_append, List.foldl_map]

theorem collectKeys_inv {Cond : Type} (U : TupleUtils) (deletes : List TupleKeyWithoutCondition)
    (writes : List (TupleKey Cond)) : AddInv (collectKeys U deletes writes) := by
  rw [collectKeys_eq]
  exact foldl_add_inv U _ _ ⟨by simp, by simp⟩

theorem collectKeys_nodup {Cond : Type} (U : TupleUtils) (deletes : List TupleKeyWithoutCondition)
    (writes : List (TupleKey Cond)) : (collectKeys U deletes writes).keys.Nodup :=
  List.Nodup.of_map seenKey (collectKeys_inv U deletes writes).2

theorem mem_add_keys {Cond : Type} (U : TupleUtils) (st : AddState) (tk : TupleKey Cond)
    (k : tupleLockKey) (hk : k ∈ (add U st tk).keys) : k ∈ st.keys ∨ k = lockKeyOf U tk := by
  unfold add at hk
  by_cases hs : seenKey (lockKeyOf U tk) ∈ st.seen
  · simp only [hs, if_true] at hk
    exact Or.inl hk
  · simp only [hs, if_false, List.mem_append, List.mem_singleton] at hk
    exact hk

theorem keys_subset_add {Cond : Type} (U : TupleUtils) (st : AddState) (tk : TupleKey Cond)
    (k : tupleLockKey) (hk : k ∈ st.keys) : k ∈ (add U st tk).keys := by
  unfold add
  by_cases hs : seenKey (lockKeyOf U tk) ∈ st.seen
  · simpa [hs] using hk
  · simp [hs, hk]

theorem seen_add {Cond : Type} (U : TupleUtils) (st : AddState) (tk : TupleKey Cond) :
    seenKey (lockKeyOf U tk) ∈ (add U st tk).seen := by
  unfold add
  by_cases hs : seenKey (lockKeyOf U tk) ∈ st.seen
  · simp [hs]
  · simp [hs]

theorem seen_subset_add {Cond : Type} (U : TupleUtils) (st : AddState) (tk : TupleKey Cond)
    (s : GoString) (hs : s ∈ st.seen) : s ∈ (add U st tk).seen := by
  unfold add
  by_cases h : seenKey (lockKeyOf U tk) ∈ st.seen
  · simpa [h] using hs
  · simp [h, hs]

/-- Every collected key is the lock key of an input key or was there before. -/
theorem mem_foldl_add_keys {Cond : Type} (U : TupleUtils) (l : List (TupleKey Cond))
    (st : AddState) (k : tupleLockKey) (hk : k ∈ (l.foldl (add U) st).keys) :
    k ∈ st.keys ∨ ∃ tk ∈ l, k = lockKeyOf U tk := by
  induction l generalizing st with
  | nil => exact Or.inl hk
  | cons x xs ih =>
    rcases ih (add U st x) hk with h | ⟨tk, htk, e⟩
    · rcases mem_add_keys U st x k h with h2 | h2
      · exact Or.inl h2
      · exact Or.inr ⟨x, List.mem_cons_self _ _, h2⟩
    · exact Or.inr ⟨tk, List.mem_cons_of_mem _ htk, e⟩

theorem seen_subset_foldl_add {Cond : Type} (U : TupleUtils) (l : List (TupleKey Cond))
    (st : AddState) (s : GoString) (hs : s ∈ st.seen) : s ∈ (l.foldl (add U) st).seen := by
  induction l generalizing st with
  | nil => exact hs
  | cons x xs ih => exact ih _ (seen_subset_add U st x s hs)

/-- The join string of every input key is in `seen` at the end. -/
theorem seen_foldl_add {Cond : Type} (U : TupleUtils) (l : List (TupleKey Cond))
    (st : AddState) (tk : TupleKey Cond) (htk : tk ∈ l) :
    seenKey (lockKeyOf U tk) ∈ (l.foldl (add U) st).seen := by
  induction l generalizing st with
  | nil => simp at htk
  | cons x xs ih =>
    rcases List.mem_cons.1 htk with rfl | h
    · exact seen_subset_foldl_add U xs _ _ (seen_add U st tk)
    · exact ih _ h

/-- The keys of the result are exactly the collected keys. -/
theorem mem_makeTupleLockKeys {Cond : Type} (U : TupleUtils)
    (deletes : List TupleKeyWithoutCondition) (writes : List (TupleKey Cond))
    (k : tupleLockKey) :
    k ∈ makeTupleLockKeys U deletes writes ↔ k ∈ (collectKeys U deletes writes).keys :=
  (sortSlice_perm lockKeyLess _).mem_iff

/-- Every key of the result is the lock key of a delete key or of a write key. -/
theorem makeTupleLockKeys_sound {Cond : Type} (U : TupleUtils)
    (deletes : List TupleKeyWithoutCondition) (writes : List (TupleKey Cond))
    (k : tupleLockKey) (hk : k ∈ makeTupleLockKeys U deletes writes) :
    (∃ tk ∈ deletes, k = lockKeyOf U (TupleKeyWithoutConditionToTupleKey Cond tk)) ∨
    (∃ tk ∈ writes, k = lockKeyOf U tk) := by
  rw [mem_makeTupleLockKeys, collectKeys_eq] at hk
  rcases mem_foldl_add_keys U _ _ k hk with h | ⟨tk, htk, e⟩
  · simp at h
  · rcases List.mem_append.1 htk with h | h
    · rcases List.mem_map.1 h with ⟨d, hd, rfl⟩
      exact Or.inl ⟨d, hd, e⟩
    · exact Or.inr ⟨tk, h, e⟩

/-- Every input key has a key of the same join string in the result. -/
theorem makeTupleLockKeys_covers_join {Cond : Type} (U : TupleUtils)
    (deletes : List TupleKeyWithoutCondition) (writes : List (TupleKey Cond))
    (tk : TupleKey Cond)
    (htk : tk ∈ deletes.map (TupleKeyWithoutConditionToTupleKey Cond) ++ writes) :
    ∃ k ∈ makeTupleLockKeys U deletes writes, seenKey k = seenKey (lockKeyOf U tk) := by
  have h := seen_foldl_add U _ { seen := [], keys := [] } tk htk
  rw [← collectKeys_eq] at h
  rcases List.mem_map.1 (((collectKeys_inv U deletes writes).1 _).1 h) with ⟨k, hk, e⟩
  exact ⟨k, (mem_makeTupleLockKeys U deletes writes k).2 hk, e⟩

/-- No key occurs twice in the result. -/
theorem makeTupleLockKeys_nodup {Cond : Type} (U : TupleUtils)
    (deletes : List TupleKeyWithoutCondition) (writes : List (TupleKey Cond)) :
    (makeTupleLockKeys U deletes writes).Nodup :=
  (sortSlice_perm lockKeyLess _).nodup_iff.2 (collectKeys_nodup U deletes writes)

/-- The result is empty only for empty inputs. -/
theorem makeTupleLockKeys_eq_nil {Cond : Type} (U : TupleUtils)
    (deletes : List TupleKeyWithoutCondition) (writes : List (TupleKey Cond))
    (h : makeTupleLockKeys U deletes writes = []) : deletes = [] ∧ writes = [] := by
  by_contra hne
  have : ∃ tk : TupleKey Cond,
      tk ∈ deletes.map (TupleKeyWithoutConditionToTupleKey Cond) ++ writes := by
    cases deletes with
    | nil =>
      cases writes with
      | nil => exact absurd ⟨rfl, rfl⟩ hne
      | cons w ws => exact ⟨w, by simp⟩
    | cons d ds => exact ⟨TupleKeyWithoutConditionToTupleKey Cond d, by simp⟩
  rcases this with ⟨tk, htk⟩
  rcases makeTupleLockKeys_covers_join U deletes writes tk htk with ⟨k, hk, _⟩
  rw [h] at hk
  simp at hk

/-! ## Claims on the lock-key orderer -/

/-- C1 (the code at the failing input): the delete lists `[a\0:b, a:\0b]` and
`[a:\0b, a\0:b]` are permutations of one another, and `makeTupleLockKeys`
returns different key lists on them: the two keys have the same NUL-joined
string, so the one that comes first in the input is the one that is kept. -/
theorem makeTupleLockKeys_order_dependent :
    [nulKeyA, nulKeyB].Perm [nulKeyB, nulKeyA] ∧
    makeTupleLockKeys pkgTuple [nulKeyA, nulKeyB] ([] : List (TupleKey ExampleCondition))
      ≠ makeTupleLockKeys pkgTuple [nulKeyB, nulKeyA] ([] : List (TupleKey ExampleCondition)) :=
  ⟨List.Perm.swap _ _ _, by decide⟩

/-- C2: for every delete list and write list, the list returned by
`makeTupleLockKeys` is strictly ascending in the lexicographic order on
(objectType, objectID, relation, user, userType): every key is strictly below
every later key. -/
theorem makeTupleLockKeys_strictly_ascending {Cond : Type} (U : TupleUtils)
    (deletes : List TupleKeyWithoutCondition) (writes : List (TupleKey Cond)) :
    (makeTupleLockKeys U deletes writes).Pairwise lexLess :=
  sortSlice_strict _ (collectKeys_nodup U deletes writes)

/-- C3 (the code at the failing input): on the delete list `[a\0:b, a:\0b]`
the two keys have different five-part identities, (`a\0`, `b`, ...) and
(`a`, `\0b`, ...), yet the output holds only the first: the identity of the
second delete key does not occur in the output. -/
theorem makeTupleLockKeys_loses_key :
    lockKeyOf pkgTuple (TupleKeyWithoutConditionToTupleKey ExampleCondition nulKeyB)
      ≠ lockKeyOf pkgTuple (TupleKeyWithoutConditionToTupleKey ExampleCondition nulKeyA) ∧
    makeTupleLockKeys pkgTuple [nulKeyA, nulKeyB] ([] : List (TupleKey ExampleCondition))
      = [lockKeyOf pkgTuple (TupleKeyWithoutConditionToTupleKey ExampleCondition nulKeyA)] ∧
    lockKeyOf pkgTuple (TupleKeyWithoutConditionToTupleKey ExampleCondition nulKeyB)
      ∉ makeTupleLockKeys pkgTuple [nulKeyA, nulKeyB] ([] : List (TupleKey ExampleCondition)) := by
  decide

/-! ## The lock-key orderer on keys without NUL bytes -/

theorem append_sep_inj {a b r t : GoString} (ha : 0 ∉ a) (hb : 0 ∉ b)
    (h : a ++ 0 :: r = b ++ 0 :: t) : a = b ∧ r = t := by
  induction a generalizing b with
  | nil =>
    cases b with
    | nil => simpa using h
    | cons y ys =>
      simp only [List.nil_append, List.cons_append, List.cons.injEq] at h
      exact absurd h.1.symm (fun e => hb (by simp [e]))
  | cons x xs ih =>
    cases b with
    | nil =>
      simp only [List.nil_append, List.cons_append, List.cons.injEq] at h
      exact absurd h.1 (fun e => ha (by simp [e]))
    | cons y ys =>
      simp only [List.cons_append, List.cons.injEq] at h
      have hx : 0 ∉ xs := fun e => ha (List.mem_cons_of_mem _ e)
      have hy : 0 ∉ ys := fun e => hb (List.mem_cons_of_mem _ e)
      obtain ⟨e1, e2⟩ := ih hx hy h.2
      exact ⟨by rw [h.1, e1], e2⟩

/-- On keys whose fields hold no NUL byte the join string determines the key. -/
theorem seenKey_injective_of_nulFree {a b : tupleLockKey} (ha : a.nulFree) (hb : b.nulFree)
    (h : seenKey a = seenKey b) : a = b := by
  obtain ⟨a1, a2, a3, a4⟩ := ha
  obtain ⟨b1, b2, b3, b4⟩ := hb
  simp only [seenKey, stringsJoin, List.append_assoc, List.singleton_append] at h
  obtain ⟨e1, h⟩ := append_sep_inj a1 b1 h
  obtain ⟨e2, h⟩ := append_sep_inj a2 b2 h
  obtain ⟨e3, h⟩ := append_sep_inj a3 b3 h
  obtain ⟨e4, e5⟩ := append_sep_inj a4 b4 h
  cases a
  cases b
  simp_all

theorem mem_inputLockKeys_of_mem {Cond : Type} (U : TupleUtils)
    (deletes : List TupleKeyWithoutCondition) (writes : List (TupleKey Cond))
    (k : tupleLockKey) (hk : k ∈ makeTupleLockKeys U deletes writes) :
    k ∈ inputLockKeys U deletes writes := by
  unfold inputLockKeys
  rcases makeTupleLockKeys_sound U deletes writes k hk with ⟨tk, htk, e⟩ | ⟨tk, htk, e⟩
  · exact List.mem_map.2 ⟨TupleKeyWithoutConditionToTupleKey Cond tk,
      List.mem_append_left _ (List.mem_map.2 ⟨tk, htk, rfl⟩), e.symm⟩
  · exact List.mem_map.2 ⟨tk, List.mem_append_right _ htk, e.symm⟩

/-- When no field of a touched key holds a NUL byte, the result holds exactly
the identities of the delete and write keys, each once. -/
theorem makeTupleLockKeys_complete_of_nulFree {Cond : Type} (U : TupleUtils)
    (deletes : List TupleKeyWithoutCondition) (writes : List (TupleKey Cond))
    (hnf : ∀ k ∈ inputLockKeys U deletes writes, k.nulFree) (k : tupleLockKey) :
    (k ∈ makeTupleLockKeys U deletes writes ↔ k ∈ inputLockKeys U deletes writes) ∧
    (makeTupleLockKeys U deletes writes).Nodup := by
  refine ⟨⟨mem_inputLockKeys_of_mem U deletes writes k, ?_⟩,
    makeTupleLockKeys_nodup U deletes writes⟩
  intro hk
  obtain ⟨tk, htk, e⟩ := List.mem_map.1 hk
  obtain ⟨k2, hk2, hs⟩ := makeTupleLockKeys_covers_join U deletes writes tk htk
  have hk2in := mem_inputLockKeys_of_mem U deletes writes k2 hk2
  have : k2 = k := by
    apply seenKey_injective_of_nulFree (hnf k2 hk2in) (hnf k hk)
    rw [hs, e]
  rw [← this]
  exact hk2

/-- When no field of a touched key holds a NUL byte, the result does not
depend on the order of the delete list and of the write list. -/
theorem makeTupleLockKeys_perm_of_nulFree {Cond : Type} (U : TupleUtils)
    (deletes deletes2 : List TupleKeyWithoutCondition) (writes writes2 : List (TupleKey Cond))
    (hd : deletes2.Perm deletes) (hw : writes2.Perm writes)
    (hnf : ∀ k ∈ inputLockKeys U deletes writes, k.nulFree) :
    makeTupleLockKeys U deletes2 writes2 = makeTupleLockKeys U deletes writes := by
  have hperm : (inputLockKeys U deletes2 writes2).Perm (inputLockKeys U deletes writes) := by
    unfold inputLockKeys
    exact ((hd.map _).append hw).map _
  have hnf2 : ∀ k ∈ inputLockKeys U deletes2 writes2, k.nulFree :=
    fun k hk => hnf k (hperm.mem_iff.1 hk)
  have hp : (makeTupleLockKeys U deletes2 writes2).Perm (makeTupleLockKeys U deletes writes) := by
    rw [List.perm_ext_iff_of_nodup (makeTupleLockKeys_nodup U deletes2 writes2)
      (makeTupleLockKeys_nodup U deletes writes)]
    intro k
    rw [(makeTupleLockKeys_complete_of_nulFree U deletes2 writes2 hnf2 k).1,
      (makeTupleLockKeys_complete_of_nulFree U deletes writes hnf k).1]
    exact hperm.mem_iff
  haveI : IsAntisymm tupleLockKey lexLess :=
    ⟨fun a _ hab hba => absurd (lexLess_trans hab hba) (lexLess_irrefl a)⟩
  exact List.eq_of_perm_of_sorted hp
    (sortSlice_strict _ (collectKeys_nodup U deletes2 writes2))
    (sortSlice_strict _ (collectKeys_nodup U deletes writes))

/-! ## The loops of steps 4 and 5 in closed form -/

theorem addDeletes_cons {Cond : Type} (E : Env Cond) (store : GoString) (now : Nat) (p : Plan)
    (tk : TupleKeyWithoutCondition) (rest : List TupleKeyWithoutCondition) :
    Plan.addDeletes E store now
      { p with
        deleteConditions := p.deleteConditions ++ [deleteConditionOf E.U tk]
        changeLogItems := p.changeLogItems ++ [deleteChangelogOf E store tk (E.newULID now p.draws)]
        draws := p.draws + 1 } rest
      = Plan.addDeletes E store now p (tk :: rest) := by
  simp [Plan.addDeletes, deleteRows, Nat.add_assoc, Nat.add_comm 1]

theorem addDeletes_nil {Cond : Type} (E : Env Cond) (store : GoString) (now : Nat) (p : Plan) :
    Plan.addDeletes E store now p [] = p := by
  simp [Plan.addDeletes, deleteRows]

/-- Step 4 returns the error of the first delete key that raises one, and
otherwise plans the delete keys found in the snapshot, in order. -/
theorem deletesLoop_eq {Cond : Type} (E : Env Cond) (store : GoString)
    (opts : TupleWriteOptions) (now : Nat) (existing : ExistingMap Cond)
    (deletes : List TupleKeyWithoutCondition) (p : Plan) :
    deletesLoop E store opts now existing deletes p =
      match deletes.findSome? (deleteVerdict E opts existing) with
      | some err => .error err
      | none => .ok (Plan.addDeletes E store now p (foundDeletes E existing deletes)) := by
  induction deletes generalizing p with
  | nil => simp [deletesLoop, foundDeletes, addDeletes_nil]
  | cons tk rest ih =>
    unfold deletesLoop
    cases hl : existing.lookup (E.U.TupleKeyToString tk.object tk.relation tk.user) with
    | none =>
      have hm : deleteMissing E existing tk = true := by simp [deleteMissing, hl]
      cases hp : opts.OnMissingDelete with
      | OnMissingDeleteIgnore =>
        simp only [List.findSome?_cons, deleteVerdict, hm, hp, if_true]
        rw [ih p]
        simp [foundDeletes, hm]
      | OnMissingDeleteError => simp [List.findSome?_cons, deleteVerdict, hm, hp]
      | other v => simp [List.findSome?_cons, deleteVerdict, hm, hp]
    | some t =>
      have hm : deleteMissing E existing tk = false := by simp [deleteMissing, hl]
      simp only [List.findSome?_cons, deleteVerdict, hm]
      rw [ih]
      have hf : foundDeletes E existing (tk :: rest) = tk :: foundDeletes E existing rest := by
        simp [foundDeletes, hm]
      rw [hf, ← addDeletes_cons]
      simp

theorem addWrites_cons {Cond : Type} (E : Env Cond) (store : GoString) (now : Nat) (p : Plan)
    (tk : TupleKey Cond) (rest : List (TupleKey Cond)) :
    Plan.addWrites E store now
      { p with
        writeItems := p.writeItems ++
          [writeItemOf E store tk (marshalled E tk).1 (marshalled E tk).2 (E.newULID now p.draws)]
        changeLogItems := p.changeLogItems ++
          [writeChangelogOf E store tk (marshalled E tk).1 (marshalled E tk).2
            (E.newULID now p.draws)]
        draws := p.draws + 1 } rest
      = Plan.addWrites E store now p (tk :: rest) := by
  simp [Plan.addWrites, writeRows, writeChangelogRows, Nat.add_assoc, Nat.add_comm 1]

theorem addWrites_nil {Cond : Type} (E : Env Cond) (store : GoString) (now : Nat) (p : Plan) :
    Plan.addWrites E store now p [] = p := by
  simp [Plan.addWrites, writeRows, writeChangelogRows]

/-- Step 5 returns the error of the first write key that raises one, and
otherwise plans the write keys that are not in the snapshot, in order. -/
theorem writesLoop_eq {Cond : Type} [DecidableEq Cond] (E : Env Cond) (store : GoString)
    (opts : TupleWriteOptions) (now : Nat) (existing : ExistingMap Cond)
    (writes : List (TupleKey Cond)) (p : Plan) :
    writesLoop E store opts now existing writes p =
      match writes.findSome? (writeVerdict E opts existing) with
      | some err => .error err
      | none => .ok (Plan.addWrites E store now p (newWrites E existing writes)) := by
  induction writes generalizing p with
  | nil => simp [writesLoop, newWrites, addWrites_nil]
  | cons tk rest ih =>
    unfold writesLoop
    cases hl : existing.lookup (E.U.TupleKeyToString tk.object tk.relation tk.user) with
    | some t =>
      have hm : writePresent E existing tk = true := by simp [writePresent, hl]
      cases hp : opts.OnDuplicateInsert with
      | OnDuplicateInsertIgnore =>
        by_cases hc : t.key.condition = tk.condition
        · simp only [List.findSome?_cons, writeVerdict, hl, hp, hc, if_true]
          rw [ih p]
          simp [newWrites, hm]
        · simp [List.findSome?_cons, writeVerdict, hl, hp, hc]
      | OnDuplicateInsertError => simp [List.findSome?_cons, writeVerdict, hl, hp]
      | other v => simp [List.findSome?_cons, writeVerdict, hl, hp]
    | none =>
      have hm : writePresent E existing tk = false := by simp [writePresent, hl]
      cases hmar : E.MarshalRelationshipCondition tk.condition with
      | error msg => simp [List.findSome?_cons, writeVerdict, hl, hmar]
      | ok v =>
        obtain ⟨conditionName, conditionContext⟩ := v
        simp only [List.findSome?_cons, writeVerdict, hl, hmar]
        rw [ih]
        have hf : newWrites E existing (tk :: rest) = tk :: newWrites E existing rest := by
          simp [newWrites, hm]
        have hv : marshalled E tk = (conditionName, conditionContext) := by
          simp [marshalled, hmar]
        rw [hf, ← addWrites_cons, hv]

/-! ## The committed tables under the driver calls -/

theorem BeginTx_committed (db : DB) : (BeginTx db).2.committed = db.committed := by
  unfold BeginTx
  cases db.faults db.calls <;> rfl

theorem queryTuples_committed (store : GoString) (conds : List KeyEq) (db : DB) :
    (queryTuples store conds db).2.committed = db.committed := by
  unfold queryTuples
  cases db.faults db.calls <;> rfl

theorem execDelete_committed (store : GoString) (conds : List KeyEq) (db : DB) :
    (execDelete store conds db).2.committed = db.committed := by
  unfold execDelete
  cases db.faults db.calls <;> rfl

theorem RowsAffected_committed (res : Nat) (db : DB) :
    (RowsAffected res db).2.committed = db.committed := by
  unfold RowsAffected
  cases db.faults db.calls <;> rfl

theorem execInsertTuple_committed (rows : List TupleRow) (db : DB) :
    (execInsertTuple rows db).2.committed = db.committed := by
  unfold execInsertTuple
  cases db.faults db.calls with
  | some err => rfl
  | none =>
    simp only
    split <;> rfl

theorem execInsertChangelog_committed (rows : List ChangelogRow) (db : DB) :
    (execInsertChangelog rows db).2.committed = db.committed := by
  unfold execInsertChangelog
  cases db.faults db.calls <;> rfl

theorem Commit_error_committed (db : DB) (err : DriverError) (db1 : DB)
    (h : Commit db = (.error err, db1)) : db1.committed = db.committed := by
  unfold Commit at h
  cases hf : db.faults db.calls with
  | some e =>
    rw [hf] at h
    simp only [Prod.mk.injEq] at h
    rw [← h.2]
  | none =>
    rw [hf] at h
    simp at h

theorem Commit_ok_committed (db : DB) (u : Unit) (db1 : DB)
    (h : Commit db = (.ok u, db1)) : db1.committed = db.view := by
  unfold Commit at h
  cases hf : db.faults db.calls with
  | some e =>
    rw [hf] at h
    simp at h
  | none =>
    rw [hf] at h
    simp only [Prod.mk.injEq] at h
    rw [← h.2]

theorem selectExistingRowsForWrite_committed {Cond : Type} (E : Env Cond) (store : GoString)
    (keys : List tupleLockKey) (db : DB) (existing : ExistingMap Cond) :
    (selectExistingRowsForWrite E store keys db existing).2.committed = db.committed := by
  unfold selectExistingRowsForWrite
  split
  · rfl
  · have h := queryTuples_committed store (keys.map tupleLockKey.toEq) db
    cases hq : queryTuples store (keys.map tupleLockKey.toEq) db with
    | mk r db1 =>
      rw [hq] at h
      cases r with
      | error e => simpa [hq] using h
      | ok rows => simpa [hq] using h

theorem lockLoop_committed {Cond : Type} (E : Env Cond) (store : GoString)
    (bs : List (List tupleLockKey)) (existing : ExistingMap Cond) (db : DB) :
    (lockLoop E store bs existing db).2.committed = db.committed := by
  induction bs generalizing existing db with
  | nil => rfl
  | cons keys rest ih =>
    unfold lockLoop
    have h := selectExistingRowsForWrite_committed E store keys db existing
    revert h
    cases selectExistingRowsForWrite E store keys db existing with
    | mk r db1 =>
      cases r with
      | error e => exact fun h => h
      | ok ex1 =>
        intro h
        simp only
        rw [ih ex1 db1]
        exact h

theorem deleteLoop_committed (Cond : Type) (store : GoString) (bs : List (List KeyEq))
    (db : DB) : (deleteLoop Cond store bs db).2.committed = db.committed := by
  induction bs generalizing db with
  | nil => rfl
  | cons b rest ih =>
    unfold deleteLoop
    have h1 := execDelete_committed store b db
    revert h1
    cases execDelete store b db with
    | mk r db1 =>
      cases r with
      | error e => exact fun h => h
      | ok res =>
        intro h1
        simp only
        have h2 := RowsAffected_committed res db1
        revert h2
        cases RowsAffected res db1 with
        | mk r2 db2 =>
          cases r2 with
          | error e => exact fun h2 => h2.trans h1
          | ok n =>
            intro h2
            simp only
            split
            · exact h2.trans h1
            · rw [ih db2]
              exact h2.trans h1

theorem insertLoop_committed (Cond : Type) (bs : List (List TupleRow)) (db : DB) :
    (insertLoop Cond bs db).2.committed = db.committed := by
  induction bs generalizing db with
  | nil => rfl
  | cons b rest ih =>
    unfold insertLoop
    have h1 := execInsertTuple_committed b db
    revert h1
    cases execInsertTuple b db with
    | mk r db1 =>
      cases r with
      | error e =>
        intro h1
        simp only
        split <;> exact h1
      | ok u =>
        intro h1
        simp only
        rw [ih db1]
        exact h1

theorem changelogLoop_committed (Cond : Type) (bs : List (List ChangelogRow)) (db : DB) :
    (changelogLoop Cond bs db).2.committed = db.committed := by
  induction bs generalizing db with
  | nil => rfl
  | cons b rest ih =>
    unfold changelogLoop
    have h1 := execInsertChangelog_committed b db
    revert h1
    cases execInsertChangelog b db with
    | mk r db1 =>
      cases r with
      | error e => exact fun h => h
      | ok u =>
        intro h1
        simp only
        rw [ih db1]
        exact h1

/-! ## Batches -/

theorem batchLoop_flatten {α : Type} (B : Nat) (hB : 0 < B) (xs : List α) (fuel start : Nat)
    (h : xs.length - start ≤ fuel) : (batchLoop B xs fuel start).flatten = xs.drop start := by
  induction fuel generalizing start with
  | zero =>
    have : xs.length ≤ start := by omega
    simp [batchLoop, List.drop_eq_nil_of_le this]
  | succ n ih =>
    unfold batchLoop
    by_cases hs : start < xs.length
    · simp only [hs, if_true, List.flatten_cons]
      rw [ih (start + B) (by omega)]
      by_cases hb : start + B > xs.length
      · simp only [hb, if_true]
        rw [List.drop_eq_nil_of_le (by omega : xs.length ≤ start + B), List.append_nil]
        apply List.take_of_length_le
        simp
      · simp only [hb, if_false]
        have e : start + B - start = B := by omega
        rw [e]
        have e2 : xs.drop (start + B) = (xs.drop start).drop B := by
          rw [List.drop_drop, Nat.add_comm]
        rw [e2, List.take_append_drop]
    · have : xs.length ≤ start := by omega
      simp [hs, List.drop_eq_nil_of_le this]

/-- The batches of a loop, put end to end, are the slice the loop runs over. -/
theorem batches_flatten {α : Type} (B : Nat) (hB : 0 < B) (xs : List α) :
    (batches B xs).flatten = xs := by
  unfold batches
  rw [batchLoop_flatten B hB xs xs.length 0 (by omega)]
  rfl

/-! ## The view of the transaction under the driver calls -/

theorem BeginTx_ok (db : DB) (u : Unit) (db1 : DB) (h : BeginTx db = (.ok u, db1)) :
    db1.view = db.committed ∧ db1.committed = db.committed ∧ db1.faults = db.faults := by
  unfold BeginTx at h
  cases hf : db.faults db.calls with
  | some e =>
    rw [hf] at h
    simp at h
  | none =>
    rw [hf] at h
    simp only [Prod.mk.injEq] at h
    rw [← h.2]
    exact ⟨rfl, rfl, rfl⟩

theorem queryTuples_view (store : GoString) (conds : List KeyEq) (db : DB) :
    (queryTuples store conds db).2.view = db.view := by
  unfold queryTuples
  cases db.faults db.calls <;> rfl

theorem selectExistingRowsForWrite_view {Cond : Type} (E : Env Cond) (store : GoString)
    (keys : List tupleLockKey) (db : DB) (existing : ExistingMap Cond) :
    (selectExistingRowsForWrite E store keys db existing).2.view = db.view := by
  unfold selectExistingRowsForWrite
  split
  · rfl
  · have h := queryTuples_view store (keys.map tupleLockKey.toEq) db
    cases hq : queryTuples store (keys.map tupleLockKey.toEq) db with
    | mk r db1 =>
      rw [hq] at h
      cases r with
      | error e => simpa [hq] using h
      | ok rows => simpa [hq] using h

theorem lockLoop_view {Cond : Type} (E : Env Cond) (store : GoString)
    (bs : List (List tupleLockKey)) (existing : ExistingMap Cond) (db : DB) :
    (lockLoop E store bs existing db).2.view = db.view := by
  induction bs generalizing existing db with
  | nil => rfl
  | cons keys rest ih =>
    unfold lockLoop
    have h := selectExistingRowsForWrite_view E store keys db existing
    revert h
    cases selectExistingRowsForWrite E store keys db existing with
    | mk r db1 =>
      cases r with
      | error e => exact fun h => h
      | ok ex1 =>
        intro h
        simp only
        rw [ih ex1 db1]
        exact h

theorem execDelete_ok (store : GoString) (conds : List KeyEq) (db : DB) (res : Nat) (db1 : DB)
    (h : execDelete store conds db = (.ok res, db1)) :
    db1.view = { tuple := db.view.tuple.filter (fun r => !deleteHits store conds r)
                 changelog := db.view.changelog } ∧
    res = (db.view.tuple.filter (deleteHits store conds)).length := by
  unfold execDelete at h
  cases hf : db.faults db.calls with
  | some e =>
    rw [hf] at h
    simp at h
  | none =>
    rw [hf] at h
    simp only [Prod.mk.injEq, Except.ok.injEq] at h
    rw [← h.2, ← h.1]
    exact ⟨rfl, rfl⟩

theorem RowsAffected_ok (res : Nat) (db : DB) (n : Nat) (db1 : DB)
    (h : RowsAffected res db = (.ok n, db1)) : db1.view = db.view ∧ n = res := by
  unfold RowsAffected at h
  cases hf : db.faults db.calls with
  | some e =>
    rw [hf] at h
    simp at h
  | none =>
    rw [hf] at h
    simp only [Prod.mk.injEq, Except.ok.injEq] at h
    rw [← h.2, ← h.1]
    exact ⟨rfl, rfl⟩

theorem execInsertTuple_ok (rows : List TupleRow) (db : DB) (u : Unit) (db1 : DB)
    (h : execInsertTuple rows db = (.ok u, db1)) :
    db1.view = { tuple := db.view.tuple ++ rows, changelog := db.view.changelog } := by
  unfold execInsertTuple at h
  cases hf : db.faults db.calls with
  | some e =>
    rw [hf] at h
    simp at h
  | none =>
    rw [hf] at h
    simp only at h
    split at h
    · simp at h
    · simp only [Prod.mk.injEq] at h
      rw [← h.2]
      rfl

theorem execInsertChangelog_ok (rows : List ChangelogRow) (db : DB) (u : Unit) (db1 : DB)
    (h : execInsertChangelog rows db = (.ok u, db1)) :
    db1.view = { tuple := db.view.tuple, changelog := db.view.changelog ++ rows } := by
  unfold execInsertChangelog at h
  cases hf : db.faults db.calls with
  | some e =>
    rw [hf] at h
    simp at h
  | none =>
    rw [hf] at h
    simp only [Prod.mk.injEq] at h
    rw [← h.2]
    rfl

theorem deleteHits_append (store : GoString) (a b : List KeyEq) (r : TupleRow) :
    deleteHits store (a ++ b) r = (deleteHits store a r || deleteHits store b r) := by
  unfold deleteHits
  rw [List.any_append]
  cases decide (r.store = store) <;> simp

theorem deleteLoop_ok (Cond : Type) (store : GoString) (bs : List (List KeyEq)) (db db2 : DB)
    (h : deleteLoop Cond store bs db = (none, db2)) :
    db2.view = { tuple := db.view.tuple.filter (fun r => !deleteHits store bs.flatten r)
                 changelog := db.view.changelog } := by
  induction bs generalizing db with
  | nil =>
    unfold deleteLoop at h
    simp only [Prod.mk.injEq, true_and] at h
    rw [← h]
    simp [deleteHits]
  | cons b rest ih =>
    unfold deleteLoop at h
    cases hE : execDelete store b db with
    | mk r db1 =>
      rw [hE] at h
      cases r with
      | error e => simp at h
      | ok res =>
        simp only at h
        cases hR : RowsAffected res db1 with
        | mk r2 db3 =>
          rw [hR] at h
          cases r2 with
          | error e => simp at h
          | ok n =>
            simp only at h
            split at h
            · simp at h
            · have h1 := (execDelete_ok store b db res db1 hE).1
              have h2 := (RowsAffected_ok res db1 n db3 hR).1
              rw [ih db3 h, h2, h1]
              simp only [List.flatten_cons, List.filter_filter, deleteHits_append, Bool.not_or]
              congr 1
              apply List.filter_congr
              intro x _
              exact Bool.and_comm _ _

theorem insertLoop_ok (Cond : Type) (bs : List (List TupleRow)) (db db2 : DB)
    (h : insertLoop Cond bs db = (none, db2)) :
    db2.view = { tuple := db.view.tuple ++ bs.flatten, changelog := db.view.changelog } := by
  induction bs generalizing db with
  | nil =>
    unfold insertLoop at h
    simp only [Prod.mk.injEq, true_and] at h
    rw [← h]
    simp
  | cons b rest ih =>
    unfold insertLoop at h
    cases hE : execInsertTuple b db with
    | mk r db1 =>
      rw [hE] at h
      cases r with
      | error e =>
        simp only at h
        split at h <;> simp at h
      | ok u =>
        simp only at h
        rw [ih db1 h, execInsertTuple_ok b db u db1 hE]
        simp

theorem changelogLoop_ok (Cond : Type) (bs : List (List ChangelogRow)) (db db2 : DB)
    (h : changelogLoop Cond bs db = (none, db2)) :
    db2.view = { tuple := db.view.tuple, changelog := db.view.changelog ++ bs.flatten } := by
  induction bs generalizing db with
  | nil =>
    unfold changelogLoop at h
    simp only [Prod.mk.injEq, true_and] at h
    rw [← h]
    simp
  | cons b rest ih =>
    unfold changelogLoop at h
    cases hE : execInsertChangelog b db with
    | mk r db1 =>
      rw [hE] at h
      cases r with
      | error e => simp at h
      | ok u =>
        simp only at h
        rw [ih db1 h, execInsertChangelog_ok b db u db1 hE]
        simp

/-! ## The method `write` from the locked snapshot on -/

theorem writeResolved_of_error {Cond : Type} [DecidableEq Cond] (E : Env Cond)
    (store : GoString) (deletes : List TupleKeyWithoutCondition) (writes : List (TupleKey Cond))
    (opts : TupleWriteOptions) (now : Nat) (existing : ExistingMap Cond) (db : DB)
    (err : WriteError Cond) (h : resolve E store deletes writes opts now existing = .error err) :
    writeResolved E store deletes writes opts now existing db = (some err, db) := by
  unfold writeResolved
  rw [h]

/-- From the locked snapshot on, an error return leaves the committed tables
as they were, and a nil return commits the whole plan. -/
theorem writeResolved_spec {Cond : Type} [DecidableEq Cond] (E : Env Cond)
    (store : GoString) (deletes : List TupleKeyWithoutCondition) (writes : List (TupleKey Cond))
    (opts : TupleWriteOptions) (now : Nat) (existing : ExistingMap Cond) (db : DB) :
    (∀ err, (writeResolved E store deletes writes opts now existing db).1 = some err →
      (writeResolved E store deletes writes opts now existing db).2.committed = db.committed) ∧
    ((writeResolved E store deletes writes opts now existing db).1 = none →
      ∃ p, resolve E store deletes writes opts now existing = .ok p ∧
        (writeResolved E store deletes writes opts now existing db).2.committed
          = applyPlan store p db.view) := by
  unfold writeResolved
  cases hr : resolve E store deletes writes opts now existing with
  | error e => simp
  | ok p =>
    simp only
    have c1 := deleteLoop_committed Cond store
      (batches E.DefaultMaxTuplesPerWrite p.deleteConditions) db
    cases h1 : deleteLoop Cond store
        (batches E.DefaultMaxTuplesPerWrite p.deleteConditions) db with
    | mk r1 db1 =>
      rw [h1] at c1
      cases r1 with
      | some e => exact ⟨fun _ _ => c1, fun h => by simp at h⟩
      | none =>
        simp only
        have c2 := insertLoop_committed Cond
          (batches E.DefaultMaxTuplesPerWrite p.writeItems) db1
        cases h2 : insertLoop Cond
            (batches E.DefaultMaxTuplesPerWrite p.writeItems) db1 with
        | mk r2 db2 =>
          rw [h2] at c2
          cases r2 with
          | some e => exact ⟨fun _ _ => c2.trans c1, fun h => by simp at h⟩
          | none =>
            simp only
            have c3 := changelogLoop_committed Cond
              (batches E.DefaultMaxTuplesPerWrite p.changeLogItems) db2
            cases h3 : changelogLoop Cond
                (batches E.DefaultMaxTuplesPerWrite p.changeLogItems) db2 with
            | mk r3 db3 =>
              rw [h3] at c3
              cases r3 with
              | some e => exact ⟨fun _ _ => c3.trans (c2.trans c1), fun h => by simp at h⟩
              | none =>
                simp only
                cases h4 : Commit db3 with
                | mk r4 db4 =>
                  cases r4 with
                  | error e =>
                    refine ⟨fun _ _ => ?_, fun h => by simp at h⟩
                    exact (Commit_error_committed db3 e db4 h4).trans (c3.trans (c2.trans c1))
                  | ok u =>
                    refine ⟨fun _ h => by simp at h, fun _ => ⟨p, rfl, ?_⟩⟩
                    simp only
                    rw [Commit_ok_committed db3 u db4 h4, changelogLoop_ok Cond _ db2 db3 h3,
                      insertLoop_ok Cond _ db1 db2 h2, deleteLoop_ok Cond store _ db db1 h1]
                    simp [applyPlan, batches_flatten _ E.maxTuples_pos]

/-- After a locked snapshot `write` is the rest of the method followed by the
deferred rollback, and the transaction still sees the committed tables. -/
theorem write_of_lockedSnapshot {Cond : Type} [DecidableEq Cond] (E : Env Cond)
    (store : GoString) (deletes : List TupleKeyWithoutCondition) (writes : List (TupleKey Cond))
    (opts : TupleWriteOptions) (now : Nat) (db : DB) (existing : ExistingMap Cond) (db2 : DB)
    (h : lockedSnapshot E store deletes writes db = some (existing, db2)) :
    write E store deletes writes opts now db =
      ((writeResolved E store deletes writes opts now existing db2).1,
        Rollback (writeResolved E store deletes writes opts now existing db2).2) ∧
    db2.view = db.committed ∧ db2.committed = db.committed := by
  unfold lockedSnapshot at h
  unfold write writeTx
  cases hb : BeginTx db with
  | mk r db1 =>
    rw [hb] at h
    cases r with
    | error e => simp at h
    | ok u =>
      simp only at h ⊢
      by_cases ht : (makeTupleLockKeys E.U deletes writes).length = 0
      · simp [ht] at h
      · simp only [ht, if_false] at h ⊢
        have hv := lockLoop_view E store
          (batches E.DefaultMaxTuplesPerWrite (makeTupleLockKeys E.U deletes writes)) [] db1
        have hc := lockLoop_committed E store
          (batches E.DefaultMaxTuplesPerWrite (makeTupleLockKeys E.U deletes writes)) [] db1
        cases hl : lockLoop E store
            (batches E.DefaultMaxTuplesPerWrite (makeTupleLockKeys E.U deletes writes)) [] db1 with
        | mk r2 dbl =>
          rw [hl] at h hv hc
          cases r2 with
          | error e => simp at h
          | ok ex =>
            simp only [Option.some.injEq, Prod.mk.injEq] at h
            obtain ⟨rfl, rfl⟩ := h
            have hb2 := BeginTx_ok db u db1 hb
            exact ⟨rfl, hv.trans hb2.1, hc.trans hb2.2.1⟩

theorem Rollback_committed (db : DB) : (Rollback db).committed = db.committed := rfl

/-- Whatever `write` returns, it either left the committed tables as they
were or returned nil after committing the plan made from a locked snapshot. -/
theorem write_cases {Cond : Type} [DecidableEq Cond] (E : Env Cond)
    (store : GoString) (deletes : List TupleKeyWithoutCondition) (writes : List (TupleKey Cond))
    (opts : TupleWriteOptions) (now : Nat) (db : DB) :
    ((write E store deletes writes opts now db).2.committed = db.committed ∧
      ((write E store deletes writes opts now db).1 = none →
        makeTupleLockKeys E.U deletes writes = [])) ∨
    ((write E store deletes writes opts now db).1 = none ∧
      ∃ existing db2 p, lockedSnapshot E store deletes writes db = some (existing, db2) ∧
        resolve E store deletes writes opts now existing = .ok p ∧
        (write E store deletes writes opts now db).2.committed = applyPlan store p db.committed) := by
  cases hs : lockedSnapshot E store deletes writes db with
  | some v =>
    obtain ⟨existing, db2⟩ := v
    obtain ⟨hw, hv, hc⟩ := write_of_lockedSnapshot E store deletes writes opts now db existing db2 hs
    have hspec := writeResolved_spec E store deletes writes opts now existing db2
    rw [hw]
    cases hr : (writeResolved E store deletes writes opts now existing db2).1 with
    | some e =>
      left
      simp only [Rollback_committed]
      exact ⟨(hspec.1 e hr).trans hc, fun h => by simp at h⟩
    | none =>
      right
      obtain ⟨p, hp, hcom⟩ := hspec.2 hr
      refine ⟨rfl, existing, db2, p, rfl, hp, ?_⟩
      simp only [Rollback_committed]
      rw [hcom, hv]
  | none =>
    left
    unfold lockedSnapshot at hs
    unfold write writeTx
    have hbc := BeginTx_committed db
    cases hb : BeginTx db with
    | mk r db1 =>
      rw [hb] at hs hbc
      cases r with
      | error e => exact ⟨hbc, fun h => by simp at h⟩
      | ok u =>
        simp only at hs ⊢
        by_cases ht : (makeTupleLockKeys E.U deletes writes).length = 0
        · simp only [ht, if_true]
          exact ⟨hbc, fun _ => List.length_eq_zero.1 ht⟩
        · simp only [ht, if_false] at hs ⊢
          have hc := lockLoop_committed E store
            (batches E.DefaultMaxTuplesPerWrite (makeTupleLockKeys E.U deletes writes)) [] db1
          cases hl : lockLoop E store
              (batches E.DefaultMaxTuplesPerWrite (makeTupleLockKeys E.U deletes writes)) [] db1 with
          | mk r2 dbl =>
            rw [hl] at hs hc
            cases r2 with
            | error e => exact ⟨hc.trans hbc, fun h => by simp at h⟩
            | ok ex => simp at hs

/-! ## Claims on the conflict resolver -/

theorem findSome_deleteVerdict_none_of_ignore {Cond : Type} (E : Env Cond)
    (opts : TupleWriteOptions) (existing : ExistingMap Cond)
    (deletes : List TupleKeyWithoutCondition)
    (h : opts.OnMissingDelete = .OnMissingDeleteIgnore) :
    deletes.findSome? (deleteVerdict E opts existing) = none := by
  rw [List.findSome?_eq_none_iff]
  intro tk _
  unfold deleteVerdict
  rw [h]
  split <;> rfl

theorem findSome_deleteVerdict_of_find {Cond : Type} (E : Env Cond)
    (opts : TupleWriteOptions) (existing : ExistingMap Cond)
    (deletes : List TupleKeyWithoutCondition)
    (h : opts.OnMissingDelete ≠ .OnMissingDeleteIgnore) :
    deletes.findSome? (deleteVerdict E opts existing) =
      (deletes.find? (deleteMissing E existing)).map
        (fun tk => WriteError.InvalidWriteInputError tk .TUPLE_OPERATION_DELETE) := by
  induction deletes with
  | nil => rfl
  | cons tk rest ih =>
    rw [List.findSome?_cons, List.find?_cons]
    cases hm : deleteMissing E existing tk with
    | true =>
      unfold deleteVerdict
      rw [hm]
      cases hp : opts.OnMissingDelete with
      | OnMissingDeleteIgnore => exact absurd hp h
      | OnMissingDeleteError => rfl
      | other v => rfl
    | false =>
      have : deleteVerdict E opts existing tk = none := by simp [deleteVerdict, hm]
      rw [this]
      exact ih

/-- C4: given the locked snapshot, (1) under OnMissingDelete = Ignore step 4
never fails and plans exactly the delete keys found in the snapshot, so an
absent key contributes no predicate and no changelog row; (2) under any other
policy `write` returns InvalidWriteInput with operation DELETE and the first
absent delete key in input order; (3) the delete resolution fails if and only
if the policy is not Ignore and some delete key is absent from the snapshot. -/
theorem missing_delete_policy {Cond : Type} [DecidableEq Cond] (E : Env Cond)
    (store : GoString) (deletes : List TupleKeyWithoutCondition) (writes : List (TupleKey Cond))
    (opts : TupleWriteOptions) (now : Nat) (db : DB) (existing : ExistingMap Cond) (db2 : DB)
    (hsnap : lockedSnapshot E store deletes writes db = some (existing, db2)) :
    (opts.OnMissingDelete = .OnMissingDeleteIgnore →
      ∀ p, deletesLoop E store opts now existing deletes p =
        .ok (Plan.addDeletes E store now p (foundDeletes E existing deletes))) ∧
    (opts.OnMissingDelete ≠ .OnMissingDeleteIgnore →
      ∀ tk, deletes.find? (deleteMissing E existing) = some tk →
        (write E store deletes writes opts now db).1 =
          some (.InvalidWriteInputError tk .TUPLE_OPERATION_DELETE)) ∧
    ((∃ err, deletesLoop E store opts now existing deletes Plan.empty = .error err) ↔
      (opts.OnMissingDelete ≠ .OnMissingDeleteIgnore ∧
        ∃ tk ∈ deletes, deleteMissing E existing tk = true)) := by
  refine ⟨?_, ?_, ?_⟩
  · intro hp p
    rw [deletesLoop_eq, findSome_deleteVerdict_none_of_ignore E opts existing deletes hp]
  · intro hp tk hf
    rw [(write_of_lockedSnapshot E store deletes writes opts now db existing db2 hsnap).1]
    have hr : resolve E store deletes writes opts now existing =
        .error (.InvalidWriteInputError tk .TUPLE_OPERATION_DELETE) := by
      unfold resolve
      rw [deletesLoop_eq, findSome_deleteVerdict_of_find E opts existing deletes hp, hf]
      rfl
    rw [writeResolved_of_error E store deletes writes opts now existing db2 _ hr]
  · rw [deletesLoop_eq]
    by_cases hp : opts.OnMissingDelete = .OnMissingDeleteIgnore
    · rw [findSome_deleteVerdict_none_of_ignore E opts existing deletes hp]
      simp [hp]
    · rw [findSome_deleteVerdict_of_find E opts existing deletes hp]
      cases hf : deletes.find? (deleteMissing E existing) with
      | none =>
        simp only [Option.map_none']
        constructor
        · rintro ⟨err, h⟩
          simp at h
        · rintro ⟨_, tk, htk, hm⟩
          exact absurd hm (by simpa using List.find?_eq_none.1 hf tk htk)
      | some tk =>
        simp only [Option.map_some']
        constructor
        · intro _
          exact ⟨hp, tk, List.mem_of_find?_eq_some hf, List.find?_some hf⟩
        · intro _
          exact ⟨_, rfl⟩

/-- Witness of C4: the row of `user:x` is stored, the call deletes `user:y`
and `user:x` under policy Error; the snapshot holds `user:x` only and `write`
returns InvalidWriteInput(DELETE) for `user:y`. -/
theorem missing_delete_policy_witness :
    (write exampleEnv (bytes "s") [exampleDelete userY, exampleDelete userX] [] optsError 7
        (exampleDB [exampleRow userX []] noFaults)).1 =
      some (.InvalidWriteInputError (exampleDelete userY) .TUPLE_OPERATION_DELETE) :=
  (missing_delete_policy exampleEnv (bytes "s") [exampleDelete userY, exampleDelete userX] []
    optsError 7 (exampleDB [exampleRow userX []] noFaults) (snapshotX [])
    (lockedDB [exampleRow userX []] noFaults) (by rfl)).2.1 (by decide) (exampleDelete userY)
    (by decide)

theorem applyPlan_empty (store : GoString) (t : Tables) : applyPlan store Plan.empty t = t := by
  simp [applyPlan, Plan.empty, deleteHits]

theorem batches_nil {α : Type} (B : Nat) : batches B ([] : List α) = [] := rfl

theorem writeResolved_of_empty {Cond : Type} [DecidableEq Cond] (E : Env Cond)
    (store : GoString) (deletes : List TupleKeyWithoutCondition) (writes : List (TupleKey Cond))
    (opts : TupleWriteOptions) (now : Nat) (existing : ExistingMap Cond) (db : DB)
    (hr : resolve E store deletes writes opts now existing = .ok Plan.empty)
    (hc : db.faults db.calls = none) :
    (writeResolved E store deletes writes opts now existing db).1 = none := by
  unfold writeResolved
  rw [hr]
  simp [Plan.empty, batches_nil, deleteLoop, insertLoop, changelogLoop, Commit, hc]

theorem findSome_append_none {α β : Type} (f : α → Option β) (pre : List α) (x : α)
    (post : List α) (hpre : pre.findSome? f = none) :
    (pre ++ x :: post).findSome? f = (f x).or (post.findSome? f) := by
  rw [List.findSome?_append, hpre]
  cases h : f x <;> simp [List.findSome?_cons, h]

theorem writeVerdict_of_equal {Cond : Type} [DecidableEq Cond] (E : Env Cond)
    (opts : TupleWriteOptions) (existing : ExistingMap Cond) (tk : TupleKey Cond) (t : Tuple Cond)
    (hpol : opts.OnDuplicateInsert = .OnDuplicateInsertIgnore)
    (hl : existing.lookup (E.U.TupleKeyToString tk.object tk.relation tk.user) = some t)
    (hc : t.key.condition = tk.condition) : writeVerdict E opts existing tk = none := by
  simp [writeVerdict, hl, hpol, hc]

theorem writeVerdict_of_differ {Cond : Type} [DecidableEq Cond] (E : Env Cond)
    (opts : TupleWriteOptions) (existing : ExistingMap Cond) (tk : TupleKey Cond) (t : Tuple Cond)
    (hpol : opts.OnDuplicateInsert = .OnDuplicateInsertIgnore)
    (hl : existing.lookup (E.U.TupleKeyToString tk.object tk.relation tk.user) = some t)
    (hc : t.key.condition ≠ tk.condition) :
    writeVerdict E opts existing tk = some (.TupleConditionConflictError tk) := by
  simp [writeVerdict, hl, hpol, hc]

/-- C5 (counterexample): three calls under OnDuplicateInsert = Ignore.
(1) The rows of `user:x` and `user:y` are stored with condition `c` and the
call writes both keys without condition: the second write key is present in
the locked snapshot with a different condition, yet `write` fails with
ConditionConflict for the first key, not for the second. (2) The row of
`user:x` is stored with condition `c`; the call deletes `user:y`, which is not
stored, under OnMissingDelete = Error, and writes `user:x` without condition:
`write` fails with InvalidWriteInput(DELETE), not with ConditionConflict.
(3) The row of `user:x` is stored without condition and the call only writes
it again, identically; the commit (driver call 2) fails and `write` returns
the wrapped driver error instead of nil. -/
theorem condition_conflict_reports_first_key :
    (lockedSnapshot exampleEnv (bytes "s") [] [exampleWrite userX none, exampleWrite userY none]
        (exampleDB [exampleRow userX (bytes "c"), exampleRow userY (bytes "c")] noFaults)
      = some (snapshotXY (bytes "c"),
          lockedDB [exampleRow userX (bytes "c"), exampleRow userY (bytes "c")] noFaults) ∧
    ((snapshotXY (bytes "c")).lookup (bytes "doc:1#viewer@user:y")).map
        (fun t => decide (t.key.condition ≠ (exampleWrite userY none).condition)) = some true ∧
    (write exampleEnv (bytes "s") [] [exampleWrite userX none, exampleWrite userY none]
        optsIgnore 7
        (exampleDB [exampleRow userX (bytes "c"), exampleRow userY (bytes "c")] noFaults)).1
      = some (.TupleConditionConflictError (exampleWrite userX none)) ∧
    (write exampleEnv (bytes "s") [] [exampleWrite userX none, exampleWrite userY none]
        optsIgnore 7
        (exampleDB [exampleRow userX (bytes "c"), exampleRow userY (bytes "c")] noFaults)).1
      ≠ some (.TupleConditionConflictError (exampleWrite userY none))) ∧
    (lockedSnapshot exampleEnv (bytes "s") [exampleDelete userY] [exampleWrite userX none]
        (exampleDB [exampleRow userX (bytes "c")] noFaults)
      = some (snapshotX (bytes "c"), lockedDB [exampleRow userX (bytes "c")] noFaults) ∧
    ((snapshotX (bytes "c")).lookup (bytes "doc:1#viewer@user:x")).map
        (fun t => decide (t.key.condition ≠ (exampleWrite userX none).condition)) = some true ∧
    (write exampleEnv (bytes "s") [exampleDelete userY] [exampleWrite userX none]
        optsErrorIgnore 7 (exampleDB [exampleRow userX (bytes "c")] noFaults)).1
      = some (.InvalidWriteInputError (exampleDelete userY) .TUPLE_OPERATION_DELETE)) ∧
    (lockedSnapshot exampleEnv (bytes "s") [] [exampleWrite userX none]
        (exampleDB [exampleRow userX []] (faultAt 2 (.otherError 1)))
      = some (snapshotX [], lockedDB [exampleRow userX []] (faultAt 2 (.otherError 1))) ∧
    ((snapshotX []).lookup (bytes "doc:1#viewer@user:x")).map
        (fun t => decide (t.key.condition = (exampleWrite userX none).condition)) = some true ∧
    (write exampleEnv (bytes "s") [] [exampleWrite userX none] optsIgnore 7
        (exampleDB [exampleRow userX []] (faultAt 2 (.otherError 1)))).1
      = some (.sqlError (.otherError 1))) :=
  ⟨⟨by rfl, by decide, by decide, by decide⟩, ⟨by rfl, by decide, by decide⟩,
    ⟨by rfl, by decide, by decide⟩⟩

/-- C5 (amended): given the locked snapshot and OnDuplicateInsert = Ignore,
(1) a write key that is present in the snapshot with a condition equal to the
stored one is a no-op wherever it stands in the write list: step 5 gives the
same result, rows and error alike, as on the list without it; (2) a write key
that is present with a different condition makes `write` fail with
ConditionConflict for that key when the call reaches it, that is when the
delete resolution did not fail and no earlier write key raised an error;
(3) a call without deletes whose write keys are all present with equal
conditions plans nothing, leaves tuple and changelog as they were, and
returns nil when its commit does not fail. -/
theorem duplicate_insert_ignore {Cond : Type} [DecidableEq Cond] (E : Env Cond)
    (store : GoString) (deletes : List TupleKeyWithoutCondition) (writes : List (TupleKey Cond))
    (opts : TupleWriteOptions) (now : Nat) (db : DB) (existing : ExistingMap Cond) (db2 : DB)
    (hsnap : lockedSnapshot E store deletes writes db = some (existing, db2))
    (hpol : opts.OnDuplicateInsert = .OnDuplicateInsertIgnore) :
    (∀ pre tk post t p,
      existing.lookup (E.U.TupleKeyToString tk.object tk.relation tk.user) = some t →
      t.key.condition = tk.condition →
      writesLoop E store opts now existing (pre ++ tk :: post) p =
        writesLoop E store opts now existing (pre ++ post) p) ∧
    (∀ pre tk post t, writes = pre ++ tk :: post →
      existing.lookup (E.U.TupleKeyToString tk.object tk.relation tk.user) = some t →
      t.key.condition ≠ tk.condition →
      (∃ pd, deletesLoop E store opts now existing deletes Plan.empty = .ok pd) →
      (∀ x ∈ pre, writeVerdict E opts existing x = none) →
      (write E store deletes writes opts now db).1 = some (.TupleConditionConflictError tk)) ∧
    (deletes = [] →
      (∀ tk ∈ writes, ∃ t,
        existing.lookup (E.U.TupleKeyToString tk.object tk.relation tk.user) = some t ∧
        t.key.condition = tk.condition) →
      resolve E store deletes writes opts now existing = .ok Plan.empty ∧
      (write E store deletes writes opts now db).2.committed = db.committed ∧
      (db2.faults db2.calls = none → (write E store deletes writes opts now db).1 = none)) := by
  refine ⟨?_, ?_, ?_⟩
  · intro pre tk post t p hl hc
    have hv := writeVerdict_of_equal E opts existing tk t hpol hl hc
    have hw : writePresent E existing tk = true := by simp [writePresent, hl]
    rw [writesLoop_eq, writesLoop_eq]
    have e1 : (pre ++ tk :: post).findSome? (writeVerdict E opts existing) =
        (pre ++ post).findSome? (writeVerdict E opts existing) := by
      simp [List.findSome?_append, List.findSome?_cons, hv]
    have e2 : newWrites E existing (pre ++ tk :: post) = newWrites E existing (pre ++ post) := by
      simp [newWrites, List.filter_append, List.filter_cons, hw]
    rw [e1, e2]
  · intro pre tk post t hw hl hc hdel hpre
    obtain ⟨pd, hpd⟩ := hdel
    rw [(write_of_lockedSnapshot E store deletes writes opts now db existing db2 hsnap).1]
    have hr : resolve E store deletes writes opts now existing =
        .error (.TupleConditionConflictError tk) := by
      unfold resolve
      rw [hpd]
      simp only
      rw [writesLoop_eq, hw, findSome_append_none _ pre tk post
        (List.findSome?_eq_none_iff.2 hpre),
        writeVerdict_of_differ E opts existing tk t hpol hl hc]
      rfl
    rw [writeResolved_of_error E store deletes writes opts now existing db2 _ hr]
  · intro hd hall
    have hr : resolve E store deletes writes opts now existing = .ok Plan.empty := by
      unfold resolve
      rw [hd]
      simp only [deletesLoop]
      rw [writesLoop_eq]
      have e1 : writes.findSome? (writeVerdict E opts existing) = none := by
        rw [List.findSome?_eq_none_iff]
        intro tk htk
        obtain ⟨t, hl, hc⟩ := hall tk htk
        exact writeVerdict_of_equal E opts existing tk t hpol hl hc
      have e2 : newWrites E existing writes = [] := by
        unfold newWrites
        rw [List.filter_eq_nil_iff]
        intro tk htk
        obtain ⟨t, hl, _⟩ := hall tk htk
        simp [writePresent, hl]
      rw [e1, e2, addWrites_nil]
    refine ⟨hr, ?_, ?_⟩
    · rcases write_cases E store deletes writes opts now db with h | ⟨_, ex, d2, p, hs, hp, hcom⟩
      · exact h.1
      · rw [hsnap] at hs
        simp only [Option.some.injEq, Prod.mk.injEq] at hs
        obtain ⟨rfl, rfl⟩ := hs
        rw [hr] at hp
        simp only [Except.ok.injEq] at hp
        rw [hcom, ← hp, applyPlan_empty]
    · intro hc
      rw [(write_of_lockedSnapshot E store deletes writes opts now db existing db2 hsnap).1]
      exact writeResolved_of_empty E store deletes writes opts now existing db2 hr hc

/-- Witness of C5 (amended): the row of `user:x` is stored without condition
and written again without condition under Ignore; the call plans nothing,
changes nothing and returns nil. -/
theorem duplicate_insert_ignore_witness :
    resolve exampleEnv (bytes "s") [] [exampleWrite userX none] optsIgnore 7 (snapshotX [])
      = .ok Plan.empty ∧
    (write exampleEnv (bytes "s") [] [exampleWrite userX none] optsIgnore 7
        (exampleDB [exampleRow userX []] noFaults)).2.committed
      = (exampleDB [exampleRow userX []] noFaults).committed ∧
    (write exampleEnv (bytes "s") [] [exampleWrite userX none] optsIgnore 7
        (exampleDB [exampleRow userX []] noFaults)).1 = none :=
  have h := (duplicate_insert_ignore exampleEnv (bytes "s") [] [exampleWrite userX none]
    optsIgnore 7 (exampleDB [exampleRow userX []] noFaults) (snapshotX [])
    (lockedDB [exampleRow userX []] noFaults) (by rfl) (by rfl)).2.2 (by rfl)
    (by
      intro tk htk
      simp only [List.mem_singleton] at htk
      subst htk
      exact ⟨exampleRowToTuple (exampleRow userX []), by decide, by decide⟩)
  ⟨h.1, h.2.1, h.2.2 (by rfl)⟩

/-! ## The errors of the executor are not input errors -/

theorem HandleSQLError_nil_ne (Cond : Type) (err : DriverError) (tk : TupleKeyWithoutCondition)
    (op : TupleOperation) :
    (HandleSQLError err [] : WriteError Cond) ≠ .InvalidWriteInputError tk op := by
  unfold HandleSQLError
  cases err with
  | ErrNoRows => simp
  | mssqlError n =>
    simp only
    split <;> simp
  | otherError c => simp

theorem deleteLoop_ne (Cond : Type) (store : GoString) (bs : List (List KeyEq)) (db : DB)
    (tk : TupleKeyWithoutCondition) (op : TupleOperation) :
    (deleteLoop Cond store bs db).1 ≠ some (.InvalidWriteInputError tk op) := by
  induction bs generalizing db with
  | nil => simp [deleteLoop]
  | cons b rest ih =>
    unfold deleteLoop
    cases execDelete store b db with
    | mk r db1 =>
      cases r with
      | error e =>
        simp only [ne_eq, Option.some.injEq]
        exact HandleSQLError_nil_ne Cond e tk op
      | ok res =>
        simp only
        cases RowsAffected res db1 with
        | mk r2 db2 =>
          cases r2 with
          | error e =>
            simp only [ne_eq, Option.some.injEq]
            exact HandleSQLError_nil_ne Cond e tk op
          | ok n =>
            simp only
            split
            · simp
            · exact ih db2

theorem insertLoop_ne (Cond : Type) (bs : List (List TupleRow)) (db : DB)
    (tk : TupleKeyWithoutCondition) (op : TupleOperation) :
    (insertLoop Cond bs db).1 ≠ some (.InvalidWriteInputError tk op) := by
  induction bs generalizing db with
  | nil => simp [insertLoop]
  | cons b rest ih =>
    unfold insertLoop
    cases execInsertTuple b db with
    | mk r db1 =>
      cases r with
      | error e =>
        simp only
        have h := HandleSQLError_nil_ne Cond e tk op
        split
        · simp
        · simpa using h
      | ok u => exact ih db1

theorem changelogLoop_ne (Cond : Type) (bs : List (List ChangelogRow)) (db : DB)
    (tk : TupleKeyWithoutCondition) (op : TupleOperation) :
    (changelogLoop Cond bs db).1 ≠ some (.InvalidWriteInputError tk op) := by
  induction bs generalizing db with
  | nil => simp [changelogLoop]
  | cons b rest ih =>
    unfold changelogLoop
    cases execInsertChangelog b db with
    | mk r db1 =>
      cases r with
      | error e =>
        simp only [ne_eq, Option.some.injEq]
        exact HandleSQLError_nil_ne Cond e tk op
      | ok u => exact ih db1

/-- Once steps 4 and 5 have passed, `write` does not return InvalidWriteInput. -/
theorem writeResolved_ne_of_ok {Cond : Type} [DecidableEq Cond] (E : Env Cond)
    (store : GoString) (deletes : List TupleKeyWithoutCondition) (writes : List (TupleKey Cond))
    (opts : TupleWriteOptions) (now : Nat) (existing : ExistingMap Cond) (db : DB) (p : Plan)
    (hr : resolve E store deletes writes opts now existing = .ok p)
    (tk : TupleKeyWithoutCondition) (op : TupleOperation) :
    (writeResolved E store deletes writes opts now existing db).1
      ≠ some (.InvalidWriteInputError tk op) := by
  unfold writeResolved
  rw [hr]
  simp only
  have h1 := deleteLoop_ne Cond store
    (batches E.DefaultMaxTuplesPerWrite p.deleteConditions) db tk op
  cases hd : deleteLoop Cond store
      (batches E.DefaultMaxTuplesPerWrite p.deleteConditions) db with
  | mk r1 db1 =>
    rw [hd] at h1
    cases r1 with
    | some e => exact h1
    | none =>
      simp only
      have h2 := insertLoop_ne Cond
        (batches E.DefaultMaxTuplesPerWrite p.writeItems) db1 tk op
      cases hi : insertLoop Cond
          (batches E.DefaultMaxTuplesPerWrite p.writeItems) db1 with
      | mk r2 db2 =>
        rw [hi] at h2
        cases r2 with
        | some e => exact h2
        | none =>
          simp only
          have h3 := changelogLoop_ne Cond
            (batches E.DefaultMaxTuplesPerWrite p.changeLogItems) db2 tk op
          cases hc : changelogLoop Cond
              (batches E.DefaultMaxTuplesPerWrite p.changeLogItems) db2 with
          | mk r3 db3 =>
            rw [hc] at h3
            cases r3 with
            | some e => exact h3
            | none =>
              simp only
              cases Commit db3 with
              | mk r4 db4 =>
                cases r4 with
                | error e =>
                  simp only [ne_eq, Option.some.injEq]
                  exact HandleSQLError_nil_ne Cond e tk op
                | ok u => simp

theorem findSome_writeVerdict_of_present {Cond : Type} [DecidableEq Cond] (E : Env Cond)
    (opts : TupleWriteOptions) (existing : ExistingMap Cond) (writes : List (TupleKey Cond))
    (hpol : opts.OnDuplicateInsert ≠ .OnDuplicateInsertIgnore) (tk : TupleKey Cond)
    (hf : writes.find? (writePresent E existing) = some tk)
    (hm : ∀ x ∈ writes.takeWhile (fun x => !writePresent E existing x), marshalFails E x = false) :
    writes.findSome? (writeVerdict E opts existing) =
      some (.InvalidWriteInputError tk.withoutCondition .TUPLE_OPERATION_WRITE) := by
  induction writes with
  | nil => simp at hf
  | cons x rest ih =>
    rw [List.findSome?_cons]
    rw [List.find?_cons] at hf
    cases hp : writePresent E existing x with
    | true =>
      rw [hp] at hf
      simp only [Option.some.injEq] at hf
      subst hf
      unfold writePresent at hp
      cases hl : existing.lookup (E.U.TupleKeyToString x.object x.relation x.user) with
      | none => simp [hl] at hp
      | some t =>
        unfold writeVerdict
        rw [hl]
        cases h : opts.OnDuplicateInsert with
        | OnDuplicateInsertIgnore => exact absurd h hpol
        | OnDuplicateInsertError => rfl
        | other v => rfl
    | false =>
      rw [hp] at hf
      have hx : marshalFails E x = false := hm x (by simp [List.takeWhile_cons, hp])
      have hv : writeVerdict E opts existing x = none := by
        unfold writePresent at hp
        unfold marshalFails at hx
        unfold writeVerdict
        cases hl : existing.lookup (E.U.TupleKeyToString x.object x.relation x.user) with
        | some t => simp [hl] at hp
        | none =>
          cases hmar : E.MarshalRelationshipCondition x.condition with
          | error msg => simp [hmar] at hx
          | ok v => rfl
      rw [hv]
      apply ih hf
      intro y hy
      exact hm y (by simp [List.takeWhile_cons, hp, hy])

theorem present_of_findSome_writeVerdict {Cond : Type} [DecidableEq Cond] (E : Env Cond)
    (opts : TupleWriteOptions) (existing : ExistingMap Cond) (writes : List (TupleKey Cond))
    (hpol : opts.OnDuplicateInsert ≠ .OnDuplicateInsertIgnore) (k : TupleKeyWithoutCondition)
    (h : writes.findSome? (writeVerdict E opts existing) =
      some (.InvalidWriteInputError k .TUPLE_OPERATION_WRITE)) :
    ∃ tk, writes.find? (writePresent E existing) = some tk ∧ k = tk.withoutCondition := by
  induction writes with
  | nil => simp at h
  | cons x rest ih =>
    rw [List.findSome?_cons] at h
    rw [List.find?_cons]
    cases hl : existing.lookup (E.U.TupleKeyToString x.object x.relation x.user) with
    | some t =>
      have hp : writePresent E existing x = true := by simp [writePresent, hl]
      rw [hp]
      refine ⟨x, rfl, ?_⟩
      unfold writeVerdict at h
      rw [hl] at h
      cases hq : opts.OnDuplicateInsert with
      | OnDuplicateInsertIgnore => exact absurd hq hpol
      | OnDuplicateInsertError =>
        rw [hq] at h
        simp only [Option.some.injEq, WriteError.InvalidWriteInputError.injEq] at h
        exact h.1.symm
      | other v =>
        rw [hq] at h
        simp only [Option.some.injEq, WriteError.InvalidWriteInputError.injEq] at h
        exact h.1.symm
    | none =>
      have hp : writePresent E existing x = false := by simp [writePresent, hl]
      rw [hp]
      unfold writeVerdict at h
      rw [hl] at h
      cases hmar : E.MarshalRelationshipCondition x.condition with
      | error msg =>
        rw [hmar] at h
        simp at h
      | ok v =>
        rw [hmar] at h
        exact ih h

/-- C6 (counterexample): the row of `user:y` is stored; under
OnDuplicateInsert = Error the call writes `user:x`, which is not stored and
whose condition cannot be marshalled, and then `user:y`. There are no deletes,
so the delete resolution does not fail, and a write key is present in the
locked snapshot; yet `write` returns the error of the marshaller, not
InvalidWriteInput. -/
theorem duplicate_insert_error_after_marshal_failure :
    lockedSnapshot exampleEnv (bytes "s") []
        [exampleWrite userX (some badCondition), exampleWrite userY none]
        (exampleDB [exampleRow userY []] noFaults)
      = some (snapshotY, lockedDB [exampleRow userY []] noFaults) ∧
    deletesLoop exampleEnv (bytes "s") optsError 7 snapshotY [] Plan.empty = .ok Plan.empty ∧
    writePresent exampleEnv snapshotY (exampleWrite userY none) = true ∧
    (write exampleEnv (bytes "s") []
        [exampleWrite userX (some badCondition), exampleWrite userY none] optsError 7
        (exampleDB [exampleRow userY []] noFaults)).1
      = some (.marshalError (bytes "marshal")) :=
  ⟨by rfl, by rfl, by decide, by decide⟩

/-- C6 (amended): given the locked snapshot, a policy OnDuplicateInsert other
than Ignore and a delete resolution that did not fail, (1) if `write` fails
with InvalidWriteInput carrying operation WRITE then some write key is present
in the snapshot and the key reported is the first such key in input order;
(2) if some write key is present in the snapshot, whatever its condition, and
the marshaller accepts the condition of every write key before the first such
key, then `write` fails with InvalidWriteInput carrying operation WRITE and
that first key. -/
theorem duplicate_insert_error {Cond : Type} [DecidableEq Cond] (E : Env Cond)
    (store : GoString) (deletes : List TupleKeyWithoutCondition) (writes : List (TupleKey Cond))
    (opts : TupleWriteOptions) (now : Nat) (db : DB) (existing : ExistingMap Cond) (db2 : DB)
    (hsnap : lockedSnapshot E store deletes writes db = some (existing, db2))
    (hpol : opts.OnDuplicateInsert ≠ .OnDuplicateInsertIgnore)
    (hdel : ∃ pd, deletesLoop E store opts now existing deletes Plan.empty = .ok pd) :
    (∀ k, (write E store deletes writes opts now db).1 =
        some (.InvalidWriteInputError k .TUPLE_OPERATION_WRITE) →
      ∃ tk, writes.find? (writePresent E existing) = some tk ∧ k = tk.withoutCondition) ∧
    (∀ tk, writes.find? (writePresent E existing) = some tk →
      (∀ x ∈ writes.takeWhile (fun x => !writePresent E existing x), marshalFails E x = false) →
      (write E store deletes writes opts now db).1 =
        some (.InvalidWriteInputError tk.withoutCondition .TUPLE_OPERATION_WRITE)) := by
  obtain ⟨pd, hpd⟩ := hdel
  have hw := (write_of_lockedSnapshot E store deletes writes opts now db existing db2 hsnap).1
  have hres : resolve E store deletes writes opts now existing =
      match writes.findSome? (writeVerdict E opts existing) with
      | some err => .error err
      | none => .ok (Plan.addWrites E store now pd (newWrites E existing writes)) := by
    unfold resolve
    rw [hpd]
    simp only
    rw [writesLoop_eq]
  refine ⟨?_, ?_⟩
  · intro k hk
    rw [hw] at hk
    simp only at hk
    cases hv : writes.findSome? (writeVerdict E opts existing) with
    | some err =>
      rw [hv] at hres
      rw [writeResolved_of_error E store deletes writes opts now existing db2 err hres] at hk
      simp only [Option.some.injEq] at hk
      rw [hk] at hv
      exact present_of_findSome_writeVerdict E opts existing writes hpol k hv
    | none =>
      rw [hv] at hres
      exact absurd hk
        (writeResolved_ne_of_ok E store deletes writes opts now existing db2 _ hres k _)
  · intro tk hf hm
    rw [hw]
    rw [findSome_writeVerdict_of_present E opts existing writes hpol tk hf hm] at hres
    rw [writeResolved_of_error E store deletes writes opts now existing db2 _ hres]

/-- Witness of C6 (amended): the row of `user:y` is stored; under policy Error
the call writes `user:x` and then `user:y`, both without condition, and
`write` returns InvalidWriteInput(WRITE) for `user:y`. -/
theorem duplicate_insert_error_witness :
    (write exampleEnv (bytes "s") [] [exampleWrite userX none, exampleWrite userY none]
        optsError 7 (exampleDB [exampleRow userY []] noFaults)).1 =
      some (.InvalidWriteInputError (exampleWrite userY none).withoutCondition
        .TUPLE_OPERATION_WRITE) :=
  (duplicate_insert_error exampleEnv (bytes "s") []
    [exampleWrite userX none, exampleWrite userY none] optsError 7
    (exampleDB [exampleRow userY []] noFaults) snapshotY
    (lockedDB [exampleRow userY []] noFaults) (by rfl) (by decide) ⟨Plan.empty, by rfl⟩).2
    (exampleWrite userY none) (by decide) (by decide)

/-! ## Claims on the executor and the commit guard -/

/-- C7: for every input, every database and every failure of the driver, if
`write` returns an error the committed tuple and changelog tables are what
they were before the call; and if it returns nil, either there was nothing to
do (no key to lock) and the tables are what they were, or the locked snapshot
was resolved into a plan and the committed tables are the old ones with all
planned deletes, inserts and changelog rows applied together. -/
theorem write_atomic {Cond : Type} [DecidableEq Cond] (E : Env Cond)
    (store : GoString) (deletes : List TupleKeyWithoutCondition) (writes : List (TupleKey Cond))
    (opts : TupleWriteOptions) (now : Nat) (db : DB) :
    (∀ err, (write E store deletes writes opts now db).1 = some err →
      (write E store deletes writes opts now db).2.committed = db.committed) ∧
    ((write E store deletes writes opts now db).1 = none →
      (makeTupleLockKeys E.U deletes writes = [] ∧
        (write E store deletes writes opts now db).2.committed = db.committed) ∨
      ∃ existing db2 p, lockedSnapshot E store deletes writes db = some (existing, db2) ∧
        resolve E store deletes writes opts now existing = .ok p ∧
        (write E store deletes writes opts now db).2.committed
          = applyPlan store p db.committed) := by
  rcases write_cases E store deletes writes opts now db with h | ⟨hn, ex, d2, p, hs, hp, hcom⟩
  · exact ⟨fun _ _ => h.1, fun hn => Or.inl ⟨h.2 hn, h.1⟩⟩
  · refine ⟨fun err he => ?_, fun _ => Or.inr ⟨ex, d2, p, hs, hp, hcom⟩⟩
    rw [hn] at he
    simp at he

/-- Witness of C7: the row of `user:x` is stored; the call deletes it and
writes `user:y`; every statement succeeds and the commit (driver call 6)
fails. `write` returns the wrapped driver error and the committed tables are
unchanged. -/
theorem write_atomic_witness :
    (write exampleEnv (bytes "s") [exampleDelete userX] [exampleWrite userY none] optsError 7
        (exampleDB [exampleRow userX []] (faultAt 6 (.otherError 1)))).1
      = some (.sqlError (.otherError 1)) ∧
    (write exampleEnv (bytes "s") [exampleDelete userX] [exampleWrite userY none] optsError 7
        (exampleDB [exampleRow userX []] (faultAt 6 (.otherError 1)))).2.committed
      = (exampleDB [exampleRow userX []] (faultAt 6 (.otherError 1))).committed :=
  ⟨by decide,
   (write_atomic exampleEnv (bytes "s") [exampleDelete userX] [exampleWrite userY none]
      optsError 7 (exampleDB [exampleRow userX []] (faultAt 6 (.otherError 1)))).1
      (.sqlError (.otherError 1)) (by decide)⟩

/-! ## The planned rows -/

theorem deleteRows_length {Cond : Type} (E : Env Cond) (store : GoString) (now d : Nat)
    (l : List TupleKeyWithoutCondition) : (deleteRows E store now d l).length = l.length := by
  induction l generalizing d with
  | nil => rfl
  | cons x xs ih => simp [deleteRows, ih]

theorem writeRows_length {Cond : Type} (E : Env Cond) (store : GoString) (now d : Nat)
    (l : List (TupleKey Cond)) : (writeRows E store now d l).length = l.length := by
  induction l generalizing d with
  | nil => rfl
  | cons x xs ih => simp [writeRows, ih]

theorem writeChangelogRows_length {Cond : Type} (E : Env Cond) (store : GoString) (now d : Nat)
    (l : List (TupleKey Cond)) : (writeChangelogRows E store now d l).length = l.length := by
  induction l generalizing d with
  | nil => rfl
  | cons x xs ih => simp [writeChangelogRows, ih]

theorem deleteRows_operation {Cond : Type} (E : Env Cond) (store : GoString) (now d : Nat)
    (l : List TupleKeyWithoutCondition) :
    ∀ r ∈ deleteRows E store now d l, r.operation = .TUPLE_OPERATION_DELETE := by
  induction l generalizing d with
  | nil => simp [deleteRows]
  | cons x xs ih =>
    intro r hr
    simp only [deleteRows, List.mem_cons] at hr
    rcases hr with rfl | hr
    · rfl
    · exact ih (d + 1) r hr

theorem writeChangelogRows_operation {Cond : Type} (E : Env Cond) (store : GoString)
    (now d : Nat) (l : List (TupleKey Cond)) :
    ∀ r ∈ writeChangelogRows E store now d l, r.operation = .TUPLE_OPERATION_WRITE := by
  induction l generalizing d with
  | nil => simp [writeChangelogRows]
  | cons x xs ih =>
    intro r hr
    simp only [writeChangelogRows, List.mem_cons] at hr
    rcases hr with rfl | hr
    · rfl
    · exact ih (d + 1) r hr

/-- The changelog rows of the planned writes are those of the planned tuple
rows, one for one. -/
theorem writeChangelogRows_eq_map {Cond : Type} (E : Env Cond) (store : GoString) (now d : Nat)
    (l : List (TupleKey Cond)) :
    writeChangelogRows E store now d l = (writeRows E store now d l).map TupleRow.toChangelog := by
  induction l generalizing d with
  | nil => rfl
  | cons x xs ih =>
    simp only [writeChangelogRows, writeRows, List.map_cons, ih]
    rfl

theorem deleteRows_redacted {Cond : Type} (E : Env Cond) (store : GoString) (now d : Nat)
    (l : List TupleKeyWithoutCondition) :
    List.Forall₂ (isRedactedDeleteRow E store) l (deleteRows E store now d l) := by
  induction l generalizing d with
  | nil => exact List.Forall₂.nil
  | cons x xs ih =>
    exact List.Forall₂.cons ⟨rfl, rfl, rfl, rfl, rfl, rfl, rfl, rfl⟩ (ih (d + 1))

/-- When steps 4 and 5 pass, the plan is the one of the delete keys found in
the snapshot followed by the write keys that are not in it. -/
theorem resolve_ok {Cond : Type} [DecidableEq Cond] (E : Env Cond) (store : GoString)
    (deletes : List TupleKeyWithoutCondition) (writes : List (TupleKey Cond))
    (opts : TupleWriteOptions) (now : Nat) (existing : ExistingMap Cond) (p : Plan)
    (h : resolve E store deletes writes opts now existing = .ok p) :
    p = Plan.addWrites E store now
      (Plan.addDeletes E store now Plan.empty (foundDeletes E existing deletes))
      (newWrites E existing writes) := by
  unfold resolve at h
  rw [deletesLoop_eq] at h
  cases hd : deletes.findSome? (deleteVerdict E opts existing) with
  | some e =>
    rw [hd] at h
    simp at h
  | none =>
    rw [hd] at h
    simp only at h
    rw [writesLoop_eq] at h
    cases hw : writes.findSome? (writeVerdict E opts existing) with
    | some e =>
      rw [hw] at h
      simp at h
    | none =>
      rw [hw] at h
      simp only [Except.ok.injEq] at h
      exact h.symm

theorem filter_eq_self_of_forall {α : Type} (q : α → Bool) (l : List α)
    (h : ∀ x ∈ l, q x = true) : l.filter q = l :=
  List.filter_eq_self.2 h

theorem filter_eq_nil_of_forall {α : Type} (q : α → Bool) (l : List α)
    (h : ∀ x ∈ l, q x = false) : l.filter q = [] := by
  rw [List.filter_eq_nil_iff]
  intro x hx
  simp [h x hx]

theorem deleteRows_forall₂ {Cond : Type} (E : Env Cond) (store : GoString) (now d : Nat)
    (l : List TupleKeyWithoutCondition) :
    List.Forall₂ (fun tk r => ∃ id, r = deleteChangelogOf E store tk id) l
      (deleteRows E store now d l) := by
  induction l generalizing d with
  | nil => exact List.Forall₂.nil
  | cons x xs ih => exact List.Forall₂.cons ⟨_, rfl⟩ (ih (d + 1))

theorem writeChangelogRows_forall₂ {Cond : Type} (E : Env Cond) (store : GoString)
    (now d : Nat) (l : List (TupleKey Cond)) :
    List.Forall₂
      (fun tk r => ∃ id, r = writeChangelogOf E store tk (marshalled E tk).1 (marshalled E tk).2 id)
      l (writeChangelogRows E store now d l) := by
  induction l generalizing d with
  | nil => exact List.Forall₂.nil
  | cons x xs ih => exact List.Forall₂.cons ⟨_, rfl⟩ (ih (d + 1))

theorem lockedSnapshot_ne_nil {Cond : Type} (E : Env Cond) (store : GoString)
    (deletes : List TupleKeyWithoutCondition) (writes : List (TupleKey Cond)) (db : DB)
    (v : ExistingMap Cond × DB) (h : lockedSnapshot E store deletes writes db = some v) :
    makeTupleLockKeys E.U deletes writes ≠ [] := by
  intro hnil
  unfold lockedSnapshot at h
  cases hb : BeginTx db with
  | mk r db1 =>
    rw [hb] at h
    cases r with
    | error e => simp at h
    | ok u => simp [hnil] at h

/-- C8: when `write` returns nil after a locked snapshot, the changelog rows
it has committed are, appended to the old changelog in this order, one DELETE
row for each delete key found in the snapshot, in the order of the delete
list, followed by one WRITE row for each write key that is not in the
snapshot (the keys that were not skipped), in the order of the write list;
and their number is the number of delete predicates executed plus the number
of tuple rows inserted. -/
theorem changelog_completeness {Cond : Type} [DecidableEq Cond] (E : Env Cond)
    (store : GoString) (deletes : List TupleKeyWithoutCondition) (writes : List (TupleKey Cond))
    (opts : TupleWriteOptions) (now : Nat) (db : DB) (existing : ExistingMap Cond) (db2 : DB)
    (hsnap : lockedSnapshot E store deletes writes db = some (existing, db2))
    (hok : (write E store deletes writes opts now db).1 = none) :
    (write E store deletes writes opts now db).2.committed.changelog
      = db.committed.changelog ++
          (deleteRows E store now 0 (foundDeletes E existing deletes) ++
            writeChangelogRows E store now (foundDeletes E existing deletes).length
              (newWrites E existing writes)) ∧
    List.Forall₂ (fun tk r => ∃ id, r = deleteChangelogOf E store tk id)
      (foundDeletes E existing deletes)
      (deleteRows E store now 0 (foundDeletes E existing deletes)) ∧
    List.Forall₂
      (fun tk r => ∃ id,
        r = writeChangelogOf E store tk (marshalled E tk).1 (marshalled E tk).2 id)
      (newWrites E existing writes)
      (writeChangelogRows E store now (foundDeletes E existing deletes).length
        (newWrites E existing writes)) ∧
    resolve E store deletes writes opts now existing = .ok (plannedRows E store now existing
      deletes writes) ∧
    (write E store deletes writes opts now db).2.committed.tuple
      = db.committed.tuple.filter
          (fun r => !deleteHits store (plannedRows E store now existing deletes
            writes).deleteConditions r)
          ++ (plannedRows E store now existing deletes writes).writeItems ∧
    (deleteRows E store now 0 (foundDeletes E existing deletes) ++
        writeChangelogRows E store now (foundDeletes E existing deletes).length
          (newWrites E existing writes)).length
      = (plannedRows E store now existing deletes writes).deleteConditions.length
        + (plannedRows E store now existing deletes writes).writeItems.length := by
  rcases write_cases E store deletes writes opts now db with h | ⟨_, ex, d2, p, hs, hp, hcom⟩
  · exact absurd (h.2 hok) (lockedSnapshot_ne_nil E store deletes writes db _ hsnap)
  · rw [hsnap] at hs
    simp only [Option.some.injEq, Prod.mk.injEq] at hs
    obtain ⟨rfl, rfl⟩ := hs
    have hpe := resolve_ok E store deletes writes opts now existing p hp
    have hpe2 : p = plannedRows E store now existing deletes writes := hpe
    subst hpe2
    refine ⟨?_, deleteRows_forall₂ _ _ _ _ _, writeChangelogRows_forall₂ _ _ _ _ _, hp, ?_, ?_⟩
    · rw [hcom]
      simp [applyPlan, plannedRows, Plan.addWrites, Plan.addDeletes, Plan.empty]
    · rw [hcom]
      rfl
    · simp [plannedRows, Plan.addWrites, Plan.addDeletes, Plan.empty, deleteRows_length,
        writeChangelogRows_length, writeRows_length]

/-- Witness of C8: the row of `user:x` is stored; the call deletes it and
writes `user:y`; `write` returns nil and the committed changelog is the DELETE
row of `user:x` followed by the WRITE row of `user:y`. -/
theorem changelog_completeness_witness :
    (write exampleEnv (bytes "s") [exampleDelete userX] [exampleWrite userY none] optsError 7
        (exampleDB [exampleRow userX []] noFaults)).2.committed.changelog
      = (exampleDB [exampleRow userX []] noFaults).committed.changelog ++
          (deleteRows exampleEnv (bytes "s") 7 0
              (foundDeletes exampleEnv (snapshotX []) [exampleDelete userX]) ++
            writeChangelogRows exampleEnv (bytes "s") 7
              (foundDeletes exampleEnv (snapshotX []) [exampleDelete userX]).length
              (newWrites exampleEnv (snapshotX []) [exampleWrite userY none])) :=
  (changelog_completeness exampleEnv (bytes "s") [exampleDelete userX] [exampleWrite userY none]
    optsError 7 (exampleDB [exampleRow userX []] noFaults) (snapshotX [])
    (lockedDB [exampleRow userX []] noFaults) (by rfl) (by decide)).1

/-- C9: when steps 4 and 5 pass, the DELETE rows among the changelog items are,
one for one and in order, the rows of the delete keys found in the snapshot,
and each has operation DELETE, the store, the object type, object id,
relation and user of its key, an empty condition name and a null condition
context, whatever tuple the snapshot holds for the key. -/
theorem delete_changelog_redacted {Cond : Type} [DecidableEq Cond] (E : Env Cond)
    (store : GoString) (deletes : List TupleKeyWithoutCondition) (writes : List (TupleKey Cond))
    (opts : TupleWriteOptions) (now : Nat) (existing : ExistingMap Cond) (p : Plan)
    (h : resolve E store deletes writes opts now existing = .ok p) :
    List.Forall₂ (isRedactedDeleteRow E store) (foundDeletes E existing deletes)
      (p.changeLogItems.filter (fun r => decide (r.operation = .TUPLE_OPERATION_DELETE))) := by
  rw [resolve_ok E store deletes writes opts now existing p h]
  simp only [Plan.addWrites, Plan.addDeletes, Plan.empty, List.nil_append, List.filter_append]
  rw [filter_eq_self_of_forall, filter_eq_nil_of_forall, List.append_nil]
  · exact deleteRows_redacted E store now _ _
  · intro r hr
    simp [writeChangelogRows_operation E store now _ _ r hr]
  · intro r hr
    simp [deleteRows_operation E store now _ _ r hr]

/-- Witness of C9: the row of `user:x` is stored with condition `c`; the plan
for deleting it and writing `user:y` has one DELETE row, with the identity of
`user:x` and no condition. -/
theorem delete_changelog_redacted_witness :
    List.Forall₂ (isRedactedDeleteRow exampleEnv (bytes "s"))
      (foundDeletes exampleEnv (snapshotX (bytes "c")) [exampleDelete userX])
      (examplePlan.changeLogItems.filter
        (fun r => decide (r.operation = .TUPLE_OPERATION_DELETE))) :=
  delete_changelog_redacted exampleEnv (bytes "s") [exampleDelete userX]
    [exampleWrite userY none] optsError 7 (snapshotX (bytes "c")) examplePlan (by rfl)

/-- C10: when steps 4 and 5 pass, the WRITE rows among the changelog items are,
one for one and in order, the changelog images of the tuple rows to insert:
each pair has the same identifier, store, object type, object id, relation,
user, condition name and condition context. So every tuple row has its WRITE
row and every WRITE row has its tuple row. -/
theorem write_rows_paired {Cond : Type} [DecidableEq Cond] (E : Env Cond)
    (store : GoString) (deletes : List TupleKeyWithoutCondition) (writes : List (TupleKey Cond))
    (opts : TupleWriteOptions) (now : Nat) (existing : ExistingMap Cond) (p : Plan)
    (h : resolve E store deletes writes opts now existing = .ok p) :
    p.changeLogItems.filter (fun r => decide (r.operation = .TUPLE_OPERATION_WRITE))
      = p.writeItems.map TupleRow.toChangelog := by
  rw [resolve_ok E store deletes writes opts now existing p h]
  simp only [Plan.addWrites, Plan.addDeletes, Plan.empty, List.nil_append, List.filter_append]
  rw [filter_eq_nil_of_forall, filter_eq_self_of_forall, List.nil_append]
  · exact writeChangelogRows_eq_map E store now _ _
  · intro r hr
    simp [writeChangelogRows_operation E store now _ _ r hr]
  · intro r hr
    simp [deleteRows_operation E store now _ _ r hr]

/-- Witness of C10: in the plan for deleting `user:x` and writing `user:y` the
only WRITE row is the changelog image of the only tuple row. -/
theorem write_rows_paired_witness :
    examplePlan.changeLogItems.filter (fun r => decide (r.operation = .TUPLE_OPERATION_WRITE))
      = examplePlan.writeItems.map TupleRow.toChangelog :=
  write_rows_paired exampleEnv (bytes "s") [exampleDelete userX] [exampleWrite userY none]
    optsError 7 (snapshotX []) examplePlan (by rfl)

/-! ## Claims on the rows-affected check and the insert collision -/

/-- C11 (the code at the failing input): the row of `user:x` is stored and the
call lists the delete key of `user:x` twice. There is no other transaction.
Both delete keys are found in the locked snapshot and pass conflict
resolution, step 4 plans two equal predicates, the one delete batch of two
predicates removes one row, and `write` returns WriteConflictOnDelete. -/
theorem duplicate_delete_conflicts :
    lockedSnapshot exampleEnv (bytes "s") [exampleDelete userX, exampleDelete userX] []
        (exampleDB [exampleRow userX []] noFaults)
      = some (snapshotX [], lockedDB [exampleRow userX []] noFaults) ∧
    deleteMissing exampleEnv (snapshotX []) (exampleDelete userX) = false ∧
    (resolve exampleEnv (bytes "s") [exampleDelete userX, exampleDelete userX] [] optsError 7
        (snapshotX [])).toOption.map (fun p => p.deleteConditions)
      = some [deleteConditionOf pkgTuple (exampleDelete userX),
          deleteConditionOf pkgTuple (exampleDelete userX)] ∧
    (execDelete (bytes "s")
        [deleteConditionOf pkgTuple (exampleDelete userX),
          deleteConditionOf pkgTuple (exampleDelete userX)]
        (lockedDB [exampleRow userX []] noFaults)).1.toOption = some 1 ∧
    (write exampleEnv (bytes "s") [exampleDelete userX, exampleDelete userX] [] optsError 7
        (exampleDB [exampleRow userX []] noFaults)).1 = some .ErrWriteConflictOnDelete :=
  ⟨by rfl, by decide, by decide, by decide, by decide⟩

theorem HandleSQLError_nil_collision_iff (Cond : Type) (err : DriverError) :
    (HandleSQLError err [] : WriteError Cond) = .ErrCollision ↔
      ∃ n, err = .mssqlError n ∧ (n = 2627 ∨ n = 2601) := by
  unfold HandleSQLError
  cases err with
  | ErrNoRows => simp
  | mssqlError n =>
    by_cases h : n = 2627 ∨ n = 2601
    · simp [h]
    · simp [h]
  | otherError c => simp

theorem insertLoop_append (Cond : Type) (pre rest : List (List TupleRow)) (db db1 : DB)
    (h : insertLoop Cond pre db = (none, db1)) :
    insertLoop Cond (pre ++ rest) db = insertLoop Cond rest db1 := by
  induction pre generalizing db with
  | nil =>
    simp only [insertLoop, Prod.mk.injEq, true_and] at h
    rw [← h]
    rfl
  | cons b bs ih =>
    rw [List.cons_append]
    unfold insertLoop at h
    conv_lhs => unfold insertLoop
    cases hE : execInsertTuple b db with
    | mk r d =>
      rw [hE] at h
      cases r with
      | error e =>
        simp only at h
        split at h <;> simp at h
      | ok u =>
        simp only at h ⊢
        exact ih d h

theorem insertLoop_of_fail (Cond : Type) (b : List TupleRow) (rest : List (List TupleRow))
    (db db1 : DB) (err : DriverError) (hfail : execInsertTuple b db = (.error err, db1)) :
    ((HandleSQLError err [] : WriteError Cond) = .ErrCollision →
      insertLoop Cond (b :: rest) db = (some .ErrWriteConflictOnInsert, db1)) ∧
    ((HandleSQLError err [] : WriteError Cond) ≠ .ErrCollision →
      insertLoop Cond (b :: rest) db = (some (HandleSQLError err []), db1)) := by
  constructor
  · intro h
    conv_lhs => unfold insertLoop
    rw [hfail]
    simp only
    rw [h]
  · intro h
    conv_lhs => unfold insertLoop
    rw [hfail]
    cases hH : (HandleSQLError err [] : WriteError Cond) with
    | ErrCollision => exact absurd hH h
    | _ => simp only [hH]

theorem writeResolved_of_insert_error {Cond : Type} [DecidableEq Cond] (E : Env Cond)
    (store : GoString) (deletes : List TupleKeyWithoutCondition) (writes : List (TupleKey Cond))
    (opts : TupleWriteOptions) (now : Nat) (existing : ExistingMap Cond) (db db1 db2 : DB)
    (p : Plan) (e : WriteError Cond)
    (hres : resolve E store deletes writes opts now existing = .ok p)
    (hdel : deleteLoop Cond store (batches E.DefaultMaxTuplesPerWrite p.deleteConditions) db
      = (none, db1))
    (hins : insertLoop Cond (batches E.DefaultMaxTuplesPerWrite p.writeItems) db1
      = (some e, db2)) :
    writeResolved E store deletes writes opts now existing db = (some e, db2) := by
  unfold writeResolved
  rw [hres]
  simp only
  rw [hdel]
  simp only
  rw [hins]

/-- C12: when the execution of a tuple insert batch fails with driver error
`err` (the call took a locked snapshot, steps 4 and 5 passed, the delete
batches and the earlier insert batches went through), `write` returns
WriteConflictOnInsert if and only if `HandleSQLError` classifies `err` as
Collision, which is the case exactly when `err` is a SQL Server error
numbered 2627 or 2601; for every other `err` it returns the result of
`HandleSQLError` unchanged, which is NotFound for the no-rows error and the
wrapped error otherwise. -/
theorem insert_collision_reclassified {Cond : Type} [DecidableEq Cond] (E : Env Cond)
    (store : GoString) (deletes : List TupleKeyWithoutCondition) (writes : List (TupleKey Cond))
    (opts : TupleWriteOptions) (now : Nat) (db : DB) (existing : ExistingMap Cond)
    (db2 db3 db4 db5 : DB) (p : Plan) (pre rest : List (List TupleRow)) (b : List TupleRow)
    (err : DriverError)
    (hsnap : lockedSnapshot E store deletes writes db = some (existing, db2))
    (hres : resolve E store deletes writes opts now existing = .ok p)
    (hdel : deleteLoop Cond store (batches E.DefaultMaxTuplesPerWrite p.deleteConditions) db2
      = (none, db3))
    (hsplit : batches E.DefaultMaxTuplesPerWrite p.writeItems = pre ++ b :: rest)
    (hpre : insertLoop Cond pre db3 = (none, db4))
    (hfail : execInsertTuple b db4 = (.error err, db5)) :
    ((write E store deletes writes opts now db).1 = some .ErrWriteConflictOnInsert ↔
      (HandleSQLError err [] : WriteError Cond) = .ErrCollision) ∧
    ((HandleSQLError err [] : WriteError Cond) = .ErrCollision ↔
      ∃ n, err = .mssqlError n ∧ (n = 2627 ∨ n = 2601)) ∧
    ((HandleSQLError err [] : WriteError Cond) ≠ .ErrCollision →
      (write E store deletes writes opts now db).1 = some (HandleSQLError err [])) ∧
    (err = .ErrNoRows → (HandleSQLError err [] : WriteError Cond) = .ErrNotFound) ∧
    (err ≠ .ErrNoRows → (HandleSQLError err [] : WriteError Cond) ≠ .ErrCollision →
      (HandleSQLError err [] : WriteError Cond) = .sqlError err) := by
  have hw1 := (write_of_lockedSnapshot E store deletes writes opts now db existing db2 hsnap).1
  have hins : insertLoop Cond (batches E.DefaultMaxTuplesPerWrite p.writeItems) db3 =
      insertLoop Cond (b :: rest) db4 := by
    rw [hsplit, insertLoop_append Cond pre (b :: rest) db3 db4 hpre]
  have hf := insertLoop_of_fail Cond b rest db4 db5 err hfail
  have hyes : (HandleSQLError err [] : WriteError Cond) = .ErrCollision →
      (write E store deletes writes opts now db).1 = some .ErrWriteConflictOnInsert := by
    intro h
    rw [hw1, writeResolved_of_insert_error E store deletes writes opts now existing db2 db3 db5
      p _ hres hdel (hins.trans (hf.1 h))]
  have hno : (HandleSQLError err [] : WriteError Cond) ≠ .ErrCollision →
      (write E store deletes writes opts now db).1 = some (HandleSQLError err []) := by
    intro h
    rw [hw1, writeResolved_of_insert_error E store deletes writes opts now existing db2 db3 db5
      p _ hres hdel (hins.trans (hf.2 h))]
  refine ⟨⟨?_, hyes⟩, HandleSQLError_nil_collision_iff Cond err, hno, ?_, ?_⟩
  · intro h
    by_contra hne
    rw [hno hne] at h
    simp only [Option.some.injEq] at h
    revert h
    unfold HandleSQLError
    cases err with
    | ErrNoRows => simp
    | mssqlError n =>
      by_cases hn : n = 2627 ∨ n = 2601
      · simp [hn]
      · simp [hn]
    | otherError c => simp
  · intro he
    rw [he]
    rfl
  · intro hno hnc
    rw [Ne, HandleSQLError_nil_collision_iff] at hnc
    unfold HandleSQLError
    cases err with
    | ErrNoRows => exact absurd rfl hno
    | mssqlError n =>
      by_cases hn : n = 2627 ∨ n = 2601
      · exact absurd ⟨n, rfl, hn⟩ hnc
      · simp [hn]
    | otherError c => rfl

/-- Witness of C12: nothing is stored, the call writes `user:y`, and the insert
(driver call 2) fails with SQL Server error 2601; `write` returns
WriteConflictOnInsert. -/
theorem insert_collision_reclassified_witness :
    (write exampleEnv (bytes "s") [] [exampleWrite userY none] optsError 7
        (exampleDB [] (faultAt 2 (.mssqlError 2601)))).1 = some .ErrWriteConflictOnInsert :=
  (insert_collision_reclassified exampleEnv (bytes "s") [] [exampleWrite userY none] optsError 7
    (exampleDB [] (faultAt 2 (.mssqlError 2601))) []
    (lockedDB [] (faultAt 2 (.mssqlError 2601)))
    (lockedDB [] (faultAt 2 (.mssqlError 2601)))
    (lockedDB [] (faultAt 2 (.mssqlError 2601)))
    { lockedDB [] (faultAt 2 (.mssqlError 2601)) with calls := 3 }
    exampleWritePlan [] []
    [writeItemOf exampleEnv (bytes "s") (exampleWrite userY none) [] none [7, 0]]
    (.mssqlError 2601) (by rfl) (by rfl) (by rfl) (by rfl) (by rfl) (by rfl)).1.2 (by rfl)

/-! ## The batches of the locking reads -/

theorem ceil_div_step (n B : Nat) (hB : 0 < B) (hn : 0 < n) :
    (n + B - 1) / B = (n - B + B - 1) / B + 1 := by
  by_cases h : B ≤ n
  · have e1 : n - B + B - 1 = n - 1 := by omega
    have e2 : n + B - 1 = (n - 1) + B := by omega
    rw [e1, e2, Nat.add_div_right _ hB]
  · have e1 : n - B + B - 1 = B - 1 := by omega
    rw [e1, Nat.div_eq_of_lt (by omega : B - 1 < B)]
    have e2 : n + B - 1 = (n - 1) + B := by omega
    rw [e2, Nat.add_div_right _ hB, Nat.div_eq_of_lt (by omega : n - 1 < B)]

theorem batchLoop_length {α : Type} (B : Nat) (hB : 0 < B) (xs : List α) (fuel start : Nat)
    (h : xs.length - start ≤ fuel) :
    (batchLoop B xs fuel start).length = (xs.length - start + B - 1) / B := by
  induction fuel generalizing start with
  | zero =>
    have e : xs.length - start = 0 := by omega
    rw [e, Nat.zero_add, Nat.div_eq_of_lt (by omega : B - 1 < B)]
    rfl
  | succ n ih =>
    unfold batchLoop
    by_cases hs : start < xs.length
    · simp only [hs, if_true, List.length_cons]
      rw [ih (start + B) (by omega)]
      have e : xs.length - (start + B) = xs.length - start - B := by omega
      rw [e]
      exact (ceil_div_step (xs.length - start) B hB (by omega)).symm
    · have e : xs.length - start = 0 := by omega
      rw [e, Nat.zero_add, Nat.div_eq_of_lt (by omega : B - 1 < B)]
      simp [hs]

/-- The number of batches is the ceiling of the length over the bound. -/
theorem batches_length {α : Type} (B : Nat) (hB : 0 < B) (xs : List α) :
    (batches B xs).length = (xs.length + B - 1) / B := by
  unfold batches
  rw [batchLoop_length B hB xs xs.length 0 (by omega)]
  rfl

theorem mem_batchLoop {α : Type} (B : Nat) (hB : 0 < B) (xs : List α) (fuel start : Nat)
    (b : List α) (hb : b ∈ batchLoop B xs fuel start) : b ≠ [] ∧ b.length ≤ B := by
  induction fuel generalizing start with
  | zero => simp [batchLoop] at hb
  | succ n ih =>
    unfold batchLoop at hb
    by_cases hs : start < xs.length
    · simp only [hs, if_true, List.mem_cons] at hb
      rcases hb with rfl | hb
      · have hl : ((xs.drop start).take
            ((if start + B > xs.length then xs.length else start + B) - start)).length
            = (if start + B > xs.length then xs.length else start + B) - start := by
          rw [List.length_take, List.length_drop]
          split <;> omega
        constructor
        · intro hnil
          rw [hnil] at hl
          simp only [List.length_nil] at hl
          split at hl <;> omega
        · rw [hl]
          split <;> omega
      · exact ih (start + B) hb
    · simp [hs] at hb

/-- Every batch is non-empty and no longer than the bound. -/
theorem mem_batches {α : Type} (B : Nat) (hB : 0 < B) (xs : List α) (b : List α)
    (hb : b ∈ batches B xs) : b ≠ [] ∧ b.length ≤ B :=
  mem_batchLoop B hB xs xs.length 0 b hb

theorem BeginTx_ok_calls (db : DB) (u : Unit) (db1 : DB) (h : BeginTx db = (.ok u, db1)) :
    db1.calls = db.calls + 1 ∧ db1.faults = db.faults := by
  unfold BeginTx at h
  cases hf : db.faults db.calls with
  | some e =>
    rw [hf] at h
    simp at h
  | none =>
    rw [hf] at h
    simp only [Prod.mk.injEq] at h
    rw [← h.2]
    exact ⟨rfl, rfl⟩

/-- One locking read of a non-empty batch is one driver call. -/
theorem selectExistingRowsForWrite_calls {Cond : Type} (E : Env Cond) (store : GoString)
    (keys : List tupleLockKey) (db : DB) (existing : ExistingMap Cond) (hk : keys ≠ []) :
    (selectExistingRowsForWrite E store keys db existing).2.calls = db.calls + 1 ∧
    (selectExistingRowsForWrite E store keys db existing).2.faults = db.faults ∧
    (db.faults db.calls = none →
      ∃ ex, (selectExistingRowsForWrite E store keys db existing).1 = .ok ex) := by
  have hl : ¬ keys.length = 0 := fun h => hk (List.length_eq_zero.1 h)
  unfold selectExistingRowsForWrite queryTuples
  simp only [hl, if_false]
  cases hf : db.faults db.calls with
  | some e => exact ⟨rfl, rfl, fun h => by simp at h⟩
  | none => exact ⟨rfl, rfl, fun _ => ⟨_, rfl⟩⟩

/-- When the locking reads all succeed, there was one driver call per batch. -/
theorem lockLoop_ok_calls {Cond : Type} (E : Env Cond) (store : GoString)
    (bs : List (List tupleLockKey)) (existing ex : ExistingMap Cond) (db db2 : DB)
    (hne : ∀ b ∈ bs, b ≠ [])
    (h : lockLoop E store bs existing db = (.ok ex, db2)) :
    db2.calls = db.calls + bs.length := by
  induction bs generalizing existing db with
  | nil =>
    simp only [lockLoop, Prod.mk.injEq] at h
    rw [← h.2]
    rfl
  | cons b rest ih =>
    unfold lockLoop at h
    have hc := (selectExistingRowsForWrite_calls E store b db existing
      (hne b (List.mem_cons_self _ _))).1
    cases hs : selectExistingRowsForWrite E store b db existing with
    | mk r d =>
      rw [hs] at h hc
      cases r with
      | error e => simp at h
      | ok ex1 =>
        simp only at h hc
        rw [ih ex1 d (fun x hx => hne x (List.mem_cons_of_mem _ hx)) h, hc, List.length_cons]
        omega

/-- When the driver does not fail during the reads, the locking reads all succeed. -/
theorem lockLoop_of_noFaults {Cond : Type} (E : Env Cond) (store : GoString)
    (bs : List (List tupleLockKey)) (existing : ExistingMap Cond) (db : DB)
    (hne : ∀ b ∈ bs, b ≠ [])
    (hf : ∀ i, i < bs.length → db.faults (db.calls + i) = none) :
    ∃ ex db2, lockLoop E store bs existing db = (.ok ex, db2) := by
  induction bs generalizing existing db with
  | nil => exact ⟨existing, db, rfl⟩
  | cons b rest ih =>
    unfold lockLoop
    obtain ⟨hc, hfa, hok⟩ := selectExistingRowsForWrite_calls E store b db existing
      (hne b (List.mem_cons_self _ _))
    obtain ⟨ex1, hex⟩ := hok (by simpa using hf 0 (by simp))
    cases hs : selectExistingRowsForWrite E store b db existing with
    | mk r d =>
      rw [hs] at hc hfa hex
      simp only at hc hfa hex
      subst hex
      simp only
      apply ih ex1 d (fun x hx => hne x (List.mem_cons_of_mem _ hx))
      intro i hi
      rw [hfa, hc]
      have := hf (i + 1) (by simp only [List.length_cons]; omega)
      rw [← this]
      congr 1
      omega

theorem readSlices_foldl_error {Cond : Type} (E : Env Cond) (store : GoString)
    (slices : List (List tupleLockKey)) (err : WriteError Cond) (db : DB) :
    slices.foldl
      (fun (acc : Except (WriteError Cond) (ExistingMap Cond) × DB) keys =>
        match acc with
        | (.ok found, d) => selectExistingRowsForWrite E store keys d found
        | (.error err, d) => (.error err, d))
      (.error err, db) = (.error err, db) := by
  induction slices with
  | nil => rfl
  | cons b rest ih => exact ih

/-- Step 3 of `write` over a list of slices is one read per slice, in order,
up to the first failure. -/
theorem lockLoop_eq_readSlices {Cond : Type} (E : Env Cond) (store : GoString)
    (slices : List (List tupleLockKey)) (existing : ExistingMap Cond) (db : DB) :
    lockLoop E store slices existing db = readSlices E store slices existing db := by
  induction slices generalizing existing db with
  | nil => rfl
  | cons b rest ih =>
    unfold lockLoop readSlices
    simp only [List.foldl_cons]
    cases hs : selectExistingRowsForWrite E store b db existing with
    | mk r d =>
      cases r with
      | error e =>
        simp only
        rw [readSlices_foldl_error]
      | ok ex1 =>
        simp only
        rw [ih ex1 d]
        rfl

/-- C13 (counterexample): the driver fails at `BeginTx` (driver call 0).
(1) A call with empty delete and write lists has no key to lock (N = 0), yet
`write` returns the wrapped driver error, not nil. (2) A call that deletes one
key (N = 1) issues no locking read at all: `BeginTx` is the only driver call
made, although no read failed. -/
theorem empty_write_fails_when_begin_fails :
    (makeTupleLockKeys exampleEnv.U [] ([] : List (TupleKey ExampleCondition)) = [] ∧
      (write exampleEnv (bytes "s") [] [] optsIgnore 7
        (exampleDB [] (faultAt 0 (.otherError 1)))).1 = some (.sqlError (.otherError 1))) ∧
    ((makeTupleLockKeys exampleEnv.U [exampleDelete userX]
        ([] : List (TupleKey ExampleCondition))).length = 1 ∧
      (write exampleEnv (bytes "s") [exampleDelete userX] [] optsIgnore 7
        (exampleDB [] (faultAt 0 (.otherError 1)))).2.calls = 1) :=
  ⟨⟨by decide, by decide⟩, ⟨by decide, by decide⟩⟩

/-- C13 (amended): when `BeginTx` succeeds, with N the number of keys returned
by `makeTupleLockKeys` and B the batch bound (positive): (1) the slices of
step 3 number ceil(N / B); (2) each slice is non-empty and at most B long;
(3) put end to end in loop order they are the ordered key list; (4) when the
reads of these slices, one `selectExistingRowsForWrite` call per slice in
that order, all succeed, they are exactly ceil(N / B) driver calls, and
(5) they succeed when the driver does not fail on those calls; (6) for N > 0
`write` issues exactly these reads after `BeginTx`: when one fails it returns
that error, and when none fails it runs steps 4 to 7 on the snapshot the
reads give, starting at the driver call that follows the call of `BeginTx`
and the ceil(N / B) reads; (7) for N = 0 `write` makes no driver call after
`BeginTx` (no read, delete, insert or commit), returns nil and leaves the
committed tables as they were. -/
theorem lock_reads_batched {Cond : Type} [DecidableEq Cond] (E : Env Cond)
    (store : GoString) (deletes : List TupleKeyWithoutCondition) (writes : List (TupleKey Cond))
    (opts : TupleWriteOptions) (now : Nat) (db : DB) (u : Unit) (db1 : DB)
    (hbegin : BeginTx db = (.ok u, db1)) :
    (lockKeyBatches E deletes writes).length =
      ((makeTupleLockKeys E.U deletes writes).length + E.DefaultMaxTuplesPerWrite - 1)
        / E.DefaultMaxTuplesPerWrite ∧
    (∀ b ∈ lockKeyBatches E deletes writes,
      b ≠ [] ∧ b.length ≤ E.DefaultMaxTuplesPerWrite) ∧
    (lockKeyBatches E deletes writes).flatten = makeTupleLockKeys E.U deletes writes ∧
    (∀ existing db2, readSlices E store (lockKeyBatches E deletes writes) [] db1
        = (.ok existing, db2) →
      db2.calls = db1.calls + (lockKeyBatches E deletes writes).length) ∧
    ((∀ i, i < (lockKeyBatches E deletes writes).length → db1.faults (db1.calls + i) = none) →
      ∃ existing db2, readSlices E store (lockKeyBatches E deletes writes) [] db1
        = (.ok existing, db2)) ∧
    (makeTupleLockKeys E.U deletes writes ≠ [] →
      (∀ err db2, readSlices E store (lockKeyBatches E deletes writes) [] db1
          = (.error err, db2) →
        write E store deletes writes opts now db = (some err, Rollback db2)) ∧
      (∀ existing db2, readSlices E store (lockKeyBatches E deletes writes) [] db1
          = (.ok existing, db2) →
        write E store deletes writes opts now db =
          ((writeResolved E store deletes writes opts now existing db2).1,
            Rollback (writeResolved E store deletes writes opts now existing db2).2) ∧
        db2.calls = db.calls + 1 +
          ((makeTupleLockKeys E.U deletes writes).length + E.DefaultMaxTuplesPerWrite - 1)
            / E.DefaultMaxTuplesPerWrite)) ∧
    (makeTupleLockKeys E.U deletes writes = [] →
      write E store deletes writes opts now db = (none, Rollback db1) ∧
      (Rollback db1).calls = db.calls + 1 ∧
      (Rollback db1).committed = db.committed) := by
  have hne : ∀ b ∈ lockKeyBatches E deletes writes, b ≠ [] :=
    fun b hb => (mem_batches _ E.maxTuples_pos _ b hb).1
  have hlen : (lockKeyBatches E deletes writes).length =
      ((makeTupleLockKeys E.U deletes writes).length + E.DefaultMaxTuplesPerWrite - 1)
        / E.DefaultMaxTuplesPerWrite := batches_length _ E.maxTuples_pos _
  have hcalls : ∀ existing db2, readSlices E store (lockKeyBatches E deletes writes) [] db1
      = (.ok existing, db2) →
      db2.calls = db1.calls + (lockKeyBatches E deletes writes).length := by
    intro existing db2 h
    rw [← lockLoop_eq_readSlices] at h
    exact lockLoop_ok_calls E store _ [] existing db1 db2 hne h
  refine ⟨hlen, fun b hb => mem_batches _ E.maxTuples_pos _ b hb,
    batches_flatten _ E.maxTuples_pos _, hcalls, ?_, ?_, ?_⟩
  · intro hf
    obtain ⟨existing, db2, h⟩ := lockLoop_of_noFaults E store _ [] db1 hne hf
    exact ⟨existing, db2, by rw [← lockLoop_eq_readSlices]; exact h⟩
  · intro hkeys
    have hl : ¬ (makeTupleLockKeys E.U deletes writes).length = 0 :=
      fun h => hkeys (List.length_eq_zero.1 h)
    constructor
    · intro err db2 h
      rw [← lockLoop_eq_readSlices] at h
      unfold lockKeyBatches at h
      unfold write writeTx
      rw [hbegin]
      simp only [hl, if_false, h]
    · intro existing db2 h
      refine ⟨?_, ?_⟩
      · rw [← lockLoop_eq_readSlices] at h
        unfold lockKeyBatches at h
        unfold write writeTx
        rw [hbegin]
        simp only [hl, if_false, h]
      · rw [hcalls existing db2 h, (BeginTx_ok_calls db u db1 hbegin).1, hlen]
  · intro hnil
    refine ⟨?_, (BeginTx_ok_calls db u db1 hbegin).1, (BeginTx_ok db u db1 hbegin).2.1⟩
    unfold write writeTx
    rw [hbegin]
    simp [hnil]

/-- Witness of C13 (amended): with a batch bound of 2, a call that deletes
`user:x`, `user:y` and `user:z` from an empty table has ceil(3 / 2) = 2
slices, and `write` runs steps 4 to 7 on the empty snapshot from driver call
3 on, after `BeginTx` and two reads; with the commit it makes 4 driver calls. -/
theorem lock_reads_batched_witness :
    (lockKeyBatches exampleEnv [exampleDelete userX, exampleDelete userY, exampleDelete userZ]
        ([] : List (TupleKey ExampleCondition))).length =
      ((makeTupleLockKeys exampleEnv.U
          [exampleDelete userX, exampleDelete userY, exampleDelete userZ]
          ([] : List (TupleKey ExampleCondition))).length
        + exampleEnv.DefaultMaxTuplesPerWrite - 1) / exampleEnv.DefaultMaxTuplesPerWrite ∧
    (write exampleEnv (bytes "s")
        [exampleDelete userX, exampleDelete userY, exampleDelete userZ] [] optsIgnore 7
        (exampleDB [] noFaults) =
      ((writeResolved exampleEnv (bytes "s")
          [exampleDelete userX, exampleDelete userY, exampleDelete userZ] [] optsIgnore 7 []
          (readTwiceDB [] noFaults)).1,
        Rollback (writeResolved exampleEnv (bytes "s")
          [exampleDelete userX, exampleDelete userY, exampleDelete userZ] [] optsIgnore 7 []
          (readTwiceDB [] noFaults)).2) ∧
      (readTwiceDB [] noFaults).calls = (exampleDB [] noFaults).calls + 1 +
        ((makeTupleLockKeys exampleEnv.U
            [exampleDelete userX, exampleDelete userY, exampleDelete userZ]
            ([] : List (TupleKey ExampleCondition))).length
          + exampleEnv.DefaultMaxTuplesPerWrite - 1) / exampleEnv.DefaultMaxTuplesPerWrite) ∧
    (write exampleEnv (bytes "s")
        [exampleDelete userX, exampleDelete userY, exampleDelete userZ] [] optsIgnore 7
        (exampleDB [] noFaults)).2.calls = 4 :=
  ⟨(lock_reads_batched exampleEnv (bytes "s")
      [exampleDelete userX, exampleDelete userY, exampleDelete userZ] [] optsIgnore 7
      (exampleDB [] noFaults) () (begunDB [] noFaults) (by rfl)).1,
   ((lock_reads_batched exampleEnv (bytes "s")
      [exampleDelete userX, exampleDelete userY, exampleDelete userZ] [] optsIgnore 7
      (exampleDB [] noFaults) () (begunDB [] noFaults) (by rfl)).2.2.2.2.2.1 (by decide)).2
      [] (readTwiceDB [] noFaults) (by rfl),
   by decide⟩

/-! ## Claim on the snapshot used by conflict resolution -/

theorem forall₂_exists_of_mem {α β : Type} (R : α → β → Prop) (l1 : List α) (l2 : List β)
    (h : List.Forall₂ R l1 l2) (a : α) (ha : a ∈ l1) : ∃ b ∈ l2, R a b := by
  induction h with
  | nil => simp at ha
  | cons hr _ ih =>
    rcases List.mem_cons.1 ha with rfl | ha
    · exact ⟨_, List.mem_cons_self _ _, hr⟩
    · obtain ⟨b, hb, hR⟩ := ih ha
      exact ⟨b, List.mem_cons_of_mem _ hb, hR⟩

/-- When `write` returns nil after a locked snapshot, steps 4 and 5 made the
plan of the found deletes and the new writes, and the committed tables are
the old ones with that plan applied. -/
theorem write_ok_committed {Cond : Type} [DecidableEq Cond] (E : Env Cond)
    (store : GoString) (deletes : List TupleKeyWithoutCondition) (writes : List (TupleKey Cond))
    (opts : TupleWriteOptions) (now : Nat) (db : DB) (existing : ExistingMap Cond) (db2 : DB)
    (hsnap : lockedSnapshot E store deletes writes db = some (existing, db2))
    (hok : (write E store deletes writes opts now db).1 = none) :
    resolve E store deletes writes opts now existing
      = .ok (plannedRows E store now existing deletes writes) ∧
    (write E store deletes writes opts now db).2.committed
      = applyPlan store (plannedRows E store now existing deletes writes) db.committed := by
  rcases write_cases E store deletes writes opts now db with h | ⟨_, ex, d2, p, hs, hp, hcom⟩
  · exact absurd (h.2 hok) (lockedSnapshot_ne_nil E store deletes writes db _ hsnap)
  · rw [hsnap] at hs
    simp only [Option.some.injEq, Prod.mk.injEq] at hs
    obtain ⟨rfl, rfl⟩ := hs
    have hpe : p = plannedRows E store now existing deletes writes :=
      resolve_ok E store deletes writes opts now existing p hp
    subst hpe
    exact ⟨hp, hcom⟩

/-- C18 (counterexample): two calls whose key `user:x` is in the delete list
and in the write list and is present in the locked snapshot with the
condition it is written with. (1) Under OnDuplicateInsert = Ignore the call
also writes `user:y`, stored with another condition: the call does not
succeed, it fails with ConditionConflict for `user:y`. (2) Under
OnDuplicateInsert = Error and OnMissingDelete = Error the call also deletes
`user:y`, which is not stored: the call fails with InvalidWriteInput(DELETE),
not with InvalidWriteInput(WRITE). -/
theorem delete_and_write_same_key_preempted :
    (lockedSnapshot exampleEnv (bytes "s") [exampleDelete userX]
        [exampleWrite userX none, exampleWrite userY none]
        (exampleDB [exampleRow userX [], exampleRow userY (bytes "c")] noFaults)
      = some (snapshotXYc,
          lockedDB [exampleRow userX [], exampleRow userY (bytes "c")] noFaults) ∧
    (snapshotXYc.lookup (bytes "doc:1#viewer@user:x")).map
        (fun t => decide (t.key.condition = (exampleWrite userX none).condition)) = some true ∧
    (write exampleEnv (bytes "s") [exampleDelete userX]
        [exampleWrite userX none, exampleWrite userY none] optsIgnore 7
        (exampleDB [exampleRow userX [], exampleRow userY (bytes "c")] noFaults)).1
      = some (.TupleConditionConflictError (exampleWrite userY none))) ∧
    (lockedSnapshot exampleEnv (bytes "s") [exampleDelete userX, exampleDelete userY]
        [exampleWrite userX none] (exampleDB [exampleRow userX []] noFaults)
      = some (snapshotX [], lockedDB [exampleRow userX []] noFaults) ∧
    ((snapshotX []).lookup (bytes "doc:1#viewer@user:x")).isSome = true ∧
    (write exampleEnv (bytes "s") [exampleDelete userX, exampleDelete userY]
        [exampleWrite userX none] optsError 7 (exampleDB [exampleRow userX []] noFaults)).1
      = some (.InvalidWriteInputError (exampleDelete userY) .TUPLE_OPERATION_DELETE)) :=
  ⟨⟨by rfl, by decide, by decide⟩, ⟨by rfl, by decide, by decide⟩⟩

/-- C18 (amended): given the locked snapshot, let K be a key of the delete list
that is also a key of the write list and is present in the snapshot. (1) When
the delete resolution does not fail, the delete of K is planned: its
predicate is among the delete predicates and a redacted DELETE row for it is
among the changelog items. (2) The write of K is still treated as a
duplicate: it counts as present, and no tuple row is planned for it.
(3) Under OnDuplicateInsert = Ignore with a condition equal to the stored one,
step 5 skips the write of K without error, and when the call returns nil the
committed tuple table is the old one without the rows hit by the planned
delete predicates (that of K among them), followed by the rows of the write
keys that are not in the snapshot. (4) Under any other OnDuplicateInsert, when
the delete resolution did not fail and the marshaller accepts the condition of
every write key before the first present one, the call fails with
InvalidWriteInput(WRITE) for the first write key present in the snapshot. -/
theorem resolution_uses_locked_snapshot {Cond : Type} [DecidableEq Cond] (E : Env Cond)
    (store : GoString) (deletes : List TupleKeyWithoutCondition) (writes : List (TupleKey Cond))
    (opts : TupleWriteOptions) (now : Nat) (db : DB) (existing : ExistingMap Cond) (db2 : DB)
    (kd : TupleKeyWithoutCondition) (kw : TupleKey Cond) (t : Tuple Cond)
    (hsnap : lockedSnapshot E store deletes writes db = some (existing, db2))
    (hkd : kd ∈ deletes) (hkw : kw ∈ writes) (hsame : kw.withoutCondition = kd)
    (hpres : existing.lookup (E.U.TupleKeyToString kd.object kd.relation kd.user) = some t) :
    (∀ pd, deletesLoop E store opts now existing deletes Plan.empty = .ok pd →
      deleteConditionOf E.U kd ∈ pd.deleteConditions ∧
      ∃ row ∈ pd.changeLogItems, isRedactedDeleteRow E store kd row) ∧
    (writePresent E existing kw = true ∧ kw ∉ newWrites E existing writes) ∧
    (opts.OnDuplicateInsert = .OnDuplicateInsertIgnore → t.key.condition = kw.condition →
      writeVerdict E opts existing kw = none ∧
      ((write E store deletes writes opts now db).1 = none →
        deleteConditionOf E.U kd
          ∈ (plannedRows E store now existing deletes writes).deleteConditions ∧
        (write E store deletes writes opts now db).2.committed.tuple =
          db.committed.tuple.filter
              (fun r => !deleteHits store
                (plannedRows E store now existing deletes writes).deleteConditions r)
            ++ writeRows E store now (foundDeletes E existing deletes).length
                (newWrites E existing writes))) ∧
    (opts.OnDuplicateInsert ≠ .OnDuplicateInsertIgnore →
      (∃ pd, deletesLoop E store opts now existing deletes Plan.empty = .ok pd) →
      (∀ x ∈ writes.takeWhile (fun x => !writePresent E existing x), marshalFails E x = false) →
      ∃ first, writes.find? (writePresent E existing) = some first ∧
        (write E store deletes writes opts now db).1 =
          some (.InvalidWriteInputError first.withoutCondition .TUPLE_OPERATION_WRITE)) := by
  have hfound : kd ∈ foundDeletes E existing deletes := by
    unfold foundDeletes
    rw [List.mem_filter]
    exact ⟨hkd, by simp [deleteMissing, hpres]⟩
  have hkey : E.U.TupleKeyToString kw.object kw.relation kw.user
      = E.U.TupleKeyToString kd.object kd.relation kd.user := by
    rw [← hsame]
    rfl
  have hwp : writePresent E existing kw = true := by
    simp [writePresent, hkey, hpres]
  have hcond : deleteConditionOf E.U kd
      ∈ (plannedRows E store now existing deletes writes).deleteConditions := by
    simp only [plannedRows, Plan.addWrites, Plan.addDeletes, Plan.empty, List.nil_append]
    exact List.mem_map.2 ⟨kd, hfound, rfl⟩
  refine ⟨?_, ⟨hwp, ?_⟩, ?_, ?_⟩
  · intro pd hpd
    rw [deletesLoop_eq] at hpd
    cases hd : deletes.findSome? (deleteVerdict E opts existing) with
    | some e =>
      rw [hd] at hpd
      simp at hpd
    | none =>
      rw [hd] at hpd
      simp only [Except.ok.injEq] at hpd
      rw [← hpd]
      simp only [Plan.addDeletes, Plan.empty, List.nil_append]
      refine ⟨List.mem_map.2 ⟨kd, hfound, rfl⟩, ?_⟩
      exact forall₂_exists_of_mem _ _ _ (deleteRows_redacted E store now 0 _) kd hfound
  · unfold newWrites
    rw [List.mem_filter]
    rintro ⟨_, h⟩
    simp [hwp] at h
  · intro hpol hc
    refine ⟨?_, fun hok => ⟨hcond, ?_⟩⟩
    · exact writeVerdict_of_equal E opts existing kw t hpol (hkey ▸ hpres) hc
    · rw [(write_ok_committed E store deletes writes opts now db existing db2 hsnap hok).2]
      simp [applyPlan, plannedRows, Plan.addWrites, Plan.addDeletes, Plan.empty]
  · intro hpol hdel hm
    obtain ⟨pd, hpd⟩ := hdel
    cases hf : writes.find? (writePresent E existing) with
    | none =>
      have := List.find?_eq_none.1 hf kw hkw
      exact absurd hwp this
    | some first =>
      refine ⟨first, rfl, ?_⟩
      rw [(write_of_lockedSnapshot E store deletes writes opts now db existing db2 hsnap).1]
      have hr : resolve E store deletes writes opts now existing =
          .error (.InvalidWriteInputError first.withoutCondition .TUPLE_OPERATION_WRITE) := by
        unfold resolve
        rw [hpd]
        simp only
        rw [writesLoop_eq, findSome_writeVerdict_of_present E opts existing writes hpol first hf hm]
      rw [writeResolved_of_error E store deletes writes opts now existing db2 _ hr]

/-- Witness of C18 (amended): the row of `user:x` is stored without condition;
the call deletes `user:x` and writes it again without condition under Ignore.
Step 5 skips the write, `write` returns nil and the committed tuple table is
empty: the key was deleted and not inserted again. -/
theorem resolution_uses_locked_snapshot_witness :
    writeVerdict exampleEnv optsIgnore (snapshotX []) (exampleWrite userX none) = none ∧
    (write exampleEnv (bytes "s") [exampleDelete userX] [exampleWrite userX none] optsIgnore 7
        (exampleDB [exampleRow userX []] noFaults)).1 = none ∧
    (write exampleEnv (bytes "s") [exampleDelete userX] [exampleWrite userX none] optsIgnore 7
        (exampleDB [exampleRow userX []] noFaults)).2.committed.tuple = [] :=
  ⟨((resolution_uses_locked_snapshot exampleEnv (bytes "s") [exampleDelete userX]
      [exampleWrite userX none] optsIgnore 7 (exampleDB [exampleRow userX []] noFaults)
      (snapshotX []) (lockedDB [exampleRow userX []] noFaults) (exampleDelete userX)
      (exampleWrite userX none) (exampleRowToTuple (exampleRow userX [])) (by rfl) (by decide)
      (by decide) (by decide) (by decide)).2.2.1 (by rfl) (by decide)).1,
    by decide, by decide⟩

/-! ## The sort under any strict order -/

theorem orderedInsert_sorted_of {α : Type} (less : α → α → Bool)
    (htr : ∀ a b c, less a b = true → less b c = true → less a c = true)
    (hirr : ∀ a, less a a = false) (x : α) (l : List α)
    (h : l.Pairwise (fun a b => less b a = false)) :
    (orderedInsert less x l).Pairwise (fun a b => less b a = false) := by
  have hasym : ∀ a b, less a b = true → less b a = false := by
    intro a b hab
    cases hba : less b a with
    | false => rfl
    | true =>
      have := htr a b a hab hba
      rw [hirr] at this
      exact absurd this (by decide)
  induction l with
  | nil => simp [orderedInsert]
  | cons y ys ih =>
    have hy := (List.pairwise_cons.1 h).1
    have hys := (List.pairwise_cons.1 h).2
    unfold orderedInsert
    by_cases hxy : less x y = true
    · rw [if_pos hxy]
      refine List.pairwise_cons.2 ⟨?_, h⟩
      intro z hz
      rcases List.mem_cons.1 hz with rfl | hz
      · exact hasym _ _ hxy
      · cases hzx : less z x with
        | false => rfl
        | true =>
          have := htr z x y hzx hxy
          rw [hy z hz] at this
          exact absurd this (by decide)
    · rw [if_neg hxy]
      refine List.pairwise_cons.2 ⟨?_, ih hys⟩
      intro w hw
      rcases List.mem_cons.1 ((orderedInsert_perm less x ys).mem_iff.1 hw) with rfl | hw
      · simpa using hxy
      · exact hy w hw

/-- The sort returns a list in which no element is less than an earlier one. -/
theorem sortSlice_sorted_of {α : Type} (less : α → α → Bool)
    (htr : ∀ a b c, less a b = true → less b c = true → less a c = true)
    (hirr : ∀ a, less a a = false) (l : List α) :
    (sortSlice less l).Pairwise (fun a b => less b a = false) := by
  induction l with
  | nil => simp [sortSlice]
  | cons x xs ih =>
    unfold sortSlice
    exact orderedInsert_sorted_of less htr hirr x _ ih

/-- When any two different elements of the list are comparable, the sort
returns a strictly ascending list. -/
theorem sortSlice_strict_of {α : Type} (less : α → α → Bool)
    (htr : ∀ a b c, less a b = true → less b c = true → less a c = true)
    (hirr : ∀ a, less a a = false) (l : List α) (hnd : l.Nodup)
    (htri : ∀ a ∈ l, ∀ b ∈ l, less a b = false → less b a = false → a = b) :
    (sortSlice less l).Pairwise (fun a b => less a b = true) := by
  have h1 := sortSlice_sorted_of less htr hirr l
  have h2 : (sortSlice less l).Nodup := (sortSlice_perm less l).nodup_iff.2 hnd
  have h3 : ∀ a ∈ sortSlice less l, a ∈ l := fun a ha => (sortSlice_perm less l).mem_iff.1 ha
  have h4 : (sortSlice less l).Pairwise (fun a b => a ∈ l ∧ b ∈ l) :=
    List.pairwise_of_forall_mem_list (fun a ha b hb => ⟨h3 a ha, h3 b hb⟩)
  refine ((h1.and h2).and h4).imp ?_
  intro a b hab
  cases h : less a b with
  | true => rfl
  | false => exact absurd (htri a hab.2.1 b hab.2.2 h hab.1.1) hab.1.2

/-- A strictly ascending permutation of a list is unique. -/
theorem eq_of_perm_of_strict {α : Type} (less : α → α → Bool)
    (htr : ∀ a b c, less a b = true → less b c = true → less a c = true)
    (hirr : ∀ a, less a a = false) (l1 l2 : List α) (hp : l1.Perm l2)
    (h1 : l1.Pairwise (fun a b => less a b = true))
    (h2 : l2.Pairwise (fun a b => less a b = true)) : l1 = l2 := by
  haveI : IsAntisymm α (fun a b => less a b = true) :=
    ⟨fun a b hab hba => by
      have := htr a b a hab hba
      rw [hirr] at this
      exact absurd this (by decide)⟩
  exact List.eq_of_perm_of_sorted hp h1 h2

/-- On a list that the sort turns into a strictly ascending one, filtering
before the sort is filtering after it. -/
theorem sortSlice_filter {α : Type} (less : α → α → Bool)
    (htr : ∀ a b c, less a b = true → less b c = true → less a c = true)
    (hirr : ∀ a, less a a = false) (l : List α) (q : α → Bool) (hnd : l.Nodup)
    (htri : ∀ a ∈ l, ∀ b ∈ l, less a b = false → less b a = false → a = b) :
    sortSlice less (l.filter q) = (sortSlice less l).filter q := by
  apply eq_of_perm_of_strict less htr hirr
  · exact (sortSlice_perm less _).trans ((sortSlice_perm less l).symm.filter q)
  · apply sortSlice_strict_of less htr hirr _ (hnd.filter q)
    intro a ha b hb
    exact htri a (List.mem_of_mem_filter ha) b (List.mem_of_mem_filter hb)
  · exact (sortSlice_strict_of less htr hirr l hnd htri).filter q

/-! ## Claims on `ListStores` -/

theorem strLess_irrefl_key {α : Type} (k : α → GoString) (a : α) :
    strLess (k a) (k a) = false := strLess_irrefl _

theorem getLast?_take_succ {α : Type} (l : List α) (n : Nat) (h : n < l.length) :
    (l.take (n + 1)).getLast? = l.get? n := by
  induction l generalizing n with
  | nil => simp at h
  | cons x xs ih =>
    cases n with
    | zero => simp
    | succ m =>
      have hm : m < xs.length := by simpa using h
      rw [List.take_succ_cons, List.get?_cons_succ, ← ih m hm]
      cases hxs : xs with
      | nil => simp [hxs] at hm
      | cons y ys => simp [List.take_succ_cons, List.getLast?_cons_cons]

theorem scanStores_ok (F : ReadFaults) (hs : ∀ i, F.scan i = none) (i : Nat)
    (rows : List StoreRow) (stores : List Store) (id : GoString) :
    scanStores F i rows stores id =
      .ok (stores ++ rows.map StoreRow.toStore, (rows.getLast?.map (fun r => r.id)).getD id) := by
  induction rows generalizing i stores id with
  | nil => simp [scanStores]
  | cons r rest ih =>
    unfold scanStores
    rw [hs i]
    simp only
    rw [ih (i + 1)]
    cases rest with
    | nil => simp
    | cons y ys =>
      rw [List.getLast?_cons_cons]
      cases h : (y :: ys).getLast? with
      | none => simp at h
      | some z => simp

theorem delivered_of_noNext {α : Type} (F : ReadFaults) (hn : F.next = none) (result : List α) :
    delivered F result = (result, none) := by
  unfold delivered
  rw [hn]

/-- What `ListStores` returns when the driver does not fail: the stores of the
rows of its query; cut to `PageSize` stores with the id of the last row as
token when they outnumber a non-negative `PageSize`, and a panic when
`PageSize` is negative. -/
theorem ListStores_of_noFaults (table : List StoreRow) (F : ReadFaults)
    (options : ListStoresOptions) (hq : F.query = none) (hn : F.next = none)
    (hs : ∀ i, F.scan i = none) :
    ListStores table F options =
      if ((listStoresQuery table options).length : Int) > options.Pagination.PageSize then
        if options.Pagination.PageSize < 0 then .panic
        else .ok (((listStoresQuery table options).map StoreRow.toStore).take
            options.Pagination.PageSize.toNat,
          ((listStoresQuery table options).getLast?.map (fun r => r.id)).getD [])
      else .ok ((listStoresQuery table options).map StoreRow.toStore, []) := by
  unfold ListStores
  rw [hq]
  simp only
  rw [delivered_of_noNext F hn, scanStores_ok F hs]
  simp

theorem mem_sortSlice_filter {α : Type} (less : α → α → Bool) (l : List α) (p : α → Bool)
    (q : α → Prop) [DecidablePred q] (h : ∀ a, p a = decide (q a)) (a : α) :
    a ∈ sortSlice less (l.filter p) ↔ a ∈ l ∧ q a := by
  rw [(sortSlice_perm less _).mem_iff, List.mem_filter, h a, decide_eq_true_eq]

theorem sortSlice_filter_perm {α : Type} (less : α → α → Bool) (l : List α) (p : α → Bool)
    (q : α → Prop) [DecidablePred q] (h : ∀ a, p a = decide (q a)) :
    (sortSlice less (l.filter p)).Perm (l.filter (fun a => decide (q a))) := by
  have hp : p = fun a => decide (q a) := funext h
  rw [← hp]
  exact sortSlice_perm less _

theorem forall₂_map_of_forall {α β : Type} (R : α → β → Prop) (f : α → β) (l : List α)
    (h : ∀ a ∈ l, R a (f a)) : List.Forall₂ R l (l.map f) := by
  induction l with
  | nil => exact List.Forall₂.nil
  | cons x xs ih =>
    exact List.Forall₂.cons (h x (List.mem_cons_self _ _))
      (ih (fun a ha => h a (List.mem_cons_of_mem _ ha)))

/-- C14 (counterexample): the stores `a`, `b`, `c` match and the page size is 0.
More than 0 stores match, and `ListStores` returns no store with the token
`c`, the id of the last store, where the claim has the id of the first. -/
theorem listStores_page_size_zero :
    matchingStores exampleStores (exampleListOptions 0 [])
      = [exampleStore (bytes "a"), exampleStore (bytes "b"), exampleStore (bytes "c")] ∧
    ListStores exampleStores noReadFaults (exampleListOptions 0 []) = .ok ([], bytes "c") := by
  decide

/-- The page `ListStores` returns for a positive page size when the driver does not fail. -/
theorem ListStores_page_of_noFaults (table : List StoreRow) (F : ReadFaults) (options : ListStoresOptions)
    (hq : F.query = none) (hn : F.next = none) (hs : ∀ i, F.scan i = none)
    (hP : 0 < options.Pagination.PageSize) :
    (options.Pagination.PageSize.toNat < (matchingStores table options).length →
      ((matchingStores table options).get? options.Pagination.PageSize.toNat).isSome = true) ∧
    (∀ r, (matchingStores table options).get? options.Pagination.PageSize.toNat = some r →
      ListStores table F options =
        .ok (((matchingStores table options).take options.Pagination.PageSize.toNat).map
          StoreRow.toStore, r.id)) ∧
    ((matchingStores table options).length ≤ options.Pagination.PageSize.toNat →
      ListStores table F options
        = .ok ((matchingStores table options).map StoreRow.toStore, [])) ∧
    (matchingStores table options).Perm (table.filter (listStoresWhere options)) ∧
    (matchingStores table options).Pairwise (fun a b => strLess b.id a.id = false) := by
  have hn0 : (options.Pagination.PageSize.toNat : Int) = options.Pagination.PageSize :=
    Int.toNat_of_nonneg (by omega)
  have hq1 : listStoresQuery table options =
      (matchingStores table options).take (options.Pagination.PageSize.toNat + 1) := by
    unfold listStoresQuery matchingStores applyLimit
    simp only [hP, if_true]
    congr 1
    omega
  refine ⟨?_, ?_, ?_, sortSlice_perm _ _, ?_⟩
  · intro hlt
    cases hg : (matchingStores table options).get? options.Pagination.PageSize.toNat with
    | none =>
      rw [List.get?_eq_none] at hg
      omega
    | some r => rfl
  · intro r hr
    have hlt : options.Pagination.PageSize.toNat < (matchingStores table options).length := by
      by_contra hge
      rw [List.get?_eq_none.2 (by omega)] at hr
      simp at hr
    rw [ListStores_of_noFaults table F options hq hn hs, hq1]
    have hlen : ((matchingStores table options).take
        (options.Pagination.PageSize.toNat + 1)).length
        = options.Pagination.PageSize.toNat + 1 := by
      rw [List.length_take]
      omega
    rw [hlen, getLast?_take_succ _ _ hlt, hr]
    have h1 : ((options.Pagination.PageSize.toNat + 1 : Nat) : Int)
        > options.Pagination.PageSize := by omega
    have h2 : ¬ options.Pagination.PageSize < 0 := by omega
    simp only [h1, h2, if_true, if_false, Option.map_some', Option.getD_some]
    rw [← List.map_take, List.take_take, Nat.min_eq_left (Nat.le_succ _)]
  · intro hle
    rw [ListStores_of_noFaults table F options hq hn hs, hq1]
    rw [List.take_of_length_le (by omega)]
    have h1 : ¬ (((matchingStores table options).length : Int)
        > options.Pagination.PageSize) := by omega
    simp only [h1, if_false]
  · exact sortSlice_sorted_of storeIdLess
      (fun a b c hab hbc => strLess_trans hab hbc) (fun a => strLess_irrefl _) _

/-- C14 (amended): for every positive page size P, when the query, the
iteration and the row scans succeed, with the matching stores taken in
ascending order of id (the rows of the table that are not deleted and pass
the filters on ids, name and token, each as often as the table has it, none
with an id below that of an earlier one): if more than P stores match,
`ListStores` returns exactly the first P stores, each with the id, the name
and the times of its row, and a token equal to the id of the (P+1)-th store;
otherwise it returns all matching stores and the empty token. -/
theorem listStores_page (table : List StoreRow) (F : ReadFaults) (options : ListStoresOptions)
    (hq : F.query = none) (hn : F.next = none) (hs : ∀ i, F.scan i = none)
    (hP : 0 < options.Pagination.PageSize) :
    (∀ r, r ∈ matchingStores table options ↔ r ∈ table ∧ storeMatches options r) ∧
    (matchingStores table options).Perm
      (table.filter (fun r => decide (storeMatches options r))) ∧
    (matchingStores table options).Pairwise (fun a b => strLess b.id a.id = false) ∧
    (options.Pagination.PageSize.toNat < (matchingStores table options).length →
      ((matchingStores table options).get? options.Pagination.PageSize.toNat).isSome = true) ∧
    (∀ r, (matchingStores table options).get? options.Pagination.PageSize.toNat = some r →
      ListStores table F options =
        .ok (((matchingStores table options).take options.Pagination.PageSize.toNat).map
          StoreRow.toStore, r.id) ∧
      List.Forall₂ isStoreOf
        ((matchingStores table options).take options.Pagination.PageSize.toNat)
        (((matchingStores table options).take options.Pagination.PageSize.toNat).map
          StoreRow.toStore)) ∧
    ((matchingStores table options).length ≤ options.Pagination.PageSize.toNat →
      ListStores table F options
        = .ok ((matchingStores table options).map StoreRow.toStore, []) ∧
      List.Forall₂ isStoreOf (matchingStores table options)
        ((matchingStores table options).map StoreRow.toStore)) := by
  have hpage := ListStores_page_of_noFaults table F options hq hn hs hP
  have hwhere : ∀ r, listStoresWhere options r = decide (storeMatches options r) := by
    intro r
    unfold listStoresWhere
    have hd : r.deletedAt.isNone = decide (r.deletedAt = none) := by
      cases r.deletedAt <;> rfl
    by_cases h1 : options.IDs = [] <;> by_cases h2 : options.Name = [] <;>
      by_cases h3 : options.Pagination.From = [] <;>
      simp [hd, h1, h2, h3, List.length_pos, Bool.and_assoc]
  have hstore : ∀ r : StoreRow, isStoreOf r r.toStore := fun r => ⟨rfl, rfl, rfl, rfl⟩
  refine ⟨?_, ?_, hpage.2.2.2.2, hpage.1, ?_, ?_⟩
  · intro r
    exact mem_sortSlice_filter storeIdLess table (listStoresWhere options)
      (storeMatches options) hwhere r
  · exact sortSlice_filter_perm storeIdLess table (listStoresWhere options)
      (storeMatches options) hwhere
  · intro r hr
    exact ⟨hpage.2.1 r hr, forall₂_map_of_forall _ _ _ (fun a _ => hstore a)⟩
  · intro hle
    exact ⟨hpage.2.2.1 hle, forall₂_map_of_forall _ _ _ (fun a _ => hstore a)⟩

/-- Witness of C14 (amended): of the six rows of `listedStores` the stores `a`,
`b` and `e` match; with page size 2 `ListStores` returns the stores `a` and
`b` with their names and times, and the token `e`. -/
theorem listStores_page_witness :
    ListStores listedStores noReadFaults (listedOptions 2) =
      .ok (((matchingStores listedStores (listedOptions 2)).take 2).map StoreRow.toStore,
        bytes "e") ∧
    ListStores listedStores noReadFaults (listedOptions 2) =
      .ok ([{ Id := bytes "a", Name := bytes "n", CreatedAt := 1, UpdatedAt := 2 },
            { Id := bytes "b", Name := bytes "n", CreatedAt := 3, UpdatedAt := 4 }],
        bytes "e") :=
  ⟨((listStores_page listedStores noReadFaults (listedOptions 2) rfl rfl (fun _ => rfl)
      (by decide)).2.2.2.2.1
        { id := bytes "e", name := bytes "n", createdAt := 10, updatedAt := 11,
          deletedAt := none }
        (by decide)).1,
   by decide⟩

/-- When the driver does not fail, `ListStores` panics exactly for a negative page size. -/
theorem ListStores_panic_iff (table : List StoreRow) (F : ReadFaults)
    (options : ListStoresOptions) (hq : F.query = none) (hn : F.next = none)
    (hs : ∀ i, F.scan i = none) :
    ListStores table F options = .panic ↔ options.Pagination.PageSize < 0 := by
  rw [ListStores_of_noFaults table F options hq hn hs]
  constructor
  · intro h
    split at h
    · split at h
      · assumption
      · simp at h
    · simp at h
  · intro h
    have h1 : ((listStoresQuery table options).length : Int) > options.Pagination.PageSize := by
      omega
    simp [h1, h]

/-- C19 (the code at the failing input): with page size -1, `ListStores`
panics on the slice `stores[:PageSize]`, whether rows were scanned or not
(the length of `stores` is always above a negative page size), and
`ReadAuthorizationModels` panics on `make(..., 0, numModelIDs)` with
`numModelIDs = -1`. -/
theorem pagers_panic_on_negative_page_size :
    ListStores exampleStores noReadFaults (exampleListOptions (-1) []) = .panic ∧
    ListStores [] noReadFaults (exampleListOptions (-1) []) = .panic ∧
    ReadAuthorizationModels exampleReadModel exampleModels noReadFaults (bytes "s")
      { PageSize := -1, From := [] } = .panic := by
  decide

/-! ## Paging through `ListStores` -/

theorem strLess_nil_right (a : GoString) : strLess a [] = false := by
  cases a <;> rfl

theorem drop_of_get? {α : Type} (l : List α) (n : Nat) (r : α) (h : l.get? n = some r) :
    l.drop n = r :: l.drop (n + 1) := by
  induction l generalizing n with
  | nil => simp at h
  | cons x xs ih =>
    cases n with
    | zero =>
      simp only [List.get?_cons_zero, Option.some.injEq] at h
      rw [h]
      rfl
    | succ m =>
      rw [List.get?_cons_succ] at h
      simpa using ih m h

/-- With a token, the where clause is the one without token and `id >= token`. -/
theorem listStoresWhere_from (options : ListStoresOptions) (t : GoString) (ht : t ≠ [])
    (r : StoreRow) :
    listStoresWhere { options with Pagination := { options.Pagination with From := t } } r =
      (listStoresWhere { options with Pagination := { options.Pagination with From := [] } } r
        && !strLess r.id t) := by
  simp [listStoresWhere, ht]

theorem options_from_nil (options : ListStoresOptions) (h : options.Pagination.From = []) :
    ({ options with Pagination := { options.Pagination with From := [] } } : ListStoresOptions)
      = options := by
  obtain ⟨ids, name, ⟨ps, from_⟩⟩ := options
  simp only at h
  subst h
  rfl

/-- In a strictly ascending list the rows whose id is not below that of a row
are that row and the rows after it. -/
theorem filter_from_suffix (A C : List StoreRow) (x : StoreRow)
    (h : (A ++ x :: C).Pairwise (fun a b => storeIdLess a b = true)) :
    (A ++ x :: C).filter (fun r => !strLess r.id x.id) = x :: C := by
  rw [List.pairwise_append] at h
  obtain ⟨_, hxc, hA⟩ := h
  rw [List.filter_append]
  have h1 : A.filter (fun r => !strLess r.id x.id) = [] := by
    rw [List.filter_eq_nil_iff]
    intro a ha
    have := hA a ha x (List.mem_cons_self _ _)
    unfold storeIdLess at this
    simp [this]
  have h2 : (x :: C).filter (fun r => !strLess r.id x.id) = x :: C := by
    rw [List.filter_eq_self]
    intro c hc
    rcases List.mem_cons.1 hc with rfl | hc
    · simp [strLess_irrefl]
    · have := (List.pairwise_cons.1 hxc).1 c hc
      unfold storeIdLess at this
      simp [strLess_asymm this]
  rw [h1, h2, List.nil_append]

/-- When the matching stores have distinct ids, those of a call with a token
are the matching stores of the call without token whose id is not below the
token, in the same order. -/
theorem matchingStores_from (table : List StoreRow) (options : ListStoresOptions)
    (hfrom : options.Pagination.From = [])
    (hid : ((table.filter (listStoresWhere options)).map (fun r => r.id)).Nodup)
    (t : GoString) (ht : t ≠ []) :
    matchingStores table { options with Pagination := { options.Pagination with From := t } }
      = (matchingStores table options).filter (fun r => !strLess r.id t) := by
  unfold matchingStores
  have hw : table.filter
      (listStoresWhere { options with Pagination := { options.Pagination with From := t } })
      = (table.filter (listStoresWhere options)).filter (fun r => !strLess r.id t) := by
    rw [List.filter_filter]
    apply List.filter_congr
    intro r _
    rw [listStoresWhere_from options t ht r, options_from_nil options hfrom, Bool.and_comm]
  rw [hw]
  apply sortSlice_filter storeIdLess (fun a b c hab hbc => strLess_trans hab hbc)
    (fun a => strLess_irrefl _) _ _ (List.Nodup.of_map _ hid)
  intro a ha b hb hab hba
  exact List.inj_on_of_nodup_map hid ha hb (strLess_trichotomy hab hba)

/-- When the matching stores have distinct ids, they are strictly ascending in id. -/
theorem matchingStores_strict (table : List StoreRow) (options : ListStoresOptions)
    (hid : ((table.filter (listStoresWhere options)).map (fun r => r.id)).Nodup) :
    (matchingStores table options).Pairwise (fun a b => storeIdLess a b = true) := by
  apply sortSlice_strict_of storeIdLess (fun a b c hab hbc => strLess_trans hab hbc)
    (fun a => strLess_irrefl _) _ (List.Nodup.of_map _ hid)
  intro a ha b hb hab hba
  exact List.inj_on_of_nodup_map hid ha hb (strLess_trichotomy hab hba)

/-- From any page boundary on, the client gets the rest of the matching stores. -/
theorem listAllStores_from (table : List StoreRow) (F : ReadFaults)
    (options : ListStoresOptions) (hq : F.query = none) (hn : F.next = none)
    (hs : ∀ i, F.scan i = none) (hP : 1 ≤ options.Pagination.PageSize)
    (hfrom : options.Pagination.From = [])
    (hid : ((table.filter (listStoresWhere options)).map (fun r => r.id)).Nodup)
    (fuel : Nat) (A S : List StoreRow) (t : GoString)
    (hM : matchingStores table options = A ++ S)
    (ht : (t = [] ∧ A = []) ∨ (t ≠ [] ∧ ∃ x C, S = x :: C ∧ t = x.id))
    (hfuel : S.length + 1 ≤ fuel) :
    listAllStores table F options fuel t = some (S.map StoreRow.toStore) := by
  induction fuel generalizing A S t with
  | zero => omega
  | succ f ih =>
    have hstrict := matchingStores_strict table options hid
    have hmt : matchingStores table
        { options with Pagination := { options.Pagination with From := t } } = S := by
      rcases ht with ⟨rfl, rfl⟩ | ⟨hne, x, C, rfl, rfl⟩
      · rw [options_from_nil options hfrom, hM]
        rfl
      · rw [matchingStores_from table options hfrom hid _ hne, hM]
        rw [hM] at hstrict
        exact filter_from_suffix A C x hstrict
    have hpage := ListStores_page_of_noFaults table F
      { options with Pagination := { options.Pagination with From := t } } hq hn hs
      (by simp only; omega)
    rw [hmt] at hpage
    simp only at hpage
    unfold listAllStores
    by_cases hlt : options.Pagination.PageSize.toNat < S.length
    · cases hg : S.get? options.Pagination.PageSize.toNat with
      | none =>
        rw [List.get?_eq_none] at hg
        omega
      | some r =>
        rw [hpage.2.1 r hg]
        simp only
        have hn1 : 1 ≤ options.Pagination.PageSize.toNat := by omega
        have hdrop := drop_of_get? S _ r hg
        have hSstrict : S.Pairwise (fun a b => storeIdLess a b = true) := by
          rw [hM] at hstrict
          exact (List.pairwise_append.1 hstrict).2.1
        have hrne : r.id ≠ [] := by
          cases hS : S with
          | nil => simp [hS] at hlt
          | cons x C =>
            rw [hS] at hg hSstrict
            have hmem : r ∈ C := by
              cases hps : options.Pagination.PageSize.toNat with
              | zero => omega
              | succ m =>
                rw [hps, List.get?_cons_succ] at hg
                exact List.get?_mem hg
            have hlt2 := (List.pairwise_cons.1 hSstrict).1 r hmem
            unfold storeIdLess at hlt2
            intro hnil
            rw [hnil, strLess_nil_right] at hlt2
            exact absurd hlt2 (by decide)
        rw [if_neg hrne]
        rw [ih (A ++ S.take options.Pagination.PageSize.toNat)
          (S.drop options.Pagination.PageSize.toNat) r.id
          (by rw [hM, List.append_assoc, List.take_append_drop])
          (Or.inr ⟨hrne, r, S.drop (options.Pagination.PageSize.toNat + 1), hdrop, rfl⟩)
          (by rw [List.length_drop]; omega)]
        simp only [Option.map_some', ← List.map_append, List.take_append_drop]
    · rw [hpage.2.2.1 (by omega)]
      simp

/-- C15: over an unchanging table in which the non-deleted stores that match
the filters have distinct ids, for every page size P >= 1 and calls that do
not fail, a client that starts with the empty token and calls `ListStores`
again with each returned token ends on an empty token within N + 1 calls,
and the pages put end to end are the N matching stores: each returned store
has the id, the name and the times of its row, the rows are those of the
table that are not deleted and pass the filters on ids and name, each once,
and the ids of the returned stores are strictly ascending. -/
theorem listStores_pagination_complete (table : List StoreRow) (F : ReadFaults)
    (options : ListStoresOptions) (hq : F.query = none) (hn : F.next = none)
    (hs : ∀ i, F.scan i = none) (hP : 1 ≤ options.Pagination.PageSize)
    (hfrom : options.Pagination.From = [])
    (hid : table.Pairwise
      (fun a b => storeMatches options a → storeMatches options b → a.id ≠ b.id)) :
    (∀ fuel, (matchingStores table options).length + 1 ≤ fuel →
      listAllStores table F options fuel []
        = some ((matchingStores table options).map StoreRow.toStore)) ∧
    List.Forall₂ isStoreOf (matchingStores table options)
      ((matchingStores table options).map StoreRow.toStore) ∧
    (∀ r, r ∈ matchingStores table options ↔
      r ∈ table ∧ r.deletedAt = none ∧ (options.IDs ≠ [] → r.id ∈ options.IDs) ∧
        (options.Name ≠ [] → r.name = options.Name)) ∧
    (matchingStores table options).Perm
      (table.filter (fun r => decide (storeMatches options r))) ∧
    ((matchingStores table options).map StoreRow.toStore).length
      = (table.filter (fun r => decide (storeMatches options r))).length ∧
    (((matchingStores table options).map StoreRow.toStore).map (fun s => s.Id)).Pairwise
      (fun a b => strLess a b = true) := by
  have hwhere : ∀ r, listStoresWhere options r = decide (storeMatches options r) := by
    intro r
    unfold listStoresWhere
    have hd : r.deletedAt.isNone = decide (r.deletedAt = none) := by
      cases r.deletedAt <;> rfl
    by_cases h1 : options.IDs = [] <;> by_cases h2 : options.Name = [] <;>
      by_cases h3 : options.Pagination.From = [] <;>
      simp [hd, h1, h2, h3, List.length_pos, Bool.and_assoc]
  have hstore : ∀ r : StoreRow, isStoreOf r r.toStore := fun r => ⟨rfl, rfl, rfl, rfl⟩
  have hperm := sortSlice_filter_perm storeIdLess table (listStoresWhere options)
    (storeMatches options) hwhere
  have hnodup : ((table.filter (listStoresWhere options)).map (fun r => r.id)).Nodup := by
    unfold List.Nodup
    rw [List.pairwise_map]
    refine (hid.filter (listStoresWhere options)).imp_of_mem ?_
    intro a b ha hb hab
    have ha1 := (List.mem_filter.1 ha).2
    have hb1 := (List.mem_filter.1 hb).2
    rw [hwhere, decide_eq_true_eq] at ha1 hb1
    exact hab ha1 hb1
  refine ⟨fun fuel hfuel => ?_, forall₂_map_of_forall _ _ _ (fun a _ => hstore a), ?_, hperm, ?_,
    ?_⟩
  · exact listAllStores_from table F options hq hn hs hP hfrom hnodup fuel []
      (matchingStores table options) [] rfl (Or.inl ⟨rfl, rfl⟩) hfuel
  · intro r
    refine (mem_sortSlice_filter storeIdLess table (listStoresWhere options)
      (storeMatches options) hwhere r).trans ?_
    constructor
    · rintro ⟨ht, h1, h2, h3, _⟩
      exact ⟨ht, h1, h2, h3⟩
    · rintro ⟨ht, h1, h2, h3⟩
      exact ⟨ht, h1, h2, h3, fun hne => absurd hfrom hne⟩
  · rw [List.length_map]
    exact hperm.length_eq
  · rw [List.map_map, List.pairwise_map]
    exact matchingStores_strict table options hnodup

/-- Witness of C15: of the six rows of `listedStores` the stores `a`, `b` and
`e` match; with page size 2 the client reads them in two pages, with their
names and times. -/
theorem listStores_pagination_complete_witness :
    listAllStores listedStores noReadFaults (listedOptions 2) 4 []
      = some ((matchingStores listedStores (listedOptions 2)).map StoreRow.toStore) ∧
    listAllStores listedStores noReadFaults (listedOptions 2) 4 []
      = some [{ Id := bytes "a", Name := bytes "n", CreatedAt := 1, UpdatedAt := 2 },
              { Id := bytes "b", Name := bytes "n", CreatedAt := 3, UpdatedAt := 4 },
              { Id := bytes "e", Name := bytes "n", CreatedAt := 10, UpdatedAt := 11 }] :=
  ⟨(listStores_pagination_complete listedStores noReadFaults (listedOptions 2) rfl rfl
      (fun _ => rfl) (by decide) rfl (by decide)).1 4 (by decide),
   by decide⟩

/-! ## Claims on `ReadChanges` -/

theorem changeUlidLess_trans (desc : Bool) (a b c : ChangeRow)
    (hab : changeUlidLess desc a b = true) (hbc : changeUlidLess desc b c = true) :
    changeUlidLess desc a c = true := by
  unfold changeUlidLess at *
  cases desc with
  | false => exact strLess_trans hab hbc
  | true => exact strLess_trans hbc hab

theorem changeUlidLess_irrefl (desc : Bool) (a : ChangeRow) : changeUlidLess desc a a = false := by
  unfold changeUlidLess
  cases desc <;> exact strLess_irrefl _

theorem scanChanges_ok {Ctx Key : Type} (E : ChangesEnv Ctx Key) (F : ReadFaults)
    (hs : ∀ i, F.scan i = none) (i : Nat) (rows : List ChangeRow)
    (hdec : ∀ r ∈ rows, decodes E r = true) (changes : List (TupleChange Key)) (ulid : GoString) :
    scanChanges E F i rows changes ulid =
      .ok (changes ++ rows.map (changeOf E), (rows.getLast?.map (fun r => r.ulid)).getD ulid) := by
  induction rows generalizing i changes ulid with
  | nil => simp [scanChanges]
  | cons r rest ih =>
    unfold scanChanges
    rw [hs i]
    simp only
    have hr := hdec r (List.mem_cons_self _ _)
    unfold decodes at hr
    cases hd : decodeContext E r with
    | error msg =>
      rw [hd] at hr
      simp at hr
    | ok context =>
      simp only
      rw [ih (i + 1) (fun x hx => hdec x (List.mem_cons_of_mem _ hx))]
      have hc : changeOf E r = r.toChange E context := by
        unfold changeOf
        rw [hd]
      rw [List.map_cons, hc]
      cases rest with
      | nil => simp
      | cons y ys =>
        rw [List.getLast?_cons_cons]
        cases h : (y :: ys).getLast? with
        | none => simp at h
        | some z => simp

/-- What `ReadChanges` returns when the driver does not fail and the contexts
of the rows of its query decode: `storage.ErrNotFound` for an empty result,
else the changes of the rows with the ulid of the last row. -/
theorem ReadChanges_of_noFaults {Ctx Key : Type} (E : ChangesEnv Ctx Key)
    (table : List ChangeRow) (now : Int) (F : ReadFaults) (store : GoString)
    (filter : ReadChangesFilter) (options : ReadChangesOptions)
    (hq : F.query = none) (hn : F.next = none) (hs : ∀ i, F.scan i = none)
    (hdec : ∀ r ∈ readChangesQuery E table store now filter options, decodes E r = true) :
    ReadChanges E table now F store filter options =
      if readChangesQuery E table store now filter options = [] then
        .error (.handled .ErrNotFound)
      else .ok ((readChangesQuery E table store now filter options).map (changeOf E),
        ((readChangesQuery E table store now filter options).getLast?.map
          (fun r => r.ulid)).getD []) := by
  unfold ReadChanges
  rw [hq]
  simp only
  rw [delivered_of_noNext F hn, scanChanges_ok E F hs 0 _ hdec]
  simp only [List.nil_append, List.length_map, List.length_eq_zero]

theorem readChangesQuery_eq {Ctx Key : Type} (E : ChangesEnv Ctx Key)
    (table : List ChangeRow) (store : GoString) (now : Int)
    (filter : ReadChangesFilter) (options : ReadChangesOptions) :
    readChangesQuery E table store now filter options =
      if options.Pagination.PageSize > 0 then
        (matchingChanges E table store now filter options).take options.Pagination.PageSize.toNat
      else matchingChanges E table store now filter options := rfl

theorem readChangesQuery_eq_nil_iff {Ctx Key : Type} (E : ChangesEnv Ctx Key)
    (table : List ChangeRow) (store : GoString) (now : Int)
    (filter : ReadChangesFilter) (options : ReadChangesOptions) :
    readChangesQuery E table store now filter options = [] ↔
      matchingChanges E table store now filter options = [] := by
  rw [readChangesQuery_eq]
  split
  · rename_i h
    rw [List.take_eq_nil_iff]
    constructor
    · rintro (h0 | h0)
      · omega
      · exact h0
    · exact Or.inr
  · rfl

theorem toInt32_spec (n : Int) :
    -2147483648 ≤ toInt32 n ∧ toInt32 n < 2147483648 ∧ (toInt32 n - n) % 4294967296 = 0 := by
  unfold toInt32
  omega

/-- A row whose context decodes passes the decoding step of the loop. -/
theorem decodes_of_contextDecodes {Ctx Key : Type} (E : ChangesEnv Ctx Key) (r : ChangeRow)
    (h : contextDecodes E r) : decodes E r = true := by
  unfold decodes decodeContext
  by_cases hname : r.conditionName.getD [] ≠ []
  · rw [if_pos hname]
    cases hctx : r.conditionContext with
    | none => rfl
    | some b =>
      obtain ⟨context, hc⟩ := h hname b hctx
      simp only [hc]
  · rw [if_neg hname]

/-- Rows that pass the decoding step of the loop have contexts that decode. -/
theorem contextDecodes_of_all {Ctx Key : Type} (E : ChangesEnv Ctx Key) (l : List ChangeRow)
    (h : l.all (decodes E) = true) : ∀ r ∈ l, contextDecodes E r := by
  intro r hr hname b hb
  have hd := List.all_eq_true.1 h r hr
  unfold decodes decodeContext at hd
  rw [if_pos hname, hb] at hd
  simp only at hd
  cases hu : E.Unmarshal b with
  | ok context => exact ⟨context, rfl⟩
  | error msg =>
    rw [hu] at hd
    simp at hd

/-- C16 (counterexample): the entries `01`, `02`, `03` of the changelog match
and the page size is 2. The query of `ReadChanges` has two rows, not three,
and the token returned with the two changes is `02`, the ulid of the second
row, not `03`, the ulid of the third. With only `01` and `02` in the table,
where no third row exists, the token is `02` as well, not the empty token. -/
theorem readChanges_token_is_last_returned :
    (matchingChanges exampleChangesEnv exampleChanges (bytes "s") 0 exampleChangesFilter
      (exampleChangesOptions 2 [])).map (fun r => r.ulid) = [bytes "01", bytes "02", bytes "03"] ∧
    (readChangesQuery exampleChangesEnv exampleChanges (bytes "s") 0 exampleChangesFilter
      (exampleChangesOptions 2 [])).map (fun r => r.ulid) = [bytes "01", bytes "02"] ∧
    ReadChanges exampleChangesEnv exampleChanges 0 noReadFaults (bytes "s") exampleChangesFilter
        (exampleChangesOptions 2 [])
      = .ok ([changeOf exampleChangesEnv (exampleChange (bytes "01")),
              changeOf exampleChangesEnv (exampleChange (bytes "02"))], bytes "02") ∧
    ReadChanges exampleChangesEnv (exampleChanges.take 2) 0 noReadFaults (bytes "s")
        exampleChangesFilter (exampleChangesOptions 2 [])
      = .ok ([changeOf exampleChangesEnv (exampleChange (bytes "01")),
              changeOf exampleChangesEnv (exampleChange (bytes "02"))], bytes "02") := by
  decide

/-- C16 (amended): for every positive page size P, `ReadChanges` requests P
rows, the first P of the matching entries in the order asked for (the
entries of the table that belong to the store, lie within the horizon, have
the object type asked for and, when a token is given, pass the condition
that `sqlcommon.AddFromUlid` adds for the token and the sort direction).
When the driver does not fail, the contexts of these rows decode and at
least one entry matches, it returns their changes, each with the tuple key,
the operation and the timestamp of its row, and a continuation token equal
to the ulid of the last row returned, whether or not more entries match. -/
theorem readChanges_cursor {Ctx Key : Type} (E : ChangesEnv Ctx Key)
    (table : List ChangeRow) (now : Int) (F : ReadFaults) (store : GoString)
    (filter : ReadChangesFilter) (options : ReadChangesOptions)
    (hq : F.query = none) (hn : F.next = none) (hs : ∀ i, F.scan i = none)
    (hP : 0 < options.Pagination.PageSize)
    (hdec : ∀ r ∈ (matchingChanges E table store now filter options).take
      options.Pagination.PageSize.toNat, contextDecodes E r) :
    readChangesQuery E table store now filter options
      = (matchingChanges E table store now filter options).take
          options.Pagination.PageSize.toNat ∧
    (∀ r, ((matchingChanges E table store now filter options).take
          options.Pagination.PageSize.toNat).getLast? = some r →
      ReadChanges E table now F store filter options
        = .ok (((matchingChanges E table store now filter options).take
            options.Pagination.PageSize.toNat).map (changeOf E), r.ulid) ∧
      List.Forall₂ (isChangeOf E)
        ((matchingChanges E table store now filter options).take
          options.Pagination.PageSize.toNat)
        (((matchingChanges E table store now filter options).take
          options.Pagination.PageSize.toNat).map (changeOf E))) ∧
    (matchingChanges E table store now filter options ≠ [] →
      (((matchingChanges E table store now filter options).take
          options.Pagination.PageSize.toNat).getLast?).isSome = true) ∧
    (∀ r, r ∈ matchingChanges E table store now filter options ↔
      r ∈ table ∧ changeMatches E store now filter options r) ∧
    (matchingChanges E table store now filter options).Perm
      (table.filter (fun r => decide (changeMatches E store now filter options r))) ∧
    (matchingChanges E table store now filter options).Pairwise
      (inChangeOrder options.SortDesc) ∧
    (∀ r, options.Pagination.From ≠ [] →
      readChangesWhere E store now filter options r
        = (readChangesWhere E store now filter
            { options with Pagination := { options.Pagination with From := [] } } r &&
          E.AddFromUlid options.Pagination.From options.SortDesc r.ulid)) := by
  have hwhere : ∀ r, readChangesWhere E store now filter options r
      = decide (changeMatches E store now filter options r) := by
    intro r
    unfold readChangesWhere
    by_cases h1 : filter.ObjectType = [] <;> by_cases h2 : options.Pagination.From = [] <;>
      simp [h1, h2, Bool.and_assoc]
  have horder : (matchingChanges E table store now filter options).Pairwise
      (inChangeOrder options.SortDesc) := by
    refine (sortSlice_sorted_of (changeUlidLess options.SortDesc)
      (changeUlidLess_trans _) (changeUlidLess_irrefl _)
      (table.filter (readChangesWhere E store now filter options))).imp ?_
    intro a b hab
    unfold changeUlidLess at hab
    unfold inChangeOrder
    cases hd : options.SortDesc with
    | false =>
      rw [hd] at hab
      simpa using hab
    | true =>
      rw [hd] at hab
      simpa using hab
  have hchange : ∀ r, contextDecodes E r → isChangeOf E r (changeOf E r) := by
    intro r h
    have hop : -2147483648 ≤ toInt32 r.operation ∧ toInt32 r.operation < 2147483648 ∧
        (toInt32 r.operation - r.operation) % 4294967296 = 0 := by
      unfold toInt32
      omega
    unfold changeOf decodeContext
    by_cases hname : r.conditionName.getD [] ≠ []
    · rw [if_pos hname]
      cases hctx : r.conditionContext with
      | none =>
        exact ⟨⟨E.emptyStruct, Or.inr ⟨Or.inr hctx, rfl⟩, rfl⟩, hop.1, hop.2.1, hop.2.2, rfl⟩
      | some b =>
        obtain ⟨context, hc⟩ := h hname b hctx
        simp only [hc]
        exact ⟨⟨context, Or.inl ⟨hname, b, hctx, hc⟩, rfl⟩, hop.1, hop.2.1, hop.2.2, rfl⟩
    · rw [if_neg hname]
      exact ⟨⟨E.emptyStruct, Or.inr ⟨Or.inl (not_not.1 hname), rfl⟩, rfl⟩,
        hop.1, hop.2.1, hop.2.2, rfl⟩
  have hquery : readChangesQuery E table store now filter options
      = (matchingChanges E table store now filter options).take
          options.Pagination.PageSize.toNat := by
    unfold readChangesQuery matchingChanges applyLimit
    simp only [hP, if_true]
  have hdec1 : ∀ r ∈ readChangesQuery E table store now filter options, decodes E r = true := by
    intro r hr
    rw [hquery] at hr
    exact decodes_of_contextDecodes E r (hdec r hr)
  refine ⟨hquery, ?_, ?_, ?_, ?_, horder,
    ?_⟩
  · intro r hr
    refine ⟨?_, forall₂_map_of_forall _ _ _ (fun a ha => hchange a (hdec a ha))⟩
    have hR : ReadChanges E table now F store filter options =
        if readChangesQuery E table store now filter options = [] then
          .error (.handled .ErrNotFound)
        else .ok ((readChangesQuery E table store now filter options).map (changeOf E),
          ((readChangesQuery E table store now filter options).getLast?.map
            (fun r => r.ulid)).getD []) := by
      unfold ReadChanges
      rw [hq]
      simp only
      rw [delivered_of_noNext F hn, scanChanges_ok E F hs 0 _ hdec1]
      simp only [List.nil_append, List.length_map, List.length_eq_zero]
    rw [hR, hquery]
    have hne : (matchingChanges E table store now filter options).take
        options.Pagination.PageSize.toNat ≠ [] := by
      intro h
      rw [h] at hr
      simp at hr
    rw [if_neg hne, hr]
    rfl
  · intro hne
    have h1 : (matchingChanges E table store now filter options).take
        options.Pagination.PageSize.toNat ≠ [] := by
      rw [Ne, List.take_eq_nil_iff]
      rintro (h0 | h0)
      · omega
      · exact hne h0
    cases hl : ((matchingChanges E table store now filter options).take
        options.Pagination.PageSize.toNat).getLast? with
    | none => exact absurd (List.getLast?_eq_none_iff.1 hl) h1
    | some z => rfl
  · intro r
    exact mem_sortSlice_filter (changeUlidLess options.SortDesc) table
      (readChangesWhere E store now filter options)
      (changeMatches E store now filter options) hwhere r
  · exact sortSlice_filter_perm (changeUlidLess options.SortDesc) table
      (readChangesWhere E store now filter options)
      (changeMatches E store now filter options) hwhere
  · intro r hfrom
    unfold readChangesWhere
    simp [hfrom]

/-- Witness of C16 (amended): of the seven entries of `changelogTable` the
entries `01`, `04`, `06` and `07` match; in descending order with page size 2
the call returns the write of `doc:5#viewer@user:v` at time 60 and the write
of `doc:4#owner@user:w` with condition `c` at time 50, and the token `06`. -/
theorem readChanges_cursor_witness :
    ReadChanges exampleChangesEnv changelogTable 100 noReadFaults (bytes "s") docFilter
        { Pagination := { PageSize := 2, From := [] }, SortDesc := true }
      = .ok (((matchingChanges exampleChangesEnv changelogTable (bytes "s") 100 docFilter
            { Pagination := { PageSize := 2, From := [] }, SortDesc := true }).take 2).map
              (changeOf exampleChangesEnv), bytes "06") ∧
    ReadChanges exampleChangesEnv changelogTable 100 noReadFaults (bytes "s") docFilter
        { Pagination := { PageSize := 2, From := [] }, SortDesc := true }
      = .ok ([{ TupleKey := { object := bytes "doc:5", relation := bytes "viewer",
                              user := bytes "user:v", conditionName := [], context := [] },
                Operation := 0, Timestamp := 60 },
              { TupleKey := { object := bytes "doc:4", relation := bytes "owner",
                              user := bytes "user:w", conditionName := bytes "c",
                              context := [1, 2] },
                Operation := 0, Timestamp := 50 }],
        bytes "06") :=
  ⟨((readChanges_cursor exampleChangesEnv changelogTable 100 noReadFaults (bytes "s") docFilter
      { Pagination := { PageSize := 2, From := [] }, SortDesc := true } rfl rfl (fun _ => rfl)
      (by decide) (contextDecodes_of_all exampleChangesEnv _ (by decide))).2.1
        { store := bytes "s", ulid := bytes "06", objectType := bytes "doc",
          objectID := bytes "4", relation := bytes "owner", user := bytes "user:w",
          operation := 0, conditionName := some (bytes "c"), conditionContext := some [1, 2],
          insertedAt := 50 }
        (by decide)).1,
   by decide⟩

/-- C17 (counterexample): one entry matches, the query and the scan of its row
succeed, and its condition context does not decode: `ReadChanges` returns the
error of the decoder, neither the matching row nor `storage.ErrNotFound`. And
with three matching entries and page size 2 it returns two changes. -/
theorem readChanges_decode_error_and_page_cut :
    matchingChanges exampleChangesEnv [undecodableChange] (bytes "s") 0 exampleChangesFilter
      (exampleChangesOptions 0 []) = [undecodableChange] ∧
    ReadChanges exampleChangesEnv [undecodableChange] 0 noReadFaults (bytes "s")
        exampleChangesFilter (exampleChangesOptions 0 [])
      = .error (.unmarshalError (bytes "unexpected EOF")) ∧
    (matchingChanges exampleChangesEnv exampleChanges (bytes "s") 0 exampleChangesFilter
      (exampleChangesOptions 2 [])).length = 3 ∧
    ReadChanges exampleChangesEnv exampleChanges 0 noReadFaults (bytes "s") exampleChangesFilter
        (exampleChangesOptions 2 [])
      = .ok ([changeOf exampleChangesEnv (exampleChange (bytes "01")),
              changeOf exampleChangesEnv (exampleChange (bytes "02"))], bytes "02") := by
  decide

/-- The method does not consult `rows.Err()`: when the iteration fails before
the first row, three entries match and the call returns `storage.ErrNotFound`;
when it fails after the first row, the call returns one change with a nil error. -/
theorem readChanges_ignores_iteration_error :
    ReadChanges exampleChangesEnv exampleChanges 0
        { query := none, next := some (0, .otherError 1), scan := fun _ => none } (bytes "s")
        exampleChangesFilter (exampleChangesOptions 0 [])
      = .error (.handled .ErrNotFound) ∧
    ReadChanges exampleChangesEnv exampleChanges 0
        { query := none, next := some (1, .otherError 1), scan := fun _ => none } (bytes "s")
        exampleChangesFilter (exampleChangesOptions 0 [])
      = .ok ([changeOf exampleChangesEnv (exampleChange (bytes "01"))], bytes "01") := by
  decide

/-- C17 (amended): when the query succeeds, the iteration over its rows ends
without a driver error, every row scan succeeds and every condition context
read decodes, `ReadChanges` returns `storage.ErrNotFound` if and only if no
entry of the table matches the store, object-type, horizon and cursor
filters; otherwise it returns with a nil error the changes of the matching
entries in the order asked for, each with the tuple key, the operation and
the timestamp of its entry, all of them when the page size is not positive
and the first `PageSize` of them when it is, with the ulid of the last one
as token. -/
theorem readChanges_notFound_iff {Ctx Key : Type} (E : ChangesEnv Ctx Key)
    (table : List ChangeRow) (now : Int) (F : ReadFaults) (store : GoString)
    (filter : ReadChangesFilter) (options : ReadChangesOptions)
    (hq : F.query = none) (hn : F.next = none) (hs : ∀ i, F.scan i = none)
    (hdec : ∀ r ∈ (if options.Pagination.PageSize > 0 then
        (matchingChanges E table store now filter options).take
          options.Pagination.PageSize.toNat
      else matchingChanges E table store now filter options), contextDecodes E r) :
    (ReadChanges E table now F store filter options = .error (.handled .ErrNotFound) ↔
      ∀ r ∈ table, ¬ changeMatches E store now filter options r) ∧
    ((∃ r ∈ table, changeMatches E store now filter options r) →
      ReadChanges E table now F store filter options
        = .ok ((if options.Pagination.PageSize > 0 then
            (matchingChanges E table store now filter options).take
              options.Pagination.PageSize.toNat
          else matchingChanges E table store now filter options).map (changeOf E),
          ((if options.Pagination.PageSize > 0 then
            (matchingChanges E table store now filter options).take
              options.Pagination.PageSize.toNat
          else matchingChanges E table store now filter options).getLast?.map
            (fun r => r.ulid)).getD [])) ∧
    List.Forall₂ (isChangeOf E)
      (if options.Pagination.PageSize > 0 then
        (matchingChanges E table store now filter options).take
          options.Pagination.PageSize.toNat
      else matchingChanges E table store now filter options)
      ((if options.Pagination.PageSize > 0 then
        (matchingChanges E table store now filter options).take
          options.Pagination.PageSize.toNat
      else matchingChanges E table store now filter options).map (changeOf E)) ∧
    (∀ r, r ∈ matchingChanges E table store now filter options ↔
      r ∈ table ∧ changeMatches E store now filter options r) ∧
    (matchingChanges E table store now filter options).Perm
      (table.filter (fun r => decide (changeMatches E store now filter options r))) ∧
    (matchingChanges E table store now filter options).Pairwise
      (inChangeOrder options.SortDesc) := by
  have hwhere : ∀ r, readChangesWhere E store now filter options r
      = decide (changeMatches E store now filter options r) := by
    intro r
    unfold readChangesWhere
    by_cases h1 : filter.ObjectType = [] <;> by_cases h2 : options.Pagination.From = [] <;>
      simp [h1, h2, Bool.and_assoc]
  have horder : (matchingChanges E table store now filter options).Pairwise
      (inChangeOrder options.SortDesc) := by
    refine (sortSlice_sorted_of (changeUlidLess options.SortDesc)
      (changeUlidLess_trans _) (changeUlidLess_irrefl _)
      (table.filter (readChangesWhere E store now filter options))).imp ?_
    intro a b hab
    unfold changeUlidLess at hab
    unfold inChangeOrder
    cases hd : options.SortDesc with
    | false =>
      rw [hd] at hab
      simpa using hab
    | true =>
      rw [hd] at hab
      simpa using hab
  have hchange : ∀ r, contextDecodes E r → isChangeOf E r (changeOf E r) := by
    intro r h
    have hop : -2147483648 ≤ toInt32 r.operation ∧ toInt32 r.operation < 2147483648 ∧
        (toInt32 r.operation - r.operation) % 4294967296 = 0 := by
      unfold toInt32
      omega
    unfold changeOf decodeContext
    by_cases hname : r.conditionName.getD [] ≠ []
    · rw [if_pos hname]
      cases hctx : r.conditionContext with
      | none =>
        exact ⟨⟨E.emptyStruct, Or.inr ⟨Or.inr hctx, rfl⟩, rfl⟩, hop.1, hop.2.1, hop.2.2, rfl⟩
      | some b =>
        obtain ⟨context, hc⟩ := h hname b hctx
        simp only [hc]
        exact ⟨⟨context, Or.inl ⟨hname, b, hctx, hc⟩, rfl⟩, hop.1, hop.2.1, hop.2.2, rfl⟩
    · rw [if_neg hname]
      exact ⟨⟨E.emptyStruct, Or.inr ⟨Or.inl (not_not.1 hname), rfl⟩, rfl⟩,
        hop.1, hop.2.1, hop.2.2, rfl⟩
  have hmem : ∀ r, r ∈ matchingChanges E table store now filter options ↔
      r ∈ table ∧ changeMatches E store now filter options r := fun r =>
    mem_sortSlice_filter (changeUlidLess options.SortDesc) table
      (readChangesWhere E store now filter options)
      (changeMatches E store now filter options) hwhere r
  have hdec1 : ∀ r ∈ readChangesQuery E table store now filter options, decodes E r = true := by
    intro r hr
    have hqe : readChangesQuery E table store now filter options =
        if options.Pagination.PageSize > 0 then
          (matchingChanges E table store now filter options).take
            options.Pagination.PageSize.toNat
        else matchingChanges E table store now filter options := by
      unfold readChangesQuery matchingChanges applyLimit
      rfl
    rw [hqe] at hr
    exact decodes_of_contextDecodes E r (hdec r hr)
  have hR : ReadChanges E table now F store filter options =
      if readChangesQuery E table store now filter options = [] then
        .error (.handled .ErrNotFound)
      else .ok ((readChangesQuery E table store now filter options).map (changeOf E),
        ((readChangesQuery E table store now filter options).getLast?.map
          (fun r => r.ulid)).getD []) := by
    unfold ReadChanges
    rw [hq]
    simp only
    rw [delivered_of_noNext F hn, scanChanges_ok E F hs 0 _ hdec1]
    simp only [List.nil_append, List.length_map, List.length_eq_zero]
  have hnil := readChangesQuery_eq_nil_iff E table store now filter options
  have hnone : matchingChanges E table store now filter options = [] ↔
      ∀ r ∈ table, ¬ changeMatches E store now filter options r := by
    rw [List.eq_nil_iff_forall_not_mem]
    constructor
    · intro h r hr hm
      exact h r ((hmem r).2 ⟨hr, hm⟩)
    · intro h r hr
      exact h r ((hmem r).1 hr).1 ((hmem r).1 hr).2
  refine ⟨?_, ?_, forall₂_map_of_forall _ _ _ (fun a ha => hchange a (hdec a ha)), hmem, ?_,
    horder⟩
  · rw [hR, ← hnone]
    constructor
    · intro h
      by_cases h0 : readChangesQuery E table store now filter options = []
      · exact hnil.1 h0
      · rw [if_neg h0] at h
        cases h
    · intro h
      rw [if_pos (hnil.2 h)]
  · rintro ⟨r, hr, hm⟩
    have hne : matchingChanges E table store now filter options ≠ [] := by
      intro h
      exact (hnone.1 h) r hr hm
    rw [hR, if_neg (fun h => hne (hnil.1 h)), readChangesQuery_eq]
  · exact sortSlice_filter_perm (changeUlidLess options.SortDesc) table
      (readChangesWhere E store now filter options)
      (changeMatches E store now filter options) hwhere

/-- Witness of C17 (amended): no entry of `changelogTable` belongs to store `u`,
and the call for store `u` returns `storage.ErrNotFound`; for store `s` the
entries `01`, `04`, `06` and `07` match, and without a page size the call
returns their four changes and the token `07`. -/
theorem readChanges_notFound_iff_witness :
    ReadChanges exampleChangesEnv changelogTable 100 noReadFaults (bytes "u") docFilter
        (exampleChangesOptions 0 [])
      = .error (.handled .ErrNotFound) ∧
    ReadChanges exampleChangesEnv changelogTable 100 noReadFaults (bytes "s") docFilter
        (exampleChangesOptions 0 [])
      = .ok ((matchingChanges exampleChangesEnv changelogTable (bytes "s") 100 docFilter
            (exampleChangesOptions 0 [])).map (changeOf exampleChangesEnv), bytes "07") ∧
    ReadChanges exampleChangesEnv changelogTable 100 noReadFaults (bytes "s") docFilter
        (exampleChangesOptions 0 [])
      = .ok ([{ TupleKey := { object := bytes "doc:1", relation := bytes "viewer",
                              user := bytes "user:x", conditionName := [], context := [] },
                Operation := 0, Timestamp := 10 },
              { TupleKey := { object := bytes "doc:2", relation := bytes "editor",
                              user := bytes "user:y", conditionName := [], context := [] },
                Operation := 1, Timestamp := 20 },
              { TupleKey := { object := bytes "doc:4", relation := bytes "owner",
                              user := bytes "user:w", conditionName := bytes "c",
                              context := [1, 2] },
                Operation := 0, Timestamp := 50 },
              { TupleKey := { object := bytes "doc:5", relation := bytes "viewer",
                              user := bytes "user:v", conditionName := [], context := [] },
                Operation := 0, Timestamp := 60 }],
        bytes "07") :=
  ⟨(readChanges_notFound_iff exampleChangesEnv changelogTable 100 noReadFaults (bytes "u")
      docFilter (exampleChangesOptions 0 []) rfl rfl (fun _ => rfl)
      (contextDecodes_of_all exampleChangesEnv _ (by decide))).1.2 (by decide),
   ((readChanges_notFound_iff exampleChangesEnv changelogTable 100 noReadFaults (bytes "s")
      docFilter (exampleChangesOptions 0 []) rfl rfl (fun _ => rfl)
      (contextDecodes_of_all exampleChangesEnv _ (by decide))).2.1
      ⟨{ store := bytes "s", ulid := bytes "01", objectType := bytes "doc",
         objectID := bytes "1", relation := bytes "viewer", user := bytes "user:x",
         operation := 0, conditionName := none, conditionContext := none, insertedAt := 10 },
       by decide, by decide⟩).trans (by decide),
   by decide⟩

end SqlServer
